import Mathlib

/-!
Verification of edge-core-js: recovery login and the login stash cache.

A shallow embedding of `src/login/recovery2.js` and of the `stashes` /
`localUsers` reducers of `src/core/login/login-reducer.js`, with the
properties proved about them.

JavaScript values are modelled as follows.

* A `Buffer` is a list of bytes (`Bytes`).
* Code that may throw returns `Except JsError _`.
* A Node-style asynchronous function `f(..., callback)` returns an `Outcome`:
  the exception it throws before the request is made, the error it hands to
  the callback, or the value it hands to the callback.
* Mutable stores are passed explicitly and returned.
* Modules that are not part of the embedded sources (`crypto.js`, `base-x`,
  `Buffer` encodings, `JSON`, `userMap.js`, `account.js`) are fields of a
  `Platform` record, so every theorem holds for all implementations of them.
-/

namespace EdgeCore

/-! ## Values -/

/-- Contents of a `Buffer`: one natural number per byte. -/
abbrev Bytes := List Nat

/-- A JavaScript `Error`, identified by its message. -/
structure JsError where
  message : String
deriving DecidableEq, Repr

/-- The object returned by `crypto.encrypt`: an algorithm tag, an IV and the
ciphertext. It is an object, hence always truthy. -/
structure EncryptedBox where
  encryptionType : Nat
  iv : Bytes
  data : Bytes
deriving DecidableEq, Repr

/-- The `data` argument of `crypto.hmac_sha256`, which `recovery2Id` calls
with a string and `recovery2Auth` with a `Buffer`. -/
inductive HmacData where
  | text (s : String)
  | buffer (b : Bytes)
deriving DecidableEq, Repr

/-- A JSON value, as produced by `JSON.parse`. -/
inductive Json where
  | null
  | bool (b : Bool)
  | num (n : Int)
  | str (s : String)
  | arr (items : List Json)
  | obj (fields : List (String × Json))

/-- The JSON value of an array of strings. -/
def Json.ofStrings (xs : List String) : Json :=
  Json.arr (xs.map Json.str)

/-- How a callback-style function ends. -/
inductive Outcome (α : Type) where
  /-- An exception escaped before any callback was scheduled. -/
  | threw (e : JsError)
  /-- The callback was called as `callback(err)`. -/
  | failed (e : JsError)
  /-- The callback was called as `callback(null, value)`. -/
  | done (value : α)

/-- A key/value store of strings (`localStorage` and the per-user view of it). -/
structure Storage where
  getItem : String → Option String

/-- The effect of `storage.setItem(key, value)`. -/
def Storage.setItem (s : Storage) (key value : String) : Storage :=
  ⟨fun k => if k = key then some value else s.getItem k⟩

/-- The `data` member of the recovery setup request. -/
structure Recovery2Data where
  recovery2Id : String
  recovery2Auth : List String
  recovery2Box : EncryptedBox
  recovery2KeyBox : EncryptedBox
  question2Box : EncryptedBox
deriving DecidableEq, Repr

/-- The request bodies built in `recovery2.js`. -/
inductive Request where
  /-- Body of `login`: `{recovery2Id, recovery2Auth}`. -/
  | login (recovery2Id : String) (recovery2Auth : List String)
  /-- Body of `questions`: `{recovery2Id}`. -/
  | questions (recovery2Id : String)
  /-- Body of `setup`: `{userId, passwordAuth, data}`. -/
  | setup (userId : String) (passwordAuth : String) (data : Recovery2Data)
deriving DecidableEq, Repr

/-- The members of a server reply that `recovery2.js` reads. A member that is
missing (or otherwise falsy) is `none`. -/
structure Reply where
  recovery2Box : Option EncryptedBox
  question2Box : Option EncryptedBox
deriving DecidableEq, Repr

/-- An `account.Account`: `login` builds it as
`new account.Account(ctx, username, dataKey)` and `setup` reads its members. -/
structure Account where
  username : String
  dataKey : Bytes
deriving DecidableEq, Repr

/-- The modules `recovery2.js` requires that are outside the embedded sources. -/
structure Platform where
  /-- The function `crypto.hmac_sha256(data, key)`. -/
  hmac_sha256 : HmacData → Bytes → Bytes
  /-- The function `crypto.encrypt(data, key)`. -/
  encrypt : Bytes → Bytes → EncryptedBox
  /-- The function `crypto.decrypt(box, key)`, which throws on a bad box or key. -/
  decrypt : EncryptedBox → Bytes → Except JsError Bytes
  /-- The bytes `crypto.random(n)` returns in this run. -/
  random : Nat → Bytes
  /-- The function `base58.encode`. -/
  base58Encode : Bytes → String
  /-- The function `base58.decode`, which throws on a malformed string. -/
  base58Decode : String → Except JsError Bytes
  /-- The method `buffer.toString('base64')`. -/
  base64 : Bytes → String
  /-- The constructor `Buffer(string, 'utf-8')`. -/
  utf8Encode : String → Bytes
  /-- The method `buffer.toString('utf8')`. -/
  utf8Decode : Bytes → String
  /-- The function `JSON.stringify`. -/
  jsonStringify : Json → String
  /-- The function `JSON.parse`, which throws on malformed text. -/
  jsonParse : String → Except JsError Json
  /-- The function `userMap.normalize`. -/
  normalize : String → Except JsError String
  /-- The function `userMap.getUserId(localStorage, username)`. -/
  getUserId : Storage → String → Except JsError String
  /-- The function `userMap.insert(localStorage, username, userId)`: the
  exception it throws, if any, and the storage it leaves. -/
  insert : Storage → String → String → Option JsError × Storage
  /-- The call `account.saveLoginReply(new UserStorage(localStorage, username),
  reply, dataKey)`: the exception it throws, if any, and the storage it leaves. -/
  saveLoginReply : Storage → String → Reply → Bytes → Option JsError × Storage
  /-- The member `account.userId`. -/
  userId : Account → String
  /-- The member `account.passwordAuth`. -/
  passwordAuth : Account → Bytes

/-- The context object `ctx`: its `localStorage` and the reply of
`ctx.authRequest(method, path, body, callback)`. -/
structure Context where
  localStorage : Storage
  authRequest : String → String → Request → Except JsError Reply

/-! ## `recovery2.js` -/

/-- The function `parseKey`. -/
def parseKey (P : Platform) (key : String) : Except JsError Bytes :=
  P.base58Decode key

/-- The function `encodeKey`. -/
def encodeKey (P : Platform) (key : Bytes) : String :=
  P.base58Encode key

/-- The function `recovery2Id`. -/
def recovery2Id (P : Platform) (recovery2Key : Bytes) (username : String) : Bytes :=
  P.hmac_sha256 (HmacData.text username) recovery2Key

/-- The assignment `array[i] = value` for `i ≤ array.length` (the loop of
`recovery2Auth` never assigns past the end). -/
def assignIndex (array : List String) (i : Nat) (value : String) : List String :=
  if i < array.length then array.set i value else array ++ [value]

/-- The `for` loop of `recovery2Auth`, from index `i` with the array built so
far; `fuel` bounds the iterations left. -/
def recovery2AuthLoop (P : Platform) (recovery2Key : Bytes) (answers : List String) :
    Nat → Nat → List String → List String
  | 0, _, out => out
  | fuel + 1, i, out =>
    if h : i < answers.length then
      let data := P.utf8Encode (answers.get ⟨i, h⟩)
      let auth := P.hmac_sha256 (HmacData.buffer data) recovery2Key
      recovery2AuthLoop P recovery2Key answers fuel (i + 1) (assignIndex out i (P.base64 auth))
    else out

/-- The function `recovery2Auth` (the argument is an array of strings by type,
so the `TypeError` guard passes). -/
def recovery2Auth (P : Platform) (recovery2Key : Bytes) (answers : List String) : List String :=
  recovery2AuthLoop P recovery2Key answers answers.length 0 []

/-- Lines 66-69 of `login`: caching the reply. Returns the exception thrown,
if any, and the storage left behind. -/
def cacheLogin (P : Platform) (localStorage : Storage) (username : String) (reply : Reply)
    (dataKey : Bytes) : Option JsError × Storage :=
  match P.getUserId localStorage username with
  | Except.error e => (some e, localStorage)
  | Except.ok userId =>
    match P.insert localStorage username userId with
    | (some e, ls1) => (some e, ls1)
    | (none, ls1) => P.saveLoginReply ls1 username reply dataKey

/-- The function `login`: the outcome and the `ctx.localStorage` it leaves. -/
def login (P : Platform) (ctx : Context) (recovery2Key : String) (username : String)
    (answers : List String) : Outcome Account × Storage :=
  match parseKey P recovery2Key with
  | Except.error e => (Outcome.threw e, ctx.localStorage)
  | Except.ok recovery2Key =>
    match P.normalize username with
    | Except.error e => (Outcome.threw e, ctx.localStorage)
    | Except.ok username =>
      let request := Request.login (P.base64 (recovery2Id P recovery2Key username))
        (recovery2Auth P recovery2Key answers)
      match ctx.authRequest "GET" "/v2/login" request with
      | Except.error err => (Outcome.failed err, ctx.localStorage)
      | Except.ok reply =>
        match reply.recovery2Box with
        | none => (Outcome.failed ⟨"Missing data for recovery v2 login"⟩, ctx.localStorage)
        | some recovery2Box =>
          match P.decrypt recovery2Box recovery2Key with
          | Except.error e => (Outcome.failed e, ctx.localStorage)
          | Except.ok dataKey =>
            match cacheLogin P ctx.localStorage username reply dataKey with
            | (some e, ls) => (Outcome.failed e, ls)
            | (none, ls) => (Outcome.done ⟨username, dataKey⟩, ls)

/-- The function `questions`. -/
def questions (P : Platform) (ctx : Context) (recovery2Key : String) (username : String) :
    Outcome Json :=
  match parseKey P recovery2Key with
  | Except.error e => Outcome.threw e
  | Except.ok recovery2Key =>
    match P.normalize username with
    | Except.error e => Outcome.threw e
    | Except.ok username =>
      let request := Request.questions (P.base64 (recovery2Id P recovery2Key username))
      match ctx.authRequest "GET" "/v2/login" request with
      | Except.error err => Outcome.failed err
      | Except.ok reply =>
        match reply.question2Box with
        | none => Outcome.failed ⟨"Account has no recovery questions"⟩
        | some question2Box =>
          match P.decrypt question2Box recovery2Key with
          | Except.error e => Outcome.failed e
          | Except.ok questions =>
            match P.jsonParse (P.utf8Decode questions) with
            | Except.error e => Outcome.failed e
            | Except.ok questions => Outcome.done questions

/-- JavaScript truthiness of `storage.getItem(key)`: `null` and the empty
string are falsy. -/
def truthyItem : Option String → Option String
  | some s => if s = "" then none else some s
  | none => none

/-- Lines 124-129 of `setup`: the cached key, parsed, or 32 fresh random bytes. -/
def setupKey (P : Platform) (userStorage : Storage) : Except JsError Bytes :=
  match truthyItem (userStorage.getItem "recovery2Key") with
  | some recovery2Key => parseKey P recovery2Key
  | none => Except.ok (P.random 32)

/-- Lines 131-145 of `setup`: the boxes and the request body. -/
def setupRequest (P : Platform) (account : Account) (recovery2Key : Bytes)
    (questions answers : List String) : Request :=
  let question2Box := P.encrypt (P.utf8Encode (P.jsonStringify (Json.ofStrings questions)))
    recovery2Key
  let recovery2Box := P.encrypt account.dataKey recovery2Key
  let recovery2KeyBox := P.encrypt recovery2Key account.dataKey
  Request.setup (P.userId account) (P.base64 (P.passwordAuth account))
    { recovery2Id := P.base64 (recovery2Id P recovery2Key account.username)
      recovery2Auth := recovery2Auth P recovery2Key answers
      recovery2Box := recovery2Box
      recovery2KeyBox := recovery2KeyBox
      question2Box := question2Box }

/-- What a run of `setup` leaves: the request handed to `ctx.authRequest` (if
one was made), the outcome, and `account.userStorage`. -/
structure SetupRun where
  sent : Option Request
  outcome : Outcome String
  userStorage : Storage

/-- The function `setup` (both arguments are arrays of strings by type, so
the `TypeError` guards pass). -/
def setup (P : Platform) (ctx : Context) (account : Account) (userStorage : Storage)
    (questions answers : List String) : SetupRun :=
  match setupKey P userStorage with
  | Except.error e => ⟨none, Outcome.threw e, userStorage⟩
  | Except.ok recovery2Key =>
    let request := setupRequest P account recovery2Key questions answers
    match ctx.authRequest "PUT" "/v2/login/recovery2" request with
    | Except.error err => ⟨some request, Outcome.failed err, userStorage⟩
    | Except.ok _ =>
      let recovery2Key := encodeKey P recovery2Key
      ⟨some request, Outcome.done recovery2Key, userStorage.setItem "recovery2Key" recovery2Key⟩

/-! ## JavaScript objects used as dictionaries -/

/-- The own enumerable string-keyed properties of a plain object, in the
order `Object.keys` lists them. The prototype of the object is not part of
the model: what is read is the own property. -/
abbrev JsObject (α : Type) := List (String × α)

/-- The value of a decimal digit. -/
def digitValue (c : Char) : Option Nat :=
  if c.isDigit then some (c.toNat - 48) else none

/-- The number written by a list of decimal digits, after the digits `acc`. -/
def parseDigits : List Char → Nat → Option Nat
  | [], acc => some acc
  | c :: cs, acc =>
    match digitValue c with
    | some d => parseDigits cs (10 * acc + d)
    | none => none

/-- The array index a property key denotes, if it is a canonical numeric
string below `2^32 - 1`. Such keys are listed first, in ascending order. -/
def arrayIndex? (key : String) : Option Nat :=
  match key.data with
  | [] => none
  | c :: cs =>
    if c = '0' ∧ cs ≠ [] then none
    else
      match parseDigits (c :: cs) 0 with
      | some n => if n < 4294967295 then some n else none
      | none => none

namespace JsObject

/-- The result of `Object.keys(o)`. -/
def keys {α : Type} (o : JsObject α) : List String :=
  o.map Prod.fst

/-- The result of `o[key]` for an own property (`none` when there is none). -/
def get {α : Type} : JsObject α → String → Option α
  | [], _ => none
  | (k, v) :: rest, key => if k = key then some v else get rest key

/-- Overwrites the value of the existing property `key`. -/
def replace {α : Type} (key : String) (value : α) : JsObject α → JsObject α
  | [] => []
  | (k, v) :: rest =>
    if k = key then (k, value) :: rest else (k, v) :: replace key value rest

/-- Adds the new array-index property `key`, of index `n`, keeping the index
keys ascending and ahead of the other keys. -/
def insertIndex {α : Type} (n : Nat) (key : String) (value : α) : JsObject α → JsObject α
  | [] => [(key, value)]
  | (k, v) :: rest =>
    match arrayIndex? k with
    | some m =>
      if n < m then (key, value) :: (k, v) :: rest
      else (k, v) :: insertIndex n key value rest
    | none => (key, value) :: (k, v) :: rest

/-- The own property `key` made to hold `value`, as `Object.defineProperty`
does it: an existing property is overwritten, a new one takes its place in
the key order. -/
def define {α : Type} (o : JsObject α) (key : String) (value : α) : JsObject α :=
  match get o key with
  | some _ => replace key value o
  | none =>
    match arrayIndex? key with
    | some n => insertIndex n key value o
    | none => o ++ [(key, value)]

/-- The effect of `o[key] = value` on the own properties of a plain object,
whose prototype chain ends in `Object.prototype` and has writable data
properties only before it. An own property is overwritten. Without one, the
name `__proto__` reaches the setter that `Object.prototype` has for it, which
changes the prototype of `o` and makes no own property; every other name
becomes a new own property. -/
def set {α : Type} (o : JsObject α) (key : String) (value : α) : JsObject α :=
  match get o key with
  | some _ => replace key value o
  | none => if key = "__proto__" then o else define o key value

/-- The effect of `delete o[key]`. -/
def delete {α : Type} (o : JsObject α) (key : String) : JsObject α :=
  o.filter (fun entry => entry.1 ≠ key)

end JsObject

/-! ## `login-reducer.js` -/

/-- A login stash node, with the members the reducers read. `lastLogin` is
a timestamp in milliseconds. -/
structure LoginStash where
  loginId : Bytes
  username : Option String
  appId : String
  lastLogin : Option Nat
  passwordAuthBox : Option EncryptedBox
  loginAuthBox : Option EncryptedBox
  pin2Key : Option Bytes
  recovery2Key : Option Bytes
  voucherId : Option String
  children : List LoginStash

/-- The type `LoginStashMap`. -/
abbrev LoginStashMap := JsObject LoginStash

/-- The entries of `localUsers`. -/
structure EdgeUserInfo where
  keyLoginEnabled : Bool
  lastLogin : Option Nat
  loginId : String
  pinLoginEnabled : Bool
  recovery2Key : Option String
  username : String
  voucherId : Option String
deriving DecidableEq, Repr

/-- The functions `login-reducer.js` imports from modules outside the
embedded sources. -/
structure LoginDeps where
  /-- The function `searchTree` of `login.js`. -/
  searchTree : LoginStash → (LoginStash → Bool) → Option LoginStash
  /-- The function `findPin2Stash` of `pin2.js`. -/
  findPin2Stash : LoginStash → String → Option LoginStash
  /-- The function `base58.stringify`. -/
  base58 : Bytes → String

/-- The payload of the `INIT` action, with the members the `login` reducers read. -/
structure InitPayload where
  apiKey : String
  appId : String
  authServer : String
  stashes : List LoginStash

/-- The actions the `stashes` reducer distinguishes. -/
inductive RootAction where
  | INIT (payload : InitPayload)
  | LOGIN_STASH_DELETED (payload : String)
  | LOGIN_STASH_SAVED (payload : LoginStash)
  | OTHER (type : String)

/-- The body of the `for ... of` loop in the `INIT` case of `stashes`. -/
def stashesInitStep (out : LoginStashMap) (stash : LoginStash) : LoginStashMap :=
  match stash.username with
  | some username => JsObject.set out username stash
  | none => out

/-- The reducer `stashes`; `Except.error` is the exception it throws. -/
def stashes (state : LoginStashMap) (action : RootAction) : Except JsError LoginStashMap :=
  match action with
  | RootAction.INIT payload =>
    Except.ok (payload.stashes.foldl stashesInitStep [])
  | RootAction.LOGIN_STASH_DELETED payload =>
    let copy := state
    Except.ok (JsObject.delete copy payload)
  | RootAction.LOGIN_STASH_SAVED payload =>
    match payload.username with
    | none => Except.error ⟨"Missing username"⟩
    | some username =>
      let out := state
      Except.ok (JsObject.set out username payload)
  | RootAction.OTHER _ => Except.ok state

/-- The body of the `for ... of` loop of `localUsers`, for the key `username`
whose value is `stashTree`. -/
def localUser (D : LoginDeps) (appId : String) (username : String) (stashTree : LoginStash) :
    EdgeUserInfo :=
  let stash := D.searchTree stashTree (fun stash => stash.appId = appId)
  let keyLoginEnabled :=
    match stash with
    | some stash => stash.passwordAuthBox.isSome || stash.loginAuthBox.isSome
    | none => false
  let pin2Stash := D.findPin2Stash stashTree appId
  let recovery2Key := stashTree.recovery2Key
  { keyLoginEnabled := keyLoginEnabled
    lastLogin := stashTree.lastLogin
    loginId := D.base58 stashTree.loginId
    pinLoginEnabled := pin2Stash.isSome
    recovery2Key := recovery2Key.map D.base58
    username := username
    voucherId := stash.bind (fun stash => stash.voucherId) }

/-- The `for ... of` loop of `localUsers` over the keys still to visit, with
the array `out` built so far; `none` stands for the `TypeError` of reading a
member of `undefined`. -/
def localUsersLoop (D : LoginDeps) (appId : String) (stashes : LoginStashMap) :
    List String → List EdgeUserInfo → Option (List EdgeUserInfo)
  | [], out => some out
  | username :: rest, out =>
    match JsObject.get stashes username with
    | none => none
    | some stashTree =>
      localUsersLoop D appId stashes rest (out ++ [localUser D appId username stashTree])

/-- The selector `localUsers`, computed from `appId` and `stashes`. -/
def localUsers (D : LoginDeps) (appId : String) (stashes : LoginStashMap) :
    Option (List EdgeUserInfo) :=
  localUsersLoop D appId stashes (JsObject.keys stashes) []

/-! ## A concrete platform

A small executable instance of `Platform`, on which the functions above can
be evaluated. Its "encryption" stores the key beside the data and its
encodings are unary, which is enough for the algebraic laws the real
libraries satisfy. -/

/-- Unary code of a byte string: byte `n` is `n` letters `x` and a full stop. -/
def unaryCode : Bytes → List Char
  | [] => []
  | n :: rest => List.replicate n 'x' ++ '.' :: unaryCode rest

/-- Reads a unary code back: `run` counts the letters of the current byte. -/
def unaryDecode : List Char → Nat → Bytes
  | [], _ => []
  | c :: cs, run => if c = '.' then run :: unaryDecode cs 0 else unaryDecode cs (run + 1)

/-- Splits text into the lines that end with a line feed; `line` holds the
current line, reversed. -/
def splitLines : List Char → List Char → List String
  | [], _ => []
  | c :: cs, line =>
    if c = '\n' then String.mk line.reverse :: splitLines cs [] else splitLines cs (c :: line)

/-- Writes an array of strings one per line; other values become empty text. -/
def linesOfJson : Json → String
  | Json.arr items =>
    String.mk (items.foldr
      (fun item text =>
        match item with
        | Json.str s => s.data ++ '\n' :: text
        | _ => text) [])
  | _ => ""

/-- The concrete platform. -/
def demoPlatform : Platform where
  hmac_sha256 := fun data key =>
    match data with
    | HmacData.text s => key ++ s.data.map Char.toNat
    | HmacData.buffer b => key ++ b
  encrypt := fun data key => ⟨0, key, data⟩
  decrypt := fun box key =>
    if box.iv = key then Except.ok box.data else Except.error ⟨"Invalid password"⟩
  random := fun n => List.replicate n 7
  base58Encode := fun key => String.mk (unaryCode key)
  base58Decode := fun text =>
    if text.data.all (fun c => c = 'x' ∨ c = '.') then Except.ok (unaryDecode text.data 0)
    else Except.error ⟨"Non-base58 character"⟩
  base64 := fun b => String.mk (unaryCode b)
  utf8Encode := fun s => s.data.map Char.toNat
  utf8Decode := fun b => String.mk (b.map Char.ofNat)
  jsonStringify := linesOfJson
  jsonParse := fun text => Except.ok (Json.ofStrings (splitLines text.data []))
  normalize := fun username => Except.ok username
  getUserId := fun _ username => Except.ok username
  insert := fun localStorage username userId =>
    (none, localStorage.setItem ("userMap." ++ username) userId)
  saveLoginReply := fun localStorage _ _ _ => (none, localStorage)
  userId := fun account => account.username
  passwordAuth := fun _ => [1, 2, 3]

/-- The proof string the specification gives for one answer: base64 of the
HMAC-SHA256 of its UTF-8 bytes under the recovery key. -/
def answerProof (P : Platform) (recovery2Key : Bytes) (answer : String) : String :=
  P.base64 (P.hmac_sha256 (HmacData.buffer (P.utf8Encode answer)) recovery2Key)

/-- An empty store. -/
def emptyStorage : Storage :=
  ⟨fun _ => none⟩

/-- A store whose `recovery2Key` item is `value`. -/
def storageWithKey (value : String) : Storage :=
  emptyStorage.setItem "recovery2Key" value

/-- A server that rejects every request. -/
def failingContext : Context :=
  ⟨emptyStorage, fun _ _ _ => Except.error ⟨"Network error"⟩⟩

/-- A server that answers every request with `reply`. -/
def replyingContext (reply : Reply) : Context :=
  ⟨emptyStorage, fun _ _ _ => Except.ok reply⟩

/-- An account with a two-byte data key. -/
def demoAccount : Account :=
  ⟨"alice", [4, 2]⟩

/-- The recovery box of `demoAccount` under the key `[1, 2]` on the concrete
platform. -/
def demoRecovery2Box : EncryptedBox :=
  ⟨0, [1, 2], [4, 2]⟩

/-- The setup request data of `demoAccount` under the key `[1, 2]` for the
question `q` and the answer `a`, on the concrete platform. -/
def demoSetupData : Recovery2Data :=
  { recovery2Id := "x.xx." ++ String.mk (unaryCode ("alice".data.map Char.toNat))
    recovery2Auth := ["x.xx." ++ String.mk (unaryCode [97])]
    recovery2Box := demoRecovery2Box
    recovery2KeyBox := ⟨0, [4, 2], [1, 2]⟩
    question2Box := ⟨0, [1, 2], [113, 10]⟩ }

/-- A root stash without a username and without children. -/
def usernamelessStash : LoginStash :=
  { loginId := [1, 2, 3]
    username := none
    appId := ""
    lastLogin := some 1000
    passwordAuthBox := none
    loginAuthBox := some ⟨0, [], []⟩
    pin2Key := some [9]
    recovery2Key := none
    voucherId := none
    children := [] }

/-! ## `fake-db.ts`: pending vouchers -/

/-- Modelled from the spec: the status of a voucher, `pending`, `approved` or
`rejected` (the type declaration is in `fake-types`, outside the embedded
sources). -/
inductive VoucherStatus where
  | approved
  | pending
  | rejected
deriving DecidableEq, Repr

/-- A voucher stored with a login in the fake database. Dates are timestamps
in milliseconds. -/
structure EdgeVoucherDump where
  voucherId : String
  voucherAuth : Bytes
  status : VoucherStatus
  activates : Nat
  created : Nat
  deviceDescription : Option String
  ip : String
  ipDescription : String
deriving DecidableEq, Repr

/-- The entries `makePendingVouchers` returns. -/
structure EdgePendingVoucher where
  voucherId : String
  activates : Nat
  created : Nat
  deviceDescription : Option String
  ip : String
  ipDescription : String
deriving DecidableEq, Repr

/-- Scrypt parameters stored beside a password box. -/
structure EdgeSnrp where
  salt_hex : Bytes
  n : Nat
  r : Nat
  p : Nat
deriving DecidableEq, Repr

/-- A `Uint8Array` object, given by its identity: `===` on two of them holds
when they are the same object. The bytes an object holds are read through a
`contents` function where the code looks at them. -/
structure Uint8Array where
  ref : Nat
deriving DecidableEq, Repr

/-- The type `DbLogin`: a login of the fake database, with the members
`fake-db.ts` reads. The members `loginId` and `parentId` are objects, which
`getLoginsByParent` compares with `===`; the other byte arrays are given by
their bytes. -/
structure DbLogin where
  appId : String
  created : Option Nat
  loginId : Uint8Array
  parentId : Option Uint8Array
  parentBox : Option EncryptedBox
  passwordAuthBox : Option EncryptedBox
  passwordAuthSnrp : Option EdgeSnrp
  passwordBox : Option EncryptedBox
  passwordKeySnrp : Option EdgeSnrp
  pin2Box : Option EncryptedBox
  pin2Id : Option Bytes
  pin2KeyBox : Option EncryptedBox
  pin2TextBox : Option EncryptedBox
  question2Box : Option EncryptedBox
  recovery2Box : Option EncryptedBox
  recovery2Id : Option Bytes
  recovery2KeyBox : Option EncryptedBox
  otpKey : Option Bytes
  otpResetDate : Option Nat
  otpTimeout : Option Nat
  vouchers : List EdgeVoucherDump
  loginAuthBox : Option EncryptedBox
  userId : Option Bytes
  userTextBox : Option EncryptedBox
  keyBoxes : List EncryptedBox
  mnemonicBox : Option EncryptedBox
  rootKeyBox : Option EncryptedBox
  syncKeyBox : Option EncryptedBox
deriving DecidableEq, Repr

/-- The function `makePendingVouchers`. -/
def makePendingVouchers (login : DbLogin) : List EdgePendingVoucher :=
  (login.vouchers.filter (fun voucher => voucher.status = VoucherStatus.pending)).map
    (fun voucher =>
      { activates := voucher.activates
        created := voucher.created
        deviceDescription := voucher.deviceDescription
        ip := voucher.ip
        ipDescription := voucher.ipDescription
        voucherId := voucher.voucherId })

/-- The pending entry the specification gives for one voucher: the same
voucherId, activates, created, deviceDescription, ip and ipDescription. -/
def pendingEntry (voucher : EdgeVoucherDump) : EdgePendingVoucher :=
  ⟨voucher.voucherId, voucher.activates, voucher.created, voucher.deviceDescription,
    voucher.ip, voucher.ipDescription⟩

/-! ## `context-api.ts` and `vouchers.js` -/

/-- A decrypted login tree node, with the members the embedded code reads. -/
structure LoginTree where
  appId : String
  loginId : Bytes
  loginKey : Bytes
  children : List LoginTree

/-- The state of one logged-in account, with the member `forgetAccount` reads. -/
structure AccountState where
  stashTree : LoginStash

/-- The members of `ai.props.state` that `forgetAccount` reads. -/
structure RootState where
  accountIds : List String
  accounts : JsObject AccountState

/-- The options of `loginWithKey` that it reads itself; the object is passed
on to `makeAccount` as it is. -/
structure KeyLoginOpts where
  now : Option Nat
  useLoginId : Option Bool
deriving DecidableEq, Repr

/-- The functions `context-api.ts` imports from modules outside the embedded
sources, for accounts of type `A`. A promise is represented by the way it
settles. -/
structure ContextDeps (A : Type) where
  /-- The function `base58.parse`, which throws on malformed text. -/
  base58Parse : String → Except JsError Bytes
  /-- The function `fixUsername`, which throws on a bad username. -/
  fixUsername : String → Except JsError String
  /-- The function `verifyData` of `util/crypto/verify`. -/
  verifyData : Bytes → Bytes → Bool
  /-- The `stashTree` member of `getStashById(ai, loginId)`. -/
  getStashById : Bytes → Except JsError (Option LoginStash)
  /-- The function `getStashByUsername(ai, username)`. -/
  getStashByUsername : String → Option LoginStash
  /-- The function `makeLoginTree(stashTree, loginKey, appId)`. -/
  makeLoginTree : LoginStash → Bytes → String → Except JsError LoginTree
  /-- The function `findAppLogin(loginTree, appId)`. -/
  findAppLogin : LoginTree → String → Except JsError LoginTree
  /-- How the promise of `saveStash(ai, stashTree)` settles. -/
  saveStash : LoginStash → Except JsError Unit
  /-- How the promise of `syncLogin(ai, loginTree, login)` settles. -/
  syncLogin : LoginTree → LoginTree → Except JsError Unit
  /-- How the promise of `removeStash(ai, loginId)` settles. -/
  removeStash : Bytes → Except JsError Unit
  /-- How the promise of `makeAccount(ai, appId, loginTree, loginType, opts)` settles. -/
  makeAccount : String → LoginTree → String → KeyLoginOpts → Except JsError A
  /-- The value of `new Date()` during the call. -/
  currentTime : Nat

/-- What a call of `forgetAccount` leaves: how its promise settles and the
arguments of the calls of `removeStash`. -/
structure ForgetRun where
  result : Except JsError Unit
  removed : List Bytes

/-- The safety-check loop of `forgetAccount` over the account ids still to
visit; `Except.error` is the exception thrown. -/
def forgetAccountCheck {A : Type} (D : ContextDeps A) (accounts : JsObject AccountState)
    (loginId : Bytes) : List String → Except JsError Unit
  | [] => Except.ok ()
  | accountId :: rest =>
    match JsObject.get accounts accountId with
    | none => Except.error ⟨"Cannot read properties of undefined (reading 'stashTree')"⟩
    | some accountState =>
      if D.verifyData accountState.stashTree.loginId loginId then
        Except.error ⟨"Cannot remove logged-in user"⟩
      else forgetAccountCheck D accounts loginId rest

/-- The method `forgetAccount`. -/
def forgetAccount {A : Type} (D : ContextDeps A) (state : RootState) (rootLoginId : String) :
    ForgetRun :=
  match D.base58Parse rootLoginId with
  | Except.error e => ⟨Except.error e, []⟩
  | Except.ok loginId =>
    match forgetAccountCheck D state.accounts loginId state.accountIds with
    | Except.error e => ⟨Except.error e, []⟩
    | Except.ok _ => ⟨D.removeStash loginId, [loginId]⟩

/-- What a call of `loginWithKey` leaves behind. -/
structure KeyLoginRun (A : Type) where
  /-- How the promise `loginWithKey` returns settles. -/
  result : Except JsError A
  /-- The cached stash object that was looked up, as it is after the call. -/
  stashTree : Option LoginStash
  /-- The login tree `makeLoginTree` returned. -/
  loginTree : Option LoginTree
  /-- The arguments of the calls of `saveStash`. -/
  saved : List LoginStash
  /-- The arguments of the calls of `syncLogin`. -/
  synced : List (LoginTree × LoginTree)
  /-- The arguments of the calls of `ai.props.onError`. -/
  reported : List JsError
  /-- The login trees handed to `makeAccount`. -/
  accounts : List LoginTree

/-- Lines 107-109 of `loginWithKey`: the stash lookup. -/
def lookupStashTree {A : Type} (D : ContextDeps A) (useLoginId : Bool)
    (usernameOrLoginId : String) : Except JsError (Option LoginStash) :=
  if useLoginId then
    match D.base58Parse usernameOrLoginId with
    | Except.error e => Except.error e
    | Except.ok loginId => D.getStashById loginId
  else
    match D.fixUsername usernameOrLoginId with
    | Except.error e => Except.error e
    | Except.ok username => Except.ok (D.getStashByUsername username)

/-- The handler `.catch(() => {})` on the promise of `saveStash`: nothing is
reported, however the promise settles. -/
def swallowed (_settled : Except JsError Unit) : List JsError :=
  []

/-- The handler `.catch(error => ai.props.onError(error))` on the promise of
`syncLogin`: the errors handed to `onError`. -/
def reportedTo (settled : Except JsError Unit) : List JsError :=
  match settled with
  | Except.error error => [error]
  | Except.ok _ => []

/-- The method `loginWithKey` of the context whose appId is `appId`. -/
def loginWithKey {A : Type} (D : ContextDeps A) (appId : String)
    (usernameOrLoginId loginKey : String) (opts : KeyLoginOpts) : KeyLoginRun A :=
  let now := opts.now.getD D.currentTime
  let useLoginId := opts.useLoginId.getD false
  match lookupStashTree D useLoginId usernameOrLoginId with
  | Except.error e => ⟨Except.error e, none, none, [], [], [], []⟩
  | Except.ok none =>
    ⟨Except.error ⟨"User does not exist on this device"⟩, none, none, [], [], [], []⟩
  | Except.ok (some stashTree) =>
    match D.base58Parse loginKey with
    | Except.error e => ⟨Except.error e, some stashTree, none, [], [], [], []⟩
    | Except.ok key =>
      match D.makeLoginTree stashTree key appId with
      | Except.error e => ⟨Except.error e, some stashTree, none, [], [], [], []⟩
      | Except.ok loginTree =>
        let stashTree := { stashTree with lastLogin := some now }
        let saveErrors := swallowed (D.saveStash stashTree)
        match D.findAppLogin loginTree appId with
        | Except.error e =>
          ⟨Except.error e, some stashTree, some loginTree, [stashTree], [], saveErrors, []⟩
        | Except.ok login =>
          ⟨D.makeAccount appId loginTree "keyLogin" opts, some stashTree, some loginTree,
            [stashTree], [(loginTree, login)],
            saveErrors ++ reportedTo (D.syncLogin loginTree login), [loginTree]⟩

/-- The type `ChangeVouchersPayload`. -/
structure ChangeVouchersPayload where
  approvedVouchers : Option (List String)
  rejectedVouchers : Option (List String)
deriving DecidableEq, Repr

/-- The body of the voucher request: the members of `makeAuthJson(stashTree,
login)` and the `data` member. -/
structure VoucherRequest where
  auth : Json
  data : Json

/-- The functions `vouchers.js` imports from modules outside the embedded
sources, for login payloads of type `Payload`. -/
structure VoucherDeps (Payload : Type) where
  /-- The `stashTree` member of `getStashById(ai, loginId)`. -/
  getStashById : Bytes → Except JsError LoginStash
  /-- The function `makeAuthJson(stashTree, login)`. -/
  makeAuthJson : LoginStash → LoginTree → Except JsError Json
  /-- The uncleaner `wasChangeVouchersPayload`. -/
  wasChangeVouchersPayload : ChangeVouchersPayload → Json
  /-- How the promise of `loginFetch(ai, method, path, body)` settles. -/
  loginFetch : String → String → VoucherRequest → Except JsError Json
  /-- The cleaner `asLoginPayload`, which throws on an invalid payload. -/
  asLoginPayload : Json → Except JsError Payload
  /-- The function `applyLoginPayload(stashTree, loginKey, payload)`. -/
  applyLoginPayload : LoginStash → Bytes → Payload → Except JsError LoginStash
  /-- How the promise of `saveStash(ai, stashTree)` settles. -/
  saveStash : LoginStash → Except JsError Unit

/-- What a call of `changeVoucherStatus` leaves behind. -/
structure VoucherRun where
  /-- How the promise `changeVoucherStatus` returns settles. -/
  result : Except JsError Unit
  /-- The cached stash tree that was looked up, as it is after the call. -/
  stashTree : Option LoginStash
  /-- The bodies of the requests made. -/
  requests : List VoucherRequest
  /-- The arguments of the calls of `saveStash`. -/
  saved : List LoginStash

/-- The function `changeVoucherStatus`. -/
def changeVoucherStatus {Payload : Type} (D : VoucherDeps Payload) (login : LoginTree)
    (vouchers : ChangeVouchersPayload) : VoucherRun :=
  match D.getStashById login.loginId with
  | Except.error e => ⟨Except.error e, none, [], []⟩
  | Except.ok stashTree =>
    match D.makeAuthJson stashTree login with
    | Except.error e => ⟨Except.error e, some stashTree, [], []⟩
    | Except.ok auth =>
      let body : VoucherRequest := ⟨auth, D.wasChangeVouchersPayload vouchers⟩
      match D.loginFetch "POST" "/v2/login/vouchers" body with
      | Except.error e => ⟨Except.error e, some stashTree, [body], []⟩
      | Except.ok reply =>
        match D.asLoginPayload reply with
        | Except.error e => ⟨Except.error e, some stashTree, [body], []⟩
        | Except.ok payload =>
          match D.applyLoginPayload stashTree login.loginKey payload with
          | Except.error e => ⟨Except.error e, some stashTree, [body], []⟩
          | Except.ok newStashTree =>
            ⟨D.saveStash newStashTree, some stashTree, [body], [newStashTree]⟩

/-! ## Stash synchronisation (`login.js`, specified in section 4.7) -/

/-- Modelled from the spec: the server login payload merged by `syncLogin`
(section 4.7); `login.js`, where the payload is applied, is outside the
embedded sources. A node carries the fields the server is the authority for,
the server's `lastLogin` if it has one, whether its list of children is a
complete snapshot, and its children. -/
structure ServerPayload where
  loginId : Bytes
  appId : String
  lastLogin : Option Nat
  passwordAuthBox : Option EncryptedBox
  loginAuthBox : Option EncryptedBox
  pin2Key : Option Bytes
  recovery2Key : Option Bytes
  voucherId : Option String
  complete : Bool
  children : List ServerPayload

/-- Modelled from the spec: `lastLogin` is the monotonic maximum of the local
and the server value (section 4.7); `login.js` is outside the embedded sources. -/
def maxLastLogin : Option Nat → Option Nat → Option Nat
  | some a, some b => some (max a b)
  | some a, none => some a
  | none, b => b

/-- Modelled from the spec: the local child with a given `loginId`, the key
children are merged by (section 4.7); `login.js` is outside the embedded sources. -/
def findChildStash (children : List LoginStash) (loginId : Bytes) : Option LoginStash :=
  children.find? (fun child => child.loginId = loginId)

/-- The children of a local stash node, none for a node that does not exist yet. -/
def localChildren : Option LoginStash → List LoginStash
  | some stash => stash.children
  | none => []

mutual
/-- Modelled from the spec: the recursive merge of section 4.7 (`login.js` is
outside the embedded sources). The server's fields win, `username` is kept
from the local node, `lastLogin` is the maximum of both; each server child is
merged into the local child with the same `loginId`, or inserted as a new
subtree when there is none (`existing = none`); local children the payload
does not name are kept, after the server's children, unless the payload is a
complete snapshot. -/
def mergePayload (existing : Option LoginStash) : ServerPayload → LoginStash
  | ⟨loginId, appId, lastLogin, passwordAuthBox, loginAuthBox, pin2Key, recovery2Key,
      voucherId, complete, children⟩ =>
    { loginId := loginId
      username := existing.bind (fun stash => stash.username)
      appId := appId
      lastLogin := maxLastLogin (existing.bind (fun stash => stash.lastLogin)) lastLogin
      passwordAuthBox := passwordAuthBox
      loginAuthBox := loginAuthBox
      pin2Key := pin2Key
      recovery2Key := recovery2Key
      voucherId := voucherId
      children :=
        mergeChildren (localChildren existing) children ++
          (if complete then []
           else (localChildren existing).filter
             (fun child => child.loginId ∉ children.map ServerPayload.loginId)) }
/-- Modelled from the spec: the server children of section 4.7, each merged
into the local child with its `loginId` or inserted (`login.js` is outside
the embedded sources). -/
def mergeChildren (locals : List LoginStash) : List ServerPayload → List LoginStash
  | [] => []
  | child :: rest =>
    mergePayload (findChildStash locals child.loginId) child :: mergeChildren locals rest
end

/-- Modelled from the spec: `applyLoginPayload(stashTree, loginKey, payload)`,
the merge of section 4.7 at the root (`login.js` is outside the embedded
sources). The merge the specification describes does not inspect the key. -/
def applyLoginPayload (stashTree : LoginStash) (_loginKey : Bytes) (payload : ServerPayload) :
    LoginStash :=
  mergePayload (some stashTree) payload

/-- Modelled from the spec: `syncLogin(localStash, loginKey, serverPayload)`,
whose result is the merged stash that is then persisted (section 4.7;
`login.js` is outside the embedded sources). -/
def syncLogin (localStash : LoginStash) (loginKey : Bytes) (serverPayload : ServerPayload) :
    LoginStash :=
  applyLoginPayload localStash loginKey serverPayload

mutual
/-- Modelled from the spec: the data-model invariant that `loginId` is unique,
here only among the children of each node of a payload (section 3). -/
def distinctChildIds : ServerPayload → Bool
  | ⟨_, _, _, _, _, _, _, _, _, children⟩ =>
    decide ((children.map ServerPayload.loginId).Nodup) && distinctChildIdsAll children
/-- Modelled from the spec: `distinctChildIds` for every payload of a list. -/
def distinctChildIdsAll : List ServerPayload → Bool
  | [] => true
  | child :: rest => distinctChildIds child && distinctChildIdsAll rest
end

/-! ## Concrete dependencies

Executable instances of the dependency records, on which the functions above
can be evaluated. -/

/-- A root stash of user `alice`, last logged in at time 1000. -/
def aliceStash : LoginStash :=
  { loginId := [1, 2, 3]
    username := some "alice"
    appId := ""
    lastLogin := some 1000
    passwordAuthBox := none
    loginAuthBox := some ⟨0, [], []⟩
    pin2Key := none
    recovery2Key := some [5]
    voucherId := none
    children := [] }

/-- The login tree of `aliceStash` under the key `[9]`. -/
def aliceTree : LoginTree :=
  ⟨"", [1, 2, 3], [9], []⟩

/-- Dependencies of `context-api.ts` for a device that knows `alice` only,
whose login key is `[9]`; text is decoded with the unary code, and accounts
are represented by their login type. -/
def demoContextDeps : ContextDeps String where
  base58Parse := fun text => Except.ok (unaryDecode text.data 0)
  fixUsername := fun username => Except.ok username
  verifyData := fun a b => decide (a = b)
  getStashById := fun loginId =>
    if loginId = [1, 2, 3] then Except.ok (some aliceStash)
    else Except.error ⟨"Cannot find stash"⟩
  getStashByUsername := fun username => if username = "alice" then some aliceStash else none
  makeLoginTree := fun _ loginKey _ =>
    if loginKey = [9] then Except.ok aliceTree else Except.error ⟨"Invalid password"⟩
  findAppLogin := fun loginTree _ => Except.ok loginTree
  saveStash := fun _ => Except.ok ()
  syncLogin := fun _ _ => Except.ok ()
  removeStash := fun _ => Except.ok ()
  makeAccount := fun _ _ loginType _ => Except.ok loginType
  currentTime := 2000

/-- The dependencies `D` with other settlements of the two detached promises
of `loginWithKey`, `saveStash` and `syncLogin`. -/
def withBackground {A : Type} (D : ContextDeps A) (save : LoginStash → Except JsError Unit)
    (sync : LoginTree → LoginTree → Except JsError Unit) : ContextDeps A :=
  { D with saveStash := save, syncLogin := sync }

/-- A state in which `alice` is logged in as account `a1`. -/
def aliceLoggedIn : RootState :=
  ⟨["a1"], [("a1", ⟨aliceStash⟩)]⟩

/-- Dependencies of `vouchers.js` whose server answers with `reply`; a login
payload is valid when it is a JSON number, and applying the payload `n` sets
`lastLogin` to `n`. -/
def demoVoucherDeps (reply : Except JsError Json) : VoucherDeps Nat where
  getStashById := fun _ => Except.ok aliceStash
  makeAuthJson := fun _ _ => Except.ok Json.null
  wasChangeVouchersPayload := fun _ => Json.null
  loginFetch := fun _ _ _ => reply
  asLoginPayload := fun json =>
    match json with
    | Json.num n => Except.ok n.toNat
    | _ => Except.error ⟨"Expected a login payload"⟩
  applyLoginPayload := fun stashTree _ payload =>
    Except.ok { stashTree with lastLogin := some payload }
  saveStash := fun _ => Except.ok ()

/-- A server payload for `aliceStash` with one child login. -/
def alicePayload : ServerPayload :=
  { loginId := [1, 2, 3]
    appId := ""
    lastLogin := some 1500
    passwordAuthBox := none
    loginAuthBox := some ⟨0, [], []⟩
    pin2Key := none
    recovery2Key := some [5]
    voucherId := none
    complete := true
    children :=
      [{ loginId := [7]
         appId := "app"
         lastLogin := none
         passwordAuthBox := none
         loginAuthBox := none
         pin2Key := some [8]
         recovery2Key := none
         voucherId := none
         complete := false
         children := [] }] }

/-- A voucher with the given id and status. -/
def demoVoucher (voucherId : String) (status : VoucherStatus) : EdgeVoucherDump :=
  ⟨voucherId, [], status, 10, 5, some "phone", "10.0.0.1", "somewhere"⟩

/-! ## `currency-reducer.js` and the `walletInfos` reducer -/

/-- The type `EdgeDenomination`. -/
structure EdgeDenomination where
  name : String
  multiplier : String
  symbol : Option String
deriving DecidableEq, Repr

/-- The type `EdgeMetaToken`. -/
structure EdgeMetaToken where
  currencyCode : String
  currencyName : String
  denominations : List EdgeDenomination
  contractAddress : Option String
  symbolImage : Option String
deriving DecidableEq, Repr

/-- The payload of the `ADDED_CUSTOM_TOKEN` action. -/
structure CustomTokenPayload where
  currencyCode : String
  currencyName : String
  contractAddress : Option String
  multiplier : String
deriving DecidableEq, Repr

/-- The actions the `customTokens` reducer distinguishes. -/
inductive CurrencyAction where
  | ADDED_CUSTOM_TOKEN (payload : CustomTokenPayload)
  | OTHER (type : String)

/-- The token object the `customTokens` reducer builds from a payload. -/
def customToken (payload : CustomTokenPayload) : EdgeMetaToken :=
  { currencyCode := payload.currencyCode
    currencyName := payload.currencyName
    contractAddress := payload.contractAddress
    denominations := [{ name := payload.currencyCode, multiplier := payload.multiplier,
                        symbol := none }]
    symbolImage := none }

/-- The reducer `customTokens`. -/
def customTokens (state : List EdgeMetaToken) (action : CurrencyAction) : List EdgeMetaToken :=
  match action with
  | CurrencyAction.ADDED_CUSTOM_TOKEN payload =>
    let token := customToken payload
    let out := state.filter (fun info => info.currencyCode ≠ payload.currencyCode)
    out ++ [token]
  | CurrencyAction.OTHER _ => state

/-- The state of one account, with the members the `walletInfos` and
`currencyWalletIds` reducers read; `Info` is the type of a wallet info. -/
structure WalletAccountState (Info : Type) where
  activeWalletIds : List String
  walletInfos : JsObject Info

/-- The members of the next root state that the `walletInfos` and
`currencyWalletIds` reducers read. -/
structure WalletRootState (Info : Type) where
  accountIds : List String
  accounts : JsObject (WalletAccountState Info)

/-- The inner loop of `walletInfos` over the keys still to visit: copies
`walletInfos[id]` to `out[id]`. -/
def copyWalletInfos {Info : Type} (walletInfos : JsObject Info) :
    List String → JsObject Info → JsObject Info
  | [], out => out
  | id :: rest, out =>
    match JsObject.get walletInfos id with
    | some info => copyWalletInfos walletInfos rest (JsObject.set out id info)
    | none => copyWalletInfos walletInfos rest out

/-- The outer loop of `walletInfos` over the account ids still to visit;
`Except.error` is the `TypeError` of reading a member of `undefined`. -/
def mergeWalletInfos {Info : Type} (accounts : JsObject (WalletAccountState Info)) :
    List String → JsObject Info → Except JsError (JsObject Info)
  | [], out => Except.ok out
  | accountId :: rest, out =>
    match JsObject.get accounts accountId with
    | none => Except.error ⟨"Cannot read properties of undefined (reading 'walletInfos')"⟩
    | some account =>
      mergeWalletInfos accounts rest
        (copyWalletInfos account.walletInfos (JsObject.keys account.walletInfos) out)

/-- Lines 125-133 of the `walletInfos` reducer: the general merge loop. -/
def walletInfosGeneral {Info : Type} (next : WalletRootState Info) :
    Except JsError (JsObject Info) :=
  mergeWalletInfos next.accounts next.accountIds []

/-- The reducer `walletInfos`. -/
def walletInfos {Info : Type} (next : WalletRootState Info) : Except JsError (JsObject Info) :=
  match next.accountIds with
  | [id] =>
    match JsObject.get next.accounts id with
    | none => Except.error ⟨"Cannot read properties of undefined (reading 'walletInfos')"⟩
    | some account => Except.ok account.walletInfos
  | _ => walletInfosGeneral next

/-- The call `accountIds.map(accountId => accounts[accountId].activeWalletIds)`. -/
def allActiveWalletIds {Info : Type} (accounts : JsObject (WalletAccountState Info)) :
    List String → Except JsError (List (List String))
  | [] => Except.ok []
  | accountId :: rest =>
    match JsObject.get accounts accountId with
    | none => Except.error ⟨"Cannot read properties of undefined (reading 'activeWalletIds')"⟩
    | some account =>
      match allActiveWalletIds accounts rest with
      | Except.error e => Except.error e
      | Except.ok more => Except.ok (account.activeWalletIds :: more)

/-- Lines 31-34 of the `currencyWalletIds` reducer: the general computation,
where `[].concat(...allIds)` joins the lists. -/
def currencyWalletIdsGeneral {Info : Type} (next : WalletRootState Info) :
    Except JsError (List String) :=
  match allActiveWalletIds next.accounts next.accountIds with
  | Except.error e => Except.error e
  | Except.ok allIds => Except.ok allIds.flatten

/-- The reducer `currencyWalletIds`. -/
def currencyWalletIds {Info : Type} (next : WalletRootState Info) :
    Except JsError (List String) :=
  match next.accountIds with
  | [id] =>
    match JsObject.get next.accounts id with
    | none => Except.error ⟨"Cannot read properties of undefined (reading 'activeWalletIds')"⟩
    | some account => Except.ok account.activeWalletIds
  | _ => currencyWalletIdsGeneral next

/-- A root state with the single account `a1`, which has two wallets. -/
def oneWalletAccount : WalletRootState Nat :=
  ⟨["a1"], [("a1", ⟨["w2", "w1"], [("w1", 10), ("w2", 20)]⟩)]⟩

/-! ## `react-native-webview.js`: the outer WebView bridge -/

/-- The variables closed over by `makeOuterWebViewBridge`, with a log of the
calls of `onRoot`. `Root` is the type of root objects and `View` the type of
mounted WebView elements. -/
structure BridgeState (Root View : Type) where
  /-- Whether `bridge` is defined. -/
  bridgeOpen : Bool
  /-- The variable `gatedRoot`. -/
  gatedRoot : Option Root
  /-- The variable `webview`. -/
  webview : Option View
  /-- The calls of `onRoot`, oldest first: the root passed and the value of
  `webview` at the time of the call. -/
  released : List (Root × Option View)

/-- The state right after `makeOuterWebViewBridge` returns. -/
def BridgeState.initial (Root View : Type) : BridgeState Root View :=
  ⟨false, none, none, []⟩

/-- The function `tryReleasingRoot`. -/
def tryReleasingRoot {Root View : Type} (s : BridgeState Root View) : BridgeState Root View :=
  match s.gatedRoot, s.webview with
  | some gatedRoot, some _ =>
    { s with released := s.released ++ [(gatedRoot, s.webview)], gatedRoot := none }
  | _, _ => s

/-- The callback subscribed to the bridge's `root` event. -/
def onBridgeRoot {Root View : Type} (s : BridgeState Root View) (root : Root) :
    BridgeState Root View :=
  tryReleasingRoot { s with gatedRoot := some root }

/-- The function `setRef`. -/
def setRef {Root View : Type} (s : BridgeState Root View) (element : Option View) :
    BridgeState Root View :=
  tryReleasingRoot { s with webview := element }

/-- The function `handleMessage`, for a message that parses. `restarted` tells
whether the message carries an event with `localId` 0, and `roots` are the
root objects the YAOB bridge announces while it handles the message. -/
def handleMessage {Root View : Type} (s : BridgeState Root View) (restarted : Bool)
    (roots : List Root) : BridgeState Root View :=
  let s1 := if s.bridgeOpen && restarted then { s with bridgeOpen := false } else s
  let s2 := if s1.bridgeOpen then s1 else { s1 with bridgeOpen := true }
  roots.foldl onBridgeRoot s2

/-- What React Native and the inner HTML do to the bridge callbacks. -/
inductive BridgeEvent (Root View : Type) where
  /-- A call of `handleMessage`. -/
  | message (restarted : Bool) (roots : List Root)
  /-- A call of `setRef`. -/
  | ref (element : Option View)

/-- One call of a bridge callback. -/
def bridgeStep {Root View : Type} (s : BridgeState Root View) :
    BridgeEvent Root View → BridgeState Root View
  | BridgeEvent.message restarted roots => handleMessage s restarted roots
  | BridgeEvent.ref element => setRef s element

/-- The root objects received from the bridge during a list of events, in order. -/
def receivedRoots {Root View : Type} : List (BridgeEvent Root View) → List Root
  | [] => []
  | BridgeEvent.message _ roots :: rest => roots ++ receivedRoots rest
  | BridgeEvent.ref _ :: rest => receivedRoots rest

/-- The invariant of the bridge: the calls of `onRoot` happened with a WebView
mounted, and the roots released and gated are, in order, among `received`. -/
def BridgeInvariant {Root View : Type} (s : BridgeState Root View) (received : List Root) :
    Prop :=
  (∀ entry ∈ s.released, entry.2 ≠ none) ∧
  (s.released.map Prod.fst ++ s.gatedRoot.toList).Sublist received

/-! ## `storage-actions.js` -/

/-- The type `StorageWalletStatus`: `lastSync` is a number, 0 before the first
sync. -/
structure StorageWalletStatus where
  lastHash : Option String
  lastSync : Nat
deriving DecidableEq, Repr

/-- The members of an `EdgeWalletInfo` that `addStorageWallet` reads. -/
structure StorageWalletInfo where
  id : String
  dataKey : String
  syncKey : String
deriving DecidableEq, Repr

/-- What `addStorageWallet` and `syncStorageWallet` do to the outside, in the
order it happens. -/
inductive StorageEvent where
  /-- The dispatch of `STORAGE_WALLET_ADDED` with the wallet id and status. -/
  | walletAdded (id : String) (status : StorageWalletStatus)
  /-- The call of `syncRepo` made by `syncStorageWallet` for the wallet id. -/
  | syncStarted (id : String)
  /-- The dispatch of `STORAGE_WALLET_SYNCED` with the changed paths and status. -/
  | walletSynced (id : String) (changes : List String) (status : StorageWalletStatus)
  /-- A call of `ai.props.log.error`. -/
  | logged (message : String)
  /-- A call of `onError`. -/
  | reported (error : JsError)
deriving DecidableEq, Repr

/-- The functions `storage-actions.js` uses from outside the embedded sources,
and the redux state it reads; `Paths` is the type of repo paths. A promise is
represented by the way it settles. -/
structure StorageDeps (Paths : Type) where
  /-- The function `base64.parse`, which throws on malformed text. -/
  base64Parse : String → Except JsError Bytes
  /-- The function `makeRepoPaths(io, syncKey, dataKey)`. -/
  makeRepoPaths : Bytes → Bytes → Except JsError Paths
  /-- How the promise of `loadRepoStatus(paths)` settles. -/
  loadRepoStatus : Paths → Except JsError StorageWalletStatus
  /-- The value of `state.storageWallets[walletId]` when `syncStorageWallet`
  runs, after the dispatch of `STORAGE_WALLET_ADDED`: its paths and status. -/
  storageWallets : String → Option (Paths × StorageWalletStatus)
  /-- How the promise of `syncRepo(syncClient, paths, status)` settles: the
  keys of `changes` and the new status. -/
  syncRepo : Paths → StorageWalletStatus → Except JsError (List String × StorageWalletStatus)
  /-- The text `String(error)`. -/
  errorText : JsError → String

/-- What a call of `syncStorageWallet` does: it throws before making a
promise, or starts the sync and returns a promise that settles later. -/
inductive SyncCall where
  | threw (e : JsError)
  | promise (settles : Except JsError (List String)) (events : List StorageEvent)

/-- The function `syncStorageWallet`: the events are those of the call and of
the `then` handler. -/
def syncStorageWallet {Paths : Type} (D : StorageDeps Paths) (walletId : String) : SyncCall :=
  match D.storageWallets walletId with
  | none => SyncCall.threw ⟨"Cannot destructure property 'paths' of undefined"⟩
  | some (paths, status) =>
    match D.syncRepo paths status with
    | Except.error e => SyncCall.promise (Except.error e) [StorageEvent.syncStarted walletId]
    | Except.ok (changes, status) =>
      SyncCall.promise (Except.ok changes)
        [StorageEvent.syncStarted walletId, StorageEvent.walletSynced walletId changes status]

/-- What a call of `addStorageWallet` leaves: how its promise settles, and the
events it caused, oldest first. -/
structure StorageRun where
  result : Except JsError Unit
  events : List StorageEvent

/-- The function `addStorageWallet`. The local disklet, which is built from
total functions after `base64.parse(walletInfo.id)` and only stored in the
action, is left out. The `catch` handler of a background sync is counted with
the call that installed it. -/
def addStorageWallet {Paths : Type} (D : StorageDeps Paths) (walletInfo : StorageWalletInfo) :
    StorageRun :=
  match D.base64Parse walletInfo.dataKey with
  | Except.error e => ⟨Except.error e, []⟩
  | Except.ok dataKey =>
    match D.base64Parse walletInfo.syncKey with
    | Except.error e => ⟨Except.error e, []⟩
    | Except.ok syncKey =>
      match D.makeRepoPaths syncKey dataKey with
      | Except.error e => ⟨Except.error e, []⟩
      | Except.ok paths =>
        match D.base64Parse walletInfo.id with
        | Except.error e => ⟨Except.error e, []⟩
        | Except.ok _ =>
          match D.loadRepoStatus paths with
          | Except.error e => ⟨Except.error e, []⟩
          | Except.ok status =>
            let added := [StorageEvent.walletAdded walletInfo.id status]
            match syncStorageWallet D walletInfo.id with
            | SyncCall.threw e => ⟨Except.error e, added⟩
            | SyncCall.promise settles syncEvents =>
              if status.lastSync ≠ 0 then
                match settles with
                | Except.error error =>
                  ⟨Except.ok (), added ++ syncEvents ++
                    [StorageEvent.logged
                      ("Could not sync " ++ walletInfo.syncKey ++ " with last hash " ++
                        status.lastHash.getD "undefined" ++ ": " ++ D.errorText error),
                     StorageEvent.reported error]⟩
                | Except.ok _ => ⟨Except.ok (), added ++ syncEvents⟩
              else
                match settles with
                | Except.error error => ⟨Except.error error, added ++ syncEvents⟩
                | Except.ok _ => ⟨Except.ok (), added ++ syncEvents⟩

/-- Storage dependencies for a wallet whose repo status is `status` and whose
sync settles as `sync`. -/
def demoStorageDeps (status : StorageWalletStatus)
    (sync : Except JsError (List String × StorageWalletStatus)) : StorageDeps String where
  base64Parse := fun text => Except.ok (unaryDecode text.data 0)
  makeRepoPaths := fun _ _ => Except.ok "repo"
  loadRepoStatus := fun _ => Except.ok status
  storageWallets := fun _ => some ("repo", status)
  syncRepo := fun _ _ => sync
  errorText := fun e => "Error: " ++ e.message

/-! ## `context-api.ts`: `changePaused` -/

/-- A timer made by `setTimeout` in `changePaused` that has neither fired nor
been cleared: its handle, the `paused` value its callback dispatches, and its
delay. -/
structure PauseTimer where
  handle : Nat
  payload : Bool
  secondsDelay : Nat
deriving DecidableEq, Repr

/-- A dispatched `PAUSE` action: its payload, and the handle of the timer whose
callback dispatched it (`none` when `changePaused` dispatched it itself). -/
structure PauseAction where
  payload : Bool
  timer : Option Nat
deriving DecidableEq, Repr

/-- What `changePaused` reads and writes: `ai.props.state.paused`, the variable
`pauseTimer`, the timers of the environment, the next handle `setTimeout`
returns, and the `PAUSE` actions dispatched so far, oldest first. -/
structure PauseState where
  paused : Bool
  pauseTimer : Option Nat
  timers : List PauseTimer
  nextHandle : Nat
  dispatched : List PauseAction
deriving DecidableEq, Repr

/-- The state of a fresh context: no timer, nothing dispatched. -/
def PauseState.initial (paused : Bool) : PauseState := ⟨paused, none, [], 0, []⟩

/-- The function `clearTimeout` of the environment. -/
def clearTimeout (timers : List PauseTimer) (handle : Nat) : List PauseTimer :=
  timers.filter (fun t => t.handle != handle)

/-- The call `ai.props.dispatch({ type: 'PAUSE', payload })`; `reducer` gives
the `paused` member of the next state from the current one and the payload. -/
def dispatchPause (reducer : Bool → Bool → Bool) (s : PauseState) (payload : Bool)
    (timer : Option Nat) : PauseState :=
  { s with paused := reducer s.paused payload, dispatched := s.dispatched ++ [⟨payload, timer⟩] }

/-- The first statement of `changePaused`: a running timer is stopped. -/
def stopPauseTimer (s : PauseState) : PauseState :=
  match s.pauseTimer with
  | some handle => { s with timers := clearTimeout s.timers handle, pauseTimer := none }
  | none => s

/-- The method `changePaused(paused, { secondsDelay })`. -/
def changePaused (reducer : Bool → Bool → Bool) (s : PauseState) (paused : Bool)
    (secondsDelay : Nat) : PauseState :=
  let s := stopPauseTimer s
  if s.paused = paused then s
  else if secondsDelay = 0 then dispatchPause reducer s paused none
  else
    { s with
      pauseTimer := some s.nextHandle
      timers := s.timers ++ [⟨s.nextHandle, paused, secondsDelay⟩]
      nextHandle := s.nextHandle + 1 }

/-- The environment runs the callback of the timer `handle`, if that timer is
still pending. -/
def timerFires (reducer : Bool → Bool → Bool) (s : PauseState) (handle : Nat) : PauseState :=
  match s.timers.find? (fun t => t.handle == handle) with
  | none => s
  | some t =>
    dispatchPause reducer
      { s with timers := clearTimeout s.timers handle, pauseTimer := none } t.payload (some handle)

/-- What can happen to a context between two observations. -/
inductive PauseEvent where
  /-- A call of `changePaused`. -/
  | call (paused : Bool) (secondsDelay : Nat)
  /-- The timer with this handle fires. -/
  | fire (handle : Nat)
  /-- Some other action changes `state.paused`. -/
  | stateChange (paused : Bool)
deriving DecidableEq, Repr

/-- One event applied to the state. -/
def pauseStep (reducer : Bool → Bool → Bool) (s : PauseState) : PauseEvent → PauseState
  | PauseEvent.call paused secondsDelay => changePaused reducer s paused secondsDelay
  | PauseEvent.fire handle => timerFires reducer s handle
  | PauseEvent.stateChange paused => { s with paused := paused }

/-- The pending timers are the one `pauseTimer` names, if any, and every
handle in use is below the next one. -/
def PauseInvariant (s : PauseState) : Prop :=
  s.timers.map PauseTimer.handle = s.pauseTimer.toList ∧ ∀ t ∈ s.timers, t.handle < s.nextHandle

/-! ## `api.js` -/

/-- A function value: one from outside `api.js`, or the closure `syncApi` or
`asyncApi` returns for the function `f` and the given name. -/
inductive JsFunction where
  | plain (id : Nat)
  | syncApi (f : JsFunction) (name : String)
  | asyncApi (f : JsFunction) (name : String)
deriving DecidableEq, Repr

/-- A JavaScript value, as far as `wrapObject` tells values apart: for an
object only the truthiness of its members `sync` and `writable` is kept, a
function has neither member, and every other value is a `primitive`, on
which both members read as `undefined`. -/
inductive JsValue where
  | undefined
  | null
  | primitive (text : String)
  | function (f : JsFunction)
  | object (id : Nat) (sync : Bool) (writable : Bool)
deriving DecidableEq, Repr

/-- A property of an object: its attributes, as in the language definition. -/
inductive Property where
  | data (value : JsValue) (writable enumerable configurable : Bool)
  | accessor (get set : Option JsFunction) (enumerable configurable : Bool)
deriving DecidableEq, Repr

/-- A property descriptor object; `none` is a member that is not there, and
`some none` in `get` or `set` is a member that holds `undefined`. -/
structure Descriptor where
  value : Option JsValue
  writable : Option Bool
  get : Option (Option JsFunction)
  set : Option (Option JsFunction)
  enumerable : Option Bool
  configurable : Option Bool
deriving DecidableEq, Repr

/-- The test `/^@/.test(key)`. -/
def isOptionKey (key : String) : Bool :=
  match key.data with
  | c :: _ => c == '@'
  | [] => false

/-- The result of `Object.getOwnPropertyDescriptor(object, key)`; the object is
given by its own string-keyed properties, in the order of
`Object.getOwnPropertyNames`. -/
def getOwnPropertyDescriptor (object : JsObject Property) (key : String) : Option Descriptor :=
  match JsObject.get object key with
  | none => none
  | some (Property.data value writable enumerable configurable) =>
    some ⟨some value, some writable, none, none, some enumerable, some configurable⟩
  | some (Property.accessor get set enumerable configurable) =>
    some ⟨none, none, some get, some set, some enumerable, some configurable⟩

/-- The result of `object[key]`, for an object whose prototype chain has no
property of this name: `getters` tells what a getter returns or throws. -/
def getMember (getters : JsFunction → Except JsError JsValue) (object : JsObject Property)
    (key : String) : Except JsError JsValue :=
  match JsObject.get object key with
  | none => Except.ok JsValue.undefined
  | some (Property.data value _ _ _) => Except.ok value
  | some (Property.accessor (some getter) _ _ _) => getters getter
  | some (Property.accessor none _ _ _) => Except.ok JsValue.undefined

/-- The truthiness of `opts.sync` and `opts.writable`, or `none` when reading
a member of `opts` throws. -/
def JsValue.members : JsValue → Option (Bool × Bool)
  | JsValue.undefined => none
  | JsValue.null => none
  | JsValue.object _ sync writable => some (sync, writable)
  | JsValue.primitive _ => some (false, false)
  | JsValue.function _ => some (false, false)

/-- The truthiness of `opts.sync`. -/
def readSync (opts : JsValue) : Except JsError Bool :=
  match opts.members with
  | none => Except.error ⟨"TypeError: Cannot read properties of null (reading 'sync')"⟩
  | some flags => Except.ok flags.1

/-- The truthiness of `opts.writable`. -/
def readWritable (opts : JsValue) : Except JsError Bool :=
  match opts.members with
  | none => Except.error ⟨"TypeError: Cannot read properties of null (reading 'writable')"⟩
  | some flags => Except.ok flags.2

/-- The test `f == null` on a member of a descriptor. -/
def isNullish (member : Option (Option JsFunction)) : Bool :=
  match member with
  | some (some _) => false
  | _ => true

/-- The function `wrapProperty`; the default `{}` stands in for `opts` only
when `opts` is `undefined`. -/
def wrapProperty (key : String) (d : Descriptor) (className : String) (opts : JsValue) :
    Except JsError Descriptor :=
  let opts := match opts with
    | JsValue.undefined => JsValue.object 0 false false
    | other => other
  let wrapped : Except JsError Descriptor :=
    match d.value with
    | some (JsValue.function f) =>
      match readSync opts with
      | Except.error e => Except.error e
      | Except.ok sync =>
        Except.ok { d with
          value := some (JsValue.function
            (if sync then JsFunction.syncApi f (className ++ "." ++ key)
             else JsFunction.asyncApi f (className ++ "." ++ key))) }
    | _ => Except.ok d
  match wrapped with
  | Except.error e => Except.error e
  | Except.ok d =>
    let d := match d.get with
      | some (some getter) =>
        { d with get := some (some (JsFunction.syncApi getter ("get " ++ className ++ "." ++ key))) }
      | _ => d
    let d := match d.set with
      | some (some setter) =>
        { d with set := some (some (JsFunction.syncApi setter ("set " ++ className ++ "." ++ key))) }
      | _ => d
    match readWritable opts with
    | Except.error e => Except.error e
    | Except.ok writable =>
      if !writable && isNullish d.get && isNullish d.set then
        Except.ok { d with writable := some false }
      else Except.ok d

/-- The call `Object.defineProperty(out, key, d)` for a name `out` does not
have yet, which is the only case `wrapObject` meets: a descriptor with an
accessor member and a `value` or `writable` member is refused, and absent
members take their defaults. -/
def defineProperty (out : JsObject Property) (key : String) (d : Descriptor) :
    Except JsError (JsObject Property) :=
  if (d.get.isSome || d.set.isSome) && (d.value.isSome || d.writable.isSome) then
    Except.error ⟨"TypeError: Invalid property descriptor. " ++
      "Cannot both specify accessors and a value or writable attribute"⟩
  else if d.get.isSome || d.set.isSome then
    Except.ok (JsObject.define out key
      (Property.accessor (d.get.getD none) (d.set.getD none)
        (d.enumerable.getD false) (d.configurable.getD false)))
  else
    Except.ok (JsObject.define out key
      (Property.data (d.value.getD JsValue.undefined) (d.writable.getD false)
        (d.enumerable.getD false) (d.configurable.getD false)))

/-- The loop of `wrapObject` over the names still to visit. -/
def wrapObjectLoop (getters : JsFunction → Except JsError JsValue) (className : String)
    (object : JsObject Property) : List String → JsObject Property →
    Except JsError (JsObject Property)
  | [], out => Except.ok out
  | key :: rest, out =>
    if isOptionKey key then wrapObjectLoop getters className object rest out
    else
      match getOwnPropertyDescriptor object key with
      | none => Except.error ⟨"TypeError: Cannot read properties of undefined (reading 'value')"⟩
      | some d =>
        match getMember getters object ("@" ++ key) with
        | Except.error e => Except.error e
        | Except.ok opts =>
          match wrapProperty key d className opts with
          | Except.error e => Except.error e
          | Except.ok d =>
            match defineProperty out key d with
            | Except.error e => Except.error e
            | Except.ok out => wrapObjectLoop getters className object rest out

/-- The function `wrapObject`. -/
def wrapObject (getters : JsFunction → Except JsError JsValue) (className : String)
    (object : JsObject Property) : Except JsError (JsObject Property) :=
  wrapObjectLoop getters className object (JsObject.keys object) []

/-- Getters that all return `undefined`. -/
def noGetters : JsFunction → Except JsError JsValue := fun _ => Except.ok JsValue.undefined

/-- The object `{ foo: 1, '@foo': null }`. -/
def nullOptionsObject : JsObject Property :=
  [("foo", Property.data (JsValue.primitive "1") true true true),
   ("@foo", Property.data JsValue.null true true true)]

/-- The object `{ ping() {}, '@ping': { sync: true }, count: 1, '@count': { writable: true } }`
with a getter `size` besides. -/
def demoApiObject : JsObject Property :=
  [("ping", Property.data (JsValue.function (JsFunction.plain 1)) true true true),
   ("@ping", Property.data (JsValue.object 1 true false) true true true),
   ("count", Property.data (JsValue.primitive "1") true true true),
   ("@count", Property.data (JsValue.object 2 false true) true true true),
   ("size", Property.accessor (some (JsFunction.plain 2)) none true true)]


/-- The property `result` read from the output of `wrapObject` has the form
`wrapObject` gives to the input property `prop` named `key` with options
`opts`: a data property keeps its kind and flags, and is writable only if
`opts.writable` is truthy; an accessor property keeps its kind and flags, with
its functions wrapped by `syncApi`. -/
def WrappedAs (className key : String) (opts : JsValue) (prop : Property)
    (result : Option Property) : Prop :=
  (∀ v w e c, prop = Property.data v w e c →
    ∃ v2 w2, result = some (Property.data v2 w2 e c) ∧
      (w2 = true → readWritable opts = Except.ok true)) ∧
  (∀ g s e c, prop = Property.accessor g s e c →
    result = some (Property.accessor
      (g.map (fun f => JsFunction.syncApi f ("get " ++ className ++ "." ++ key)))
      (s.map (fun f => JsFunction.syncApi f ("set " ++ className ++ "." ++ key))) e c))

/-! ## PIN login -/

mutual
/-- Modelled from the spec: the function `searchTree` of `login.js`, which is
outside the embedded sources: the depth-first walk of section 4.3, which
returns the first node that satisfies the predicate, or nothing. -/
def searchTree (predicate : LoginStash → Bool) : LoginStash → Option LoginStash
  | ⟨loginId, username, appId, lastLogin, passwordAuthBox, loginAuthBox, pin2Key,
      recovery2Key, voucherId, children⟩ =>
    if predicate ⟨loginId, username, appId, lastLogin, passwordAuthBox, loginAuthBox, pin2Key,
        recovery2Key, voucherId, children⟩
    then some ⟨loginId, username, appId, lastLogin, passwordAuthBox, loginAuthBox, pin2Key,
        recovery2Key, voucherId, children⟩
    else searchChildren predicate children
/-- Modelled from the spec: the walk of `searchTree` through a list of
children, in order. -/
def searchChildren (predicate : LoginStash → Bool) : List LoginStash → Option LoginStash
  | [] => none
  | child :: rest =>
    match searchTree predicate child with
    | some found => some found
    | none => searchChildren predicate rest
end

mutual
/-- The nodes of a stash tree, the root first. -/
def stashNodes : LoginStash → List LoginStash
  | ⟨loginId, username, appId, lastLogin, passwordAuthBox, loginAuthBox, pin2Key,
      recovery2Key, voucherId, children⟩ =>
    ⟨loginId, username, appId, lastLogin, passwordAuthBox, loginAuthBox, pin2Key,
      recovery2Key, voucherId, children⟩ :: stashNodesAll children
/-- The nodes of the trees of a list. -/
def stashNodesAll : List LoginStash → List LoginStash
  | [] => []
  | child :: rest => stashNodes child ++ stashNodesAll rest
end

/-- Modelled from the spec: the function `findPin2Stash` of `pin2.js`, which
is outside the embedded sources: PIN login needs a node in the tree whose
`appId` matches, found with `searchTree` (section 4.4), and that node has to
hold a `pin2Key`. -/
def findPin2Stash (stashTree : LoginStash) (appId : String) : Option LoginStash :=
  match searchTree (fun stash => stash.appId = appId) stashTree with
  | some stash => if stash.pin2Key.isSome then some stash else none
  | none => none

/-- Modelled from the spec: the function `loginPin2` of `pin2.js`, which is
outside the embedded sources: without a stash for PIN login it fails with
`PinNotEnabledError`, whose message the test `enable / disable` gives;
otherwise the outcome is that of the proof sent to the remote authority,
`remote`, which fails with `BadFactorError` on a wrong PIN. -/
def loginPin2 (remote : LoginStash → String → Except JsError LoginTree) (appId : String)
    (stashTree : LoginStash) (pin : String) : Except JsError LoginTree :=
  match findPin2Stash stashTree appId with
  | none => Except.error ⟨"PIN login is not enabled for this account on this device"⟩
  | some stash => remote stash pin

/-- Modelled from the spec: the functions `login-reducer.js` imports, with
`searchTree` and `findPin2Stash` as modelled above. -/
def specLoginDeps (base58 : Bytes → String) : LoginDeps :=
  ⟨fun stashTree predicate => searchTree predicate stashTree, findPin2Stash, base58⟩

/-- What a call of `loginWithPIN` leaves: how its promise settles, and the
login trees passed to `makeAccount`. -/
structure PinLoginRun (A : Type) where
  result : Except JsError A
  accounts : List LoginTree

/-- The method `loginWithPIN` of the context whose appId is `appId`;
`loginPin2` tells how the promise of `loginPin2(ai, appId, stashTree, pin,
opts)` settles. -/
def loginWithPIN {A : Type} (D : ContextDeps A)
    (loginPin2 : String → LoginStash → String → KeyLoginOpts → Except JsError LoginTree)
    (appId : String) (usernameOrLoginId pin : String) (opts : KeyLoginOpts) : PinLoginRun A :=
  let useLoginId := opts.useLoginId.getD false
  match lookupStashTree D useLoginId usernameOrLoginId with
  | Except.error e => ⟨Except.error e, []⟩
  | Except.ok none => ⟨Except.error ⟨"User does not exist on this device"⟩, []⟩
  | Except.ok (some stashTree) =>
    match loginPin2 appId stashTree pin opts with
    | Except.error e => ⟨Except.error e, []⟩
    | Except.ok loginTree => ⟨D.makeAccount appId loginTree "pinLogin" opts, [loginTree]⟩

/-- A stash tree of user `bob` with PIN login on the child of the app `test`. -/
def bobStash : LoginStash :=
  { loginId := [4]
    username := some "bob"
    appId := ""
    lastLogin := none
    passwordAuthBox := none
    loginAuthBox := none
    pin2Key := none
    recovery2Key := none
    voucherId := none
    children :=
      [{ loginId := [5]
         username := none
         appId := "test"
         lastLogin := none
         passwordAuthBox := none
         loginAuthBox := none
         pin2Key := some [8]
         recovery2Key := none
         voucherId := none
         children := [] }] }

/-- Dependencies of `context-api.ts` for a device that knows `bob` only. -/
def bobContextDeps : ContextDeps String :=
  { demoContextDeps with
    getStashByUsername := fun username => if username = "bob" then some bobStash else none }

/-- A remote authority that accepts the PIN `1234` only. -/
def demoPinServer : LoginStash → String → Except JsError LoginTree :=
  fun stash pin =>
    if pin = "1234" then Except.ok ⟨stash.appId, stash.loginId, [9], []⟩
    else Except.error ⟨"Invalid password"⟩

/-! ## `fake-db.ts`: dumping and restoration -/

/-- The type `EdgeLoginDump`: the members of a `DbLogin` and the `children`. -/
structure EdgeLoginDump where
  login : DbLogin
  children : List EdgeLoginDump

/-- The class `FakeDb`, with the member the login functions use. -/
structure FakeDb where
  logins : List DbLogin

/-- The value `new FakeDb()`. -/
def FakeDb.empty : FakeDb := ⟨[]⟩

/-- The method `getLoginById`; `verifyData` compares the bytes of two arrays
and `contents` gives the bytes of an object. -/
def FakeDb.getLoginById (verifyData : Bytes → Bytes → Bool) (contents : Uint8Array → Bytes)
    (db : FakeDb) (loginId : Uint8Array) : Option DbLogin :=
  db.logins.find? (fun login => verifyData (contents login.loginId) (contents loginId))

/-- The test `child.parentId === parent.loginId`. -/
def isChildOf (parentLoginId : Uint8Array) (child : DbLogin) : Bool :=
  match child.parentId with
  | some parentId => parentId.ref == parentLoginId.ref
  | none => false

/-- The method `getLoginsByParent`. -/
def FakeDb.getLoginsByParent (db : FakeDb) (parent : DbLogin) : List DbLogin :=
  db.logins.filter (isChildOf parent.loginId)

/-- The method `insertLogin`. -/
def FakeDb.insertLogin (db : FakeDb) (login : DbLogin) : FakeDb :=
  ⟨db.logins ++ [login]⟩

/-- The assignment `child.parentId = dump.loginId` that `setupLogin` makes
before it visits a child; `assigned` is `none` for the dump the caller
passes. -/
def adopt (assigned : Option Uint8Array) (login : DbLogin) : DbLogin :=
  match assigned with
  | some parentId => { login with parentId := some parentId }
  | none => login

mutual
/-- The effect of `setupLogin(dump)` on `logins`, after the assignment to
`dump.parentId` if there is one. -/
def setupLoginFrom (logins : List DbLogin) (assigned : Option Uint8Array) :
    EdgeLoginDump → List DbLogin
  | ⟨login, children⟩ =>
    setupEach (logins ++ [adopt assigned login]) (some login.loginId) children
/-- The effect on `logins` of `setupLogin` on each dump of a list in turn, as
in the loop over `children`. -/
def setupEach (logins : List DbLogin) (assigned : Option Uint8Array) :
    List EdgeLoginDump → List DbLogin
  | [] => logins
  | dump :: rest => setupEach (setupLoginFrom logins assigned dump) assigned rest
end

/-- The method `setupLogin`. -/
def FakeDb.setupLogin (db : FakeDb) (dump : EdgeLoginDump) : FakeDb :=
  ⟨setupLoginFrom db.logins none dump⟩

mutual
/-- The dump `setupLogin(dump)` leaves behind in place of its argument: the
assignments to `parentId` are made to the objects of the dump itself. -/
def assignParents (assigned : Option Uint8Array) : EdgeLoginDump → EdgeLoginDump
  | ⟨login, children⟩ => ⟨adopt assigned login, assignEach (some login.loginId) children⟩
/-- The dumps of a list after `setupLogin` visited each of them. -/
def assignEach (assigned : Option Uint8Array) : List EdgeLoginDump → List EdgeLoginDump
  | [] => []
  | dump :: rest => assignParents assigned dump :: assignEach assigned rest
end

/-- The list of values when every entry has one: a `map` whose callback has
to return each time. -/
def gather {α : Type} : List (Option α) → Option (List α)
  | [] => some []
  | none :: _ => none
  | some a :: rest =>
    match gather rest with
    | some values => some (a :: values)
    | none => none

/-- The closure `makeTree` of `dumpLogin`, which calls itself at most `fuel`
deep; `none` when that depth does not suffice. -/
def makeTree (db : FakeDb) : Nat → DbLogin → Option EdgeLoginDump
  | 0, _ => none
  | fuel + 1, login =>
    match gather ((db.getLoginsByParent login).map (makeTree db fuel)) with
    | some children => some ⟨login, children⟩
    | none => none

/-- The method `dumpLogin`. -/
def FakeDb.dumpLogin (db : FakeDb) (fuel : Nat) (login : DbLogin) : Option EdgeLoginDump :=
  makeTree db fuel login

/-- The type `LoginPayload`, with the members `makeLoginPayload` fills. -/
structure LoginPayload where
  appId : String
  created : Option Nat
  loginId : Uint8Array
  children : List LoginPayload
  parentBox : Option EncryptedBox
  passwordAuthBox : Option EncryptedBox
  passwordAuthSnrp : Option EdgeSnrp
  passwordBox : Option EncryptedBox
  passwordKeySnrp : Option EdgeSnrp
  pin2Box : Option EncryptedBox
  pin2KeyBox : Option EncryptedBox
  pin2TextBox : Option EncryptedBox
  question2Box : Option EncryptedBox
  recovery2Box : Option EncryptedBox
  recovery2KeyBox : Option EncryptedBox
  otpKey : Option Bytes
  otpResetDate : Option Nat
  otpTimeout : Option Nat
  pendingVouchers : List EdgePendingVoucher
  loginAuthBox : Option EncryptedBox
  userId : Option Bytes
  userTextBox : Option EncryptedBox
  keyBoxes : List EncryptedBox
  mnemonicBox : Option EncryptedBox
  rootKeyBox : Option EncryptedBox
  syncKeyBox : Option EncryptedBox

/-- The object `makeLoginPayload` returns for `login` once `children` is
computed. -/
def loginPayloadOf (login : DbLogin) (children : List LoginPayload) : LoginPayload :=
  { appId := login.appId
    created := login.created
    loginId := login.loginId
    children := children
    parentBox := login.parentBox
    passwordAuthBox := login.passwordAuthBox
    passwordAuthSnrp := login.passwordAuthSnrp
    passwordBox := login.passwordBox
    passwordKeySnrp := login.passwordKeySnrp
    pin2Box := login.pin2Box
    pin2KeyBox := login.pin2KeyBox
    pin2TextBox := login.pin2TextBox
    question2Box := login.question2Box
    recovery2Box := login.recovery2Box
    recovery2KeyBox := login.recovery2KeyBox
    otpKey := login.otpKey
    otpResetDate := login.otpResetDate
    otpTimeout := login.otpTimeout
    pendingVouchers := makePendingVouchers login
    loginAuthBox := login.loginAuthBox
    userId := login.userId
    userTextBox := login.userTextBox
    keyBoxes := login.keyBoxes
    mnemonicBox := login.mnemonicBox
    rootKeyBox := login.rootKeyBox
    syncKeyBox := login.syncKeyBox }

/-- The function `makeLoginPayload`, which calls itself at most `fuel` deep;
`none` when that depth does not suffice. -/
def makeLoginPayload (db : FakeDb) : Nat → DbLogin → Option LoginPayload
  | 0, _ => none
  | fuel + 1, login =>
    match gather ((db.getLoginsByParent login).map (makeLoginPayload db fuel)) with
    | some children => some (loginPayloadOf login children)
    | none => none

mutual
/-- The nodes of a dump tree, the root first. -/
def dumpNodes : EdgeLoginDump → List EdgeLoginDump
  | ⟨login, children⟩ => ⟨login, children⟩ :: forestNodes children
/-- The nodes of the dump trees of a list. -/
def forestNodes : List EdgeLoginDump → List EdgeLoginDump
  | [] => []
  | dump :: rest => dumpNodes dump ++ forestNodes rest
end

mutual
/-- The number of levels of a dump tree. -/
def dumpHeight : EdgeLoginDump → Nat
  | ⟨_, children⟩ => forestHeight children + 1
/-- The number of levels of the highest dump tree of a list. -/
def forestHeight : List EdgeLoginDump → Nat
  | [] => 0
  | dump :: rest => max (dumpHeight dump) (forestHeight rest)
end

mutual
/-- The payload with the nodes of a dump tree: each node holds the members
`makeLoginPayload` copies from the login of the dump node, and its
`pendingVouchers` are `makePendingVouchers` of that login. -/
def payloadOfDump : EdgeLoginDump → LoginPayload
  | ⟨login, children⟩ => loginPayloadOf login (payloadOfEach children)
/-- The payloads of the dump trees of a list. -/
def payloadOfEach : List EdgeLoginDump → List LoginPayload
  | [] => []
  | dump :: rest => payloadOfDump dump :: payloadOfEach rest
end

/-- A login with the given identity and parent, and nothing else. -/
def bareLogin (appId : String) (loginId : Uint8Array) (parentId : Option Uint8Array) : DbLogin :=
  { appId := appId, created := none, loginId := loginId, parentId := parentId
    parentBox := none, passwordAuthBox := none, passwordAuthSnrp := none, passwordBox := none
    passwordKeySnrp := none, pin2Box := none, pin2Id := none, pin2KeyBox := none
    pin2TextBox := none, question2Box := none, recovery2Box := none, recovery2Id := none
    recovery2KeyBox := none, otpKey := none, otpResetDate := none, otpTimeout := none
    vouchers := [], loginAuthBox := none, userId := none, userTextBox := none, keyBoxes := []
    mnemonicBox := none, rootKeyBox := none, syncKeyBox := none }

/-- The dump `{ loginId: id, parentId: id, children: [] }`, where `id` is one
`Uint8Array`. -/
def selfParentDump : EdgeLoginDump :=
  ⟨bareLogin "" ⟨1⟩ (some ⟨1⟩), []⟩

/-- A dump of a root login with two children, one of which has a child; the
children do not have a `parentId` yet. -/
def familyDump : EdgeLoginDump :=
  ⟨bareLogin "" ⟨1⟩ none,
    [⟨bareLogin "app1" ⟨2⟩ none, [⟨bareLogin "app1/sub" ⟨4⟩ none, []⟩]⟩,
     ⟨bareLogin "app2" ⟨3⟩ none, []⟩]⟩

/-- The bytes of the objects of the examples: the object `n` holds the byte
`n`. -/
def demoContents : Uint8Array → Bytes := fun array => [array.ref]

/-- A root stash whose username is `__proto__`. -/
def protoStash : LoginStash :=
  { loginId := [6]
    username := some "__proto__"
    appId := ""
    lastLogin := none
    passwordAuthBox := none
    loginAuthBox := none
    pin2Key := none
    recovery2Key := none
    voucherId := none
    children := [] }

/-- A root state with the single account `a1`, whose wallet map has the own
key `__proto__`. -/
def protoWalletAccount : WalletRootState Nat :=
  ⟨["a1"], [("a1", ⟨[], [("__proto__", 10)]⟩)]⟩

/-- A server payload for `aliceStash` with two children of the same `loginId`. -/
def twinPayload : ServerPayload :=
  { loginId := [1, 2, 3]
    appId := ""
    lastLogin := some 1500
    passwordAuthBox := none
    loginAuthBox := some ⟨0, [], []⟩
    pin2Key := none
    recovery2Key := some [5]
    voucherId := none
    complete := true
    children :=
      [{ loginId := [7]
         appId := "app"
         lastLogin := some 5
         passwordAuthBox := none
         loginAuthBox := none
         pin2Key := some [8]
         recovery2Key := none
         voucherId := none
         complete := false
         children := [] },
       { loginId := [7]
         appId := "other"
         lastLogin := none
         passwordAuthBox := none
         loginAuthBox := none
         pin2Key := none
         recovery2Key := none
         voucherId := none
         complete := false
         children := [] }] }

/-- The events of a bridge that gets the root 1, then after a restart of the
inner HTML the root 2, and only then a WebView, the element 7. -/
def twoRootsThenMount : List (BridgeEvent Nat Nat) :=
  [BridgeEvent.message false [1], BridgeEvent.message true [2], BridgeEvent.ref (some 7)]

/-! ## Properties of `recovery2Auth` -/

theorem assignIndex_length (out : List String) (value : String) :
    assignIndex out out.length value = out ++ [value] := by
  simp [assignIndex]

theorem recovery2AuthLoop_eq (P : Platform) (key : Bytes) (answers : List String) :
    ∀ (fuel i : Nat) (out : List String), out.length = i → fuel + i = answers.length →
      recovery2AuthLoop P key answers fuel i out
        = out ++ (answers.drop i).map (answerProof P key) := by
  intro fuel
  induction fuel with
  | zero =>
    intro i out _ hi
    have hdrop : answers.drop i = [] := List.drop_eq_nil_of_le (by omega)
    simp [recovery2AuthLoop, hdrop]
  | succ fuel ih =>
    intro i out hout hi
    have hlt : i < answers.length := by omega
    have hdrop : answers.drop i = answers.get ⟨i, hlt⟩ :: answers.drop (i + 1) := by
      rw [List.drop_eq_getElem_cons hlt]
      rfl
    subst hout
    simp only [recovery2AuthLoop, hlt, dite_true, assignIndex_length]
    rw [ih (out.length + 1) _ (by simp) (by omega), hdrop]
    simp only [List.map_cons, List.append_assoc, List.cons_append, List.nil_append, answerProof]

theorem recovery2Auth_eq_map (P : Platform) (key : Bytes) (answers : List String) :
    recovery2Auth P key answers = answers.map (answerProof P key) := by
  simp [recovery2Auth, recovery2AuthLoop_eq P key answers answers.length 0 [] rfl rfl]

theorem recovery2Auth_length (P : Platform) (key : Bytes) (answers : List String) :
    (recovery2Auth P key answers).length = answers.length := by
  simp [recovery2Auth_eq_map]

/-- C2: `recovery2Auth` returns exactly one string per answer, the i-th being
the base64 encoding of the HMAC-SHA256 of the UTF-8 bytes of the i-th answer
under the recovery key, and `recovery2Id` is the HMAC-SHA256 of the username
under the recovery key. -/
theorem recovery2Auth_is_pointwise_hmac (P : Platform) (recovery2Key : Bytes)
    (answers : List String) (username : String) :
    (recovery2Auth P recovery2Key answers).length = answers.length ∧
    (∀ (i : Nat) (h : i < answers.length),
      (recovery2Auth P recovery2Key answers)[i]? =
        some (P.base64 (P.hmac_sha256
          (HmacData.buffer (P.utf8Encode (answers.get ⟨i, h⟩))) recovery2Key))) ∧
    recovery2Id P recovery2Key username
      = P.hmac_sha256 (HmacData.text username) recovery2Key := by
  refine ⟨recovery2Auth_length P recovery2Key answers, ?_, rfl⟩
  intro i h
  simp [recovery2Auth_eq_map, answerProof, h]

theorem unaryDecode_code_cons (n : Nat) (rest : List Char) :
    ∀ run : Nat, unaryDecode (List.replicate n 'x' ++ '.' :: rest) run
      = (run + n) :: unaryDecode rest 0 := by
  induction n with
  | zero => intro run; simp [unaryDecode]
  | succ n ih =>
    intro run
    have hx : ('x' = '.') = False := by decide
    have hstep : unaryDecode ('x' :: (List.replicate n 'x' ++ '.' :: rest)) run
        = unaryDecode (List.replicate n 'x' ++ '.' :: rest) (run + 1) := by
      simp only [unaryDecode, hx, if_false]
    rw [List.replicate_succ, List.cons_append, hstep, ih,
      show run + 1 + n = run + (n + 1) by omega]

theorem unaryDecode_unaryCode (b : Bytes) : unaryDecode (unaryCode b) 0 = b := by
  induction b with
  | nil => rfl
  | cons n rest ih => simp [unaryCode, unaryDecode_code_cons, ih]

theorem demoPlatform_base64_injective : Function.Injective demoPlatform.base64 := by
  intro a b h
  have h2 : unaryCode a = unaryCode b := congrArg String.data h
  rw [← unaryDecode_unaryCode a, ← unaryDecode_unaryCode b, h2]

/-- C3: the recovery proof follows the order of the answers. Permuting the
answers permutes the proof list the same way; if base64 is injective, a
permutation that puts at some position an answer whose HMAC differs from the
original answer at that position gives a different proof list; and a list of
a different length never gives the correct proof list. -/
theorem recovery2Auth_order_sensitive (P : Platform) (recovery2Key : Bytes)
    (answers : List String) :
    (∀ σ : Equiv.Perm (Fin answers.length),
      recovery2Auth P recovery2Key (List.ofFn (fun i => answers.get (σ i)))
        = List.ofFn (fun i => (recovery2Auth P recovery2Key answers).get
            ⟨(σ i).val, by rw [recovery2Auth_length]; exact (σ i).isLt⟩)) ∧
    (Function.Injective P.base64 →
      ∀ (σ : Equiv.Perm (Fin answers.length)) (i : Fin answers.length),
        P.hmac_sha256 (HmacData.buffer (P.utf8Encode (answers.get (σ i)))) recovery2Key
          ≠ P.hmac_sha256 (HmacData.buffer (P.utf8Encode (answers.get i))) recovery2Key →
        recovery2Auth P recovery2Key (List.ofFn (fun i => answers.get (σ i)))
          ≠ recovery2Auth P recovery2Key answers) ∧
    (∀ other : List String, other.length ≠ answers.length →
      recovery2Auth P recovery2Key other ≠ recovery2Auth P recovery2Key answers) := by
  refine ⟨?_, ?_, ?_⟩
  · intro σ
    rw [recovery2Auth_eq_map, List.map_ofFn]
    congr 1
    funext i
    simp [recovery2Auth_eq_map]
  · intro hinj σ i hne heq
    rw [recovery2Auth_eq_map, recovery2Auth_eq_map, List.map_ofFn] at heq
    have hi := congrArg (fun l => l[i.val]?) heq
    simp [List.getElem?_ofFn, answerProof] at hi
    exact hne (hinj hi)
  · intro other hlen heq
    apply hlen
    have := congrArg List.length heq
    simpa [recovery2Auth_length] using this

/-- Instance of C3: on the concrete platform, swapping the answers `a` and
`b` changes the proof list. -/
theorem recovery2Auth_order_sensitive_witness :
    Function.Injective demoPlatform.base64 ∧
    recovery2Auth demoPlatform [1] ["b", "a"] ≠ recovery2Auth demoPlatform [1] ["a", "b"] :=
  ⟨demoPlatform_base64_injective,
    (recovery2Auth_order_sensitive demoPlatform [1] ["a", "b"]).2.1
      demoPlatform_base64_injective
      (Equiv.swap (⟨0, by decide⟩ : Fin ["a", "b"].length) ⟨1, by decide⟩) ⟨0, by decide⟩
      (by decide)⟩

/-! ## Properties of `setup`, `login` and `questions` -/

theorem setup_of_key_error (P : Platform) (ctx : Context) (account : Account)
    (userStorage : Storage) (questions answers : List String) (e : JsError)
    (hkey : setupKey P userStorage = Except.error e) :
    setup P ctx account userStorage questions answers = ⟨none, Outcome.threw e, userStorage⟩ := by
  simp only [setup, hkey]

theorem setup_of_request_error (P : Platform) (ctx : Context) (account : Account)
    (userStorage : Storage) (questions answers : List String) (key : Bytes) (err : JsError)
    (hkey : setupKey P userStorage = Except.ok key)
    (hreq : ctx.authRequest "PUT" "/v2/login/recovery2"
      (setupRequest P account key questions answers) = Except.error err) :
    setup P ctx account userStorage questions answers
      = ⟨some (setupRequest P account key questions answers), Outcome.failed err,
          userStorage⟩ := by
  simp only [setup, hkey, hreq]

theorem setup_of_request_ok (P : Platform) (ctx : Context) (account : Account)
    (userStorage : Storage) (questions answers : List String) (key : Bytes) (reply : Reply)
    (hkey : setupKey P userStorage = Except.ok key)
    (hreq : ctx.authRequest "PUT" "/v2/login/recovery2"
      (setupRequest P account key questions answers) = Except.ok reply) :
    setup P ctx account userStorage questions answers
      = ⟨some (setupRequest P account key questions answers), Outcome.done (encodeKey P key),
          userStorage.setItem "recovery2Key" (encodeKey P key)⟩ := by
  simp only [setup, hkey, hreq]

theorem login_of_request (P : Platform) (ctx : Context) (keyString username : String)
    (answers : List String) (key : Bytes) (user : String)
    (hparse : parseKey P keyString = Except.ok key)
    (hnormalize : P.normalize username = Except.ok user) :
    login P ctx keyString username answers =
      match ctx.authRequest "GET" "/v2/login"
          (Request.login (P.base64 (recovery2Id P key user)) (recovery2Auth P key answers)) with
      | Except.error err => (Outcome.failed err, ctx.localStorage)
      | Except.ok reply =>
        match reply.recovery2Box with
        | none => (Outcome.failed ⟨"Missing data for recovery v2 login"⟩, ctx.localStorage)
        | some recovery2Box =>
          match P.decrypt recovery2Box key with
          | Except.error e => (Outcome.failed e, ctx.localStorage)
          | Except.ok dataKey =>
            match cacheLogin P ctx.localStorage user reply dataKey with
            | (some e, ls) => (Outcome.failed e, ls)
            | (none, ls) => (Outcome.done ⟨user, dataKey⟩, ls) := by
  simp only [login, hparse, hnormalize]

/-- C1: recovery setup wraps the account's existing `dataKey` under the
recovery key, and a recovery login with the key string `setup` returned,
answered with the `recovery2Box` that `setup` sent, produces an Account with
that same `dataKey` (given that decrypt undoes encrypt and base58 decoding
undoes encoding on these values, and that caching the reply does not throw). -/
theorem recovery_login_recovers_dataKey (P : Platform) (setupCtx loginCtx : Context)
    (account : Account) (userStorage : Storage) (questions answers loginAnswers : List String)
    (username user keyString : String) (recovery2Key : Bytes) (reply : Reply)
    (userId passwordAuth : String) (data : Recovery2Data)
    (hkey : setupKey P userStorage = Except.ok recovery2Key)
    (hsent : (setup P setupCtx account userStorage questions answers).sent
      = some (Request.setup userId passwordAuth data))
    (hdone : (setup P setupCtx account userStorage questions answers).outcome
      = Outcome.done keyString)
    (hdecrypt : P.decrypt (P.encrypt account.dataKey recovery2Key) recovery2Key
      = Except.ok account.dataKey)
    (hbase58 : P.base58Decode (P.base58Encode recovery2Key) = Except.ok recovery2Key)
    (hnormalize : P.normalize username = Except.ok user)
    (hreply : loginCtx.authRequest "GET" "/v2/login"
      (Request.login (P.base64 (recovery2Id P recovery2Key user))
        (recovery2Auth P recovery2Key loginAnswers)) = Except.ok reply)
    (hbox : reply.recovery2Box = some data.recovery2Box)
    (hcache : (cacheLogin P loginCtx.localStorage user reply account.dataKey).1 = none) :
    data.recovery2Box = P.encrypt account.dataKey recovery2Key ∧
    data.recovery2KeyBox = P.encrypt recovery2Key account.dataKey ∧
    (login P loginCtx keyString username loginAnswers).1
      = Outcome.done ⟨user, account.dataKey⟩ := by
  cases hreq : setupCtx.authRequest "PUT" "/v2/login/recovery2"
      (setupRequest P account recovery2Key questions answers) with
  | error err =>
    rw [setup_of_request_error P setupCtx account userStorage questions answers
      recovery2Key err hkey hreq] at hdone
    cases hdone
  | ok setupReply =>
    rw [setup_of_request_ok P setupCtx account userStorage questions answers
      recovery2Key setupReply hkey hreq] at hsent hdone
    simp only [setupRequest, Option.some.injEq, Request.setup.injEq] at hsent
    obtain ⟨_, _, hdata⟩ := hsent
    simp only [Outcome.done.injEq] at hdone
    subst hdata
    subst hdone
    refine ⟨rfl, rfl, ?_⟩
    have hparse : parseKey P (encodeKey P recovery2Key) = Except.ok recovery2Key := hbase58
    rw [login_of_request P loginCtx _ username loginAnswers recovery2Key user hparse hnormalize]
    simp only [hreply]
    simp only [] at hbox
    simp only [hbox, hdecrypt]
    rcases hc : cacheLogin P loginCtx.localStorage user reply account.dataKey with ⟨e, ls⟩
    rw [hc] at hcache
    simp only [] at hcache
    subst hcache
    rfl

/-- Instance of C1: on the concrete platform, an account whose storage caches
the key `[1, 2]` sets up recovery and logs in again with the returned key. -/
theorem recovery_login_recovers_dataKey_witness :
    (setup demoPlatform (replyingContext ⟨none, none⟩) demoAccount (storageWithKey "x.xx.")
      ["q"] ["a"]).outcome = Outcome.done "x.xx." ∧
    (login demoPlatform (replyingContext ⟨some demoRecovery2Box, none⟩) "x.xx." "alice"
      ["a"]).1 = Outcome.done ⟨"alice", [4, 2]⟩ :=
  ⟨rfl,
    (recovery_login_recovers_dataKey demoPlatform (replyingContext ⟨none, none⟩)
      (replyingContext ⟨some demoRecovery2Box, none⟩) demoAccount (storageWithKey "x.xx.")
      ["q"] ["a"] ["a"] "alice" "alice" "x.xx." [1, 2] ⟨some demoRecovery2Box, none⟩
      "alice" "x.xx.xxx." demoSetupData rfl rfl rfl rfl rfl rfl rfl rfl rfl).2.2⟩

/-- C4: when the request made by `login` returns an error, or its reply has no
`recovery2Box`, or decrypting the `recovery2Box` throws, the callback receives
an error, no Account is produced and `ctx.localStorage` is left exactly as it
was. -/
theorem failed_login_leaves_localStorage (P : Platform) (ctx : Context)
    (keyString username : String) (answers : List String) (key : Bytes) (user : String)
    (hparse : parseKey P keyString = Except.ok key)
    (hnormalize : P.normalize username = Except.ok user)
    (hfail :
      (∃ err, ctx.authRequest "GET" "/v2/login"
        (Request.login (P.base64 (recovery2Id P key user)) (recovery2Auth P key answers))
          = Except.error err) ∨
      (∃ reply, ctx.authRequest "GET" "/v2/login"
        (Request.login (P.base64 (recovery2Id P key user)) (recovery2Auth P key answers))
          = Except.ok reply ∧ reply.recovery2Box = none) ∨
      (∃ reply box e, ctx.authRequest "GET" "/v2/login"
        (Request.login (P.base64 (recovery2Id P key user)) (recovery2Auth P key answers))
          = Except.ok reply ∧ reply.recovery2Box = some box ∧
          P.decrypt box key = Except.error e)) :
    ∃ e, login P ctx keyString username answers = (Outcome.failed e, ctx.localStorage) := by
  rw [login_of_request P ctx keyString username answers key user hparse hnormalize]
  rcases hfail with ⟨err, h⟩ | ⟨reply, h, hbox⟩ | ⟨reply, box, e, h, hbox, hdec⟩
  · exact ⟨err, by simp only [h]⟩
  · exact ⟨⟨"Missing data for recovery v2 login"⟩, by simp only [h, hbox]⟩
  · exact ⟨e, by simp only [h, hbox, hdec]⟩

/-- Instance of C4: on the concrete platform, a reply whose box was made under
another key makes `decrypt` throw. -/
theorem failed_login_leaves_localStorage_witness :
    demoPlatform.decrypt ⟨0, [9], [4, 2]⟩ [1, 2] = Except.error ⟨"Invalid password"⟩ ∧
    ∃ e, login demoPlatform (replyingContext ⟨some ⟨0, [9], [4, 2]⟩, none⟩) "x.xx." "alice"
      ["a"] = (Outcome.failed e, (replyingContext ⟨some ⟨0, [9], [4, 2]⟩, none⟩).localStorage) :=
  ⟨rfl,
    failed_login_leaves_localStorage demoPlatform
      (replyingContext ⟨some ⟨0, [9], [4, 2]⟩, none⟩) "x.xx." "alice" ["a"] [1, 2] "alice"
      rfl rfl
      (Or.inr (Or.inr ⟨⟨some ⟨0, [9], [4, 2]⟩, none⟩, ⟨0, [9], [4, 2]⟩, ⟨"Invalid password"⟩,
        rfl, rfl, rfl⟩))⟩

/-- C5: when the PUT `/v2/login/recovery2` request fails, `setup` passes the
error to the callback and leaves the account's storage, hence its
`recovery2Key` item, unchanged; the item is written when the request has
succeeded, and the storage differs from the initial one only then. -/
theorem setup_commits_only_after_success (P : Platform) (ctx : Context) (account : Account)
    (userStorage : Storage) (questions answers : List String) :
    (∀ key err, setupKey P userStorage = Except.ok key →
      ctx.authRequest "PUT" "/v2/login/recovery2"
        (setupRequest P account key questions answers) = Except.error err →
      (setup P ctx account userStorage questions answers).outcome = Outcome.failed err ∧
      (setup P ctx account userStorage questions answers).userStorage = userStorage ∧
      (setup P ctx account userStorage questions answers).userStorage.getItem "recovery2Key"
        = userStorage.getItem "recovery2Key") ∧
    (∀ key reply, setupKey P userStorage = Except.ok key →
      ctx.authRequest "PUT" "/v2/login/recovery2"
        (setupRequest P account key questions answers) = Except.ok reply →
      (setup P ctx account userStorage questions answers).userStorage
        = userStorage.setItem "recovery2Key" (encodeKey P key)) ∧
    ((setup P ctx account userStorage questions answers).userStorage ≠ userStorage →
      ∃ key reply, setupKey P userStorage = Except.ok key ∧
        ctx.authRequest "PUT" "/v2/login/recovery2"
          (setupRequest P account key questions answers) = Except.ok reply) := by
  refine ⟨?_, ?_, ?_⟩
  · intro key err hkey hreq
    rw [setup_of_request_error P ctx account userStorage questions answers key err hkey hreq]
    exact ⟨rfl, rfl, rfl⟩
  · intro key reply hkey hreq
    rw [setup_of_request_ok P ctx account userStorage questions answers key reply hkey hreq]
  · intro hne
    cases hkey : setupKey P userStorage with
    | error e =>
      rw [setup_of_key_error P ctx account userStorage questions answers e hkey] at hne
      exact absurd rfl hne
    | ok key =>
      cases hreq : ctx.authRequest "PUT" "/v2/login/recovery2"
          (setupRequest P account key questions answers) with
      | error err =>
        rw [setup_of_request_error P ctx account userStorage questions answers key err
          hkey hreq] at hne
        exact absurd rfl hne
      | ok reply => exact ⟨key, reply, rfl, hreq⟩

/-- Instance of C5: on the concrete platform, with a server that rejects the
request, the cached key item stays as it was. -/
theorem setup_commits_only_after_success_witness :
    (setup demoPlatform failingContext demoAccount (storageWithKey "x.xx.") ["q"]
      ["a"]).outcome = Outcome.failed ⟨"Network error"⟩ ∧
    (setup demoPlatform failingContext demoAccount (storageWithKey "x.xx.") ["q"]
      ["a"]).userStorage = storageWithKey "x.xx." ∧
    (setup demoPlatform failingContext demoAccount (storageWithKey "x.xx.") ["q"]
      ["a"]).userStorage.getItem "recovery2Key" = (storageWithKey "x.xx.").getItem "recovery2Key" :=
  (setup_commits_only_after_success demoPlatform failingContext demoAccount
    (storageWithKey "x.xx.") ["q"] ["a"]).1 [1, 2] ⟨"Network error"⟩ rfl rfl

theorem setupKey_of_cached (P : Platform) (userStorage : Storage) (stored : String)
    (hitem : userStorage.getItem "recovery2Key" = some stored) (hne : stored ≠ "") :
    setupKey P userStorage = parseKey P stored := by
  simp only [setupKey, hitem, truthyItem, hne, if_false]

/-- C6, as stated, fails: a storage whose `recovery2Key` item is the empty
string holds an item that decodes (to the empty key), yet `setup` treats it
as absent and sends boxes made with the 32 random bytes instead. -/
theorem setup_ignores_empty_cached_key :
    (storageWithKey "").getItem "recovery2Key" = some "" ∧
    parseKey demoPlatform "" = Except.ok [] ∧
    (setup demoPlatform (replyingContext ⟨none, none⟩) demoAccount (storageWithKey "")
      ["q"] ["a"]).sent
      = some (setupRequest demoPlatform demoAccount (demoPlatform.random 32) ["q"] ["a"]) ∧
    (setup demoPlatform (replyingContext ⟨none, none⟩) demoAccount (storageWithKey "")
      ["q"] ["a"]).sent
      ≠ some (setupRequest demoPlatform demoAccount [] ["q"] ["a"]) := by
  refine ⟨rfl, rfl, rfl, ?_⟩
  intro h
  have hsent : (setup demoPlatform (replyingContext ⟨none, none⟩) demoAccount
      (storageWithKey "") ["q"] ["a"]).sent
      = some (setupRequest demoPlatform demoAccount (demoPlatform.random 32) ["q"] ["a"]) := rfl
  rw [hsent] at h
  simp only [setupRequest, Option.some.injEq, Request.setup.injEq,
    Recovery2Data.mk.injEq] at h
  have hbox := h.2.2.2.2.1
  have hiv := congrArg EncryptedBox.iv hbox
  exact absurd hiv (by decide)

/-- C6, amended: when the account's storage holds a non-empty `recovery2Key`
item that `parseKey` decodes, `setup` uses exactly the decoded key for the
identifier, the proofs and the three boxes it sends, and when the request
succeeds the key string it returns is the one then stored under
`recovery2Key` in the account's storage. -/
theorem setup_uses_cached_key (P : Platform) (ctx : Context) (account : Account)
    (userStorage : Storage) (questions answers : List String) (stored : String) (key : Bytes)
    (hitem : userStorage.getItem "recovery2Key" = some stored) (hne : stored ≠ "")
    (hparse : parseKey P stored = Except.ok key) :
    (setup P ctx account userStorage questions answers).sent
      = some (Request.setup (P.userId account) (P.base64 (P.passwordAuth account))
          { recovery2Id := P.base64 (P.hmac_sha256 (HmacData.text account.username) key)
            recovery2Auth := recovery2Auth P key answers
            recovery2Box := P.encrypt account.dataKey key
            recovery2KeyBox := P.encrypt key account.dataKey
            question2Box :=
              P.encrypt (P.utf8Encode (P.jsonStringify (Json.ofStrings questions))) key }) ∧
    (∀ reply, ctx.authRequest "PUT" "/v2/login/recovery2"
        (setupRequest P account key questions answers) = Except.ok reply →
      (setup P ctx account userStorage questions answers).outcome
        = Outcome.done (encodeKey P key) ∧
      (setup P ctx account userStorage questions answers).userStorage.getItem "recovery2Key"
        = some (encodeKey P key)) := by
  have hkey : setupKey P userStorage = Except.ok key := by
    rw [setupKey_of_cached P userStorage stored hitem hne, hparse]
  constructor
  · cases hreq : ctx.authRequest "PUT" "/v2/login/recovery2"
        (setupRequest P account key questions answers) with
    | error err =>
      rw [setup_of_request_error P ctx account userStorage questions answers key err hkey hreq]
      rfl
    | ok reply =>
      rw [setup_of_request_ok P ctx account userStorage questions answers key reply hkey hreq]
      rfl
  · intro reply hreq
    rw [setup_of_request_ok P ctx account userStorage questions answers key reply hkey hreq]
    exact ⟨rfl, by simp [Storage.setItem]⟩

/-- Instance of amended C6: on the concrete platform, the cached key `[1, 2]`
is the one used and returned. -/
theorem setup_uses_cached_key_witness :
    (setup demoPlatform (replyingContext ⟨none, none⟩) demoAccount (storageWithKey "x.xx.")
      ["q"] ["a"]).sent = some (Request.setup "alice" "x.xx.xxx." demoSetupData) ∧
    (setup demoPlatform (replyingContext ⟨none, none⟩) demoAccount (storageWithKey "x.xx.")
      ["q"] ["a"]).outcome = Outcome.done "x.xx." ∧
    (setup demoPlatform (replyingContext ⟨none, none⟩) demoAccount (storageWithKey "x.xx.")
      ["q"] ["a"]).userStorage.getItem "recovery2Key" = some "x.xx." :=
  ⟨(setup_uses_cached_key demoPlatform (replyingContext ⟨none, none⟩) demoAccount
      (storageWithKey "x.xx.") ["q"] ["a"] "x.xx." [1, 2] rfl (by decide) rfl).1,
    (setup_uses_cached_key demoPlatform (replyingContext ⟨none, none⟩) demoAccount
      (storageWithKey "x.xx.") ["q"] ["a"] "x.xx." [1, 2] rfl (by decide) rfl).2
      ⟨none, none⟩ rfl⟩

/-- C7: when the reply given to `questions` carries the `question2Box` that
`setup` builds from a list of questions under the same recovery key, and
decrypt undoes encrypt, UTF-8 decoding undoes encoding and `JSON.parse`
undoes `JSON.stringify` on that list, `questions` returns an array of the
same length whose i-th element is the i-th question; a reply without
`question2Box` yields the error `Account has no recovery questions`. -/
theorem questions_roundtrip (P : Platform) (ctx : Context) (account : Account)
    (keyString username user : String) (key : Bytes) (questionList answers : List String)
    (reply : Reply)
    (hparse : parseKey P keyString = Except.ok key)
    (hnormalize : P.normalize username = Except.ok user)
    (hreply : ctx.authRequest "GET" "/v2/login"
      (Request.questions (P.base64 (recovery2Id P key user))) = Except.ok reply) :
    (∀ userId passwordAuth data,
      setupRequest P account key questionList answers
        = Request.setup userId passwordAuth data →
      reply.question2Box = some data.question2Box →
      P.decrypt
        (P.encrypt (P.utf8Encode (P.jsonStringify (Json.ofStrings questionList))) key) key
        = Except.ok (P.utf8Encode (P.jsonStringify (Json.ofStrings questionList))) →
      P.utf8Decode (P.utf8Encode (P.jsonStringify (Json.ofStrings questionList)))
        = P.jsonStringify (Json.ofStrings questionList) →
      P.jsonParse (P.jsonStringify (Json.ofStrings questionList))
        = Except.ok (Json.ofStrings questionList) →
      ∃ items, questions P ctx keyString username = Outcome.done (Json.arr items) ∧
        items.length = questionList.length ∧
        ∀ (i : Nat) (h : i < questionList.length),
          items[i]? = some (Json.str (questionList.get ⟨i, h⟩))) ∧
    (reply.question2Box = none →
      questions P ctx keyString username
        = Outcome.failed ⟨"Account has no recovery questions"⟩) := by
  constructor
  · intro userId passwordAuth data hsetup hbox hdecrypt hutf8 hjson
    simp only [setupRequest, Request.setup.injEq] at hsetup
    obtain ⟨_, _, hdata⟩ := hsetup
    subst hdata
    simp only [] at hbox
    refine ⟨questionList.map Json.str, ?_, by simp, ?_⟩
    · simp only [questions, hparse, hnormalize, hreply, hbox, hdecrypt, hutf8, hjson]
      rfl
    · intro i h
      simp [h]
  · intro hbox
    simp only [questions, hparse, hnormalize, hreply, hbox]

/-- Instance of C7: on the concrete platform, the question `q` set up under
the key `[1, 2]` is read back. -/
theorem questions_roundtrip_witness :
    ∃ items, questions demoPlatform (replyingContext ⟨none, some ⟨0, [1, 2], [113, 10]⟩⟩)
        "x.xx." "alice" = Outcome.done (Json.arr items) ∧
      items.length = ["q"].length ∧
      ∀ (i : Nat) (h : i < ["q"].length), items[i]? = some (Json.str (["q"].get ⟨i, h⟩)) :=
  (questions_roundtrip demoPlatform (replyingContext ⟨none, some ⟨0, [1, 2], [113, 10]⟩⟩)
    demoAccount "x.xx." "alice" "alice" [1, 2] ["q"] ["a"]
    ⟨none, some ⟨0, [1, 2], [113, 10]⟩⟩ rfl rfl rfl).1
    "alice" "x.xx.xxx." demoSetupData rfl rfl rfl rfl rfl

/-! ## Properties of JavaScript objects -/

theorem JsObject.get_replace {α : Type} (key : String) (value : α) (o : JsObject α)
    (k : String) :
    JsObject.get (JsObject.replace key value o) k
      = if k = key then (JsObject.get o key).map (fun _ => value) else JsObject.get o k := by
  induction o with
  | nil => simp [JsObject.replace, JsObject.get]
  | cons entry rest ih =>
    obtain ⟨k1, v1⟩ := entry
    by_cases h1 : k1 = key
    · subst h1
      by_cases h2 : k = k1
      · subst h2
        simp [JsObject.replace, JsObject.get]
      · have h3 : ¬ k1 = k := fun h => h2 h.symm
        simp [JsObject.replace, JsObject.get, h2, h3]
    · by_cases h2 : k = key
      · subst h2
        simp [JsObject.replace, JsObject.get, h1, ih]
      · by_cases h3 : k1 = k
        · simp [JsObject.replace, JsObject.get, h1, h2, h3]
        · simp [JsObject.replace, JsObject.get, h1, h2, h3, ih]

theorem JsObject.get_insertIndex {α : Type} (n : Nat) (key : String) (value : α)
    (o : JsObject α) (hnew : JsObject.get o key = none) (k : String) :
    JsObject.get (JsObject.insertIndex n key value o) k
      = if k = key then some value else JsObject.get o k := by
  induction o with
  | nil =>
    by_cases h : k = key
    · subst h; simp [JsObject.insertIndex, JsObject.get]
    · have h2 : ¬ key = k := fun h3 => h h3.symm
      simp [JsObject.insertIndex, JsObject.get, h, h2]
  | cons entry rest ih =>
    obtain ⟨k1, v1⟩ := entry
    have hk1 : ¬ k1 = key := by
      intro h
      simp [JsObject.get, h] at hnew
    have hrest : JsObject.get rest key = none := by
      simpa [JsObject.get, hk1] using hnew
    have hfront : JsObject.get ((key, value) :: (k1, v1) :: rest) k
        = if k = key then some value else JsObject.get ((k1, v1) :: rest) k := by
      by_cases h : k = key
      · subst h; simp [JsObject.get]
      · have h2 : ¬ key = k := fun h3 => h h3.symm
        simp [JsObject.get, h, h2]
    unfold JsObject.insertIndex
    cases arrayIndex? k1 with
    | none => exact hfront
    | some m =>
      by_cases hlt : n < m
      · simp only [hlt, if_true]
        exact hfront
      · simp only [hlt, if_false]
        by_cases h : k = key
        · subst h
          simp [JsObject.get, hk1, ih hrest]
        · by_cases h3 : k1 = k
          · simp [JsObject.get, h, h3]
          · simp [JsObject.get, h, h3, ih hrest]

theorem JsObject.get_append_new {α : Type} (key : String) (value : α) (o : JsObject α)
    (hnew : JsObject.get o key = none) (k : String) :
    JsObject.get (o ++ [(key, value)]) k
      = if k = key then some value else JsObject.get o k := by
  induction o with
  | nil =>
    by_cases h : k = key
    · subst h; simp [JsObject.get]
    · have h2 : ¬ key = k := fun h3 => h h3.symm
      simp [JsObject.get, h, h2]
  | cons entry rest ih =>
    obtain ⟨k1, v1⟩ := entry
    have hk1 : ¬ k1 = key := by
      intro h
      simp [JsObject.get, h] at hnew
    have hrest : JsObject.get rest key = none := by
      simpa [JsObject.get, hk1] using hnew
    by_cases h : k = key
    · subst h
      simp [JsObject.get, hk1, ih hrest]
    · by_cases h3 : k1 = k
      · simp [JsObject.get, h, h3]
      · simp [JsObject.get, h, h3, ih hrest]

/-- Reading a property after `o[key] = value`. -/
theorem JsObject.get_define {α : Type} (o : JsObject α) (key : String) (value : α)
    (k : String) :
    JsObject.get (JsObject.define o key value) k
      = if k = key then some value else JsObject.get o k := by
  unfold JsObject.define
  cases hget : JsObject.get o key with
  | some old =>
    simp only [JsObject.get_replace, hget, Option.map_some']
  | none =>
    cases arrayIndex? key with
    | some n => exact JsObject.get_insertIndex n key value o hget k
    | none => exact JsObject.get_append_new key value o hget k

theorem JsObject.set_eq_define {α : Type} (o : JsObject α) (key : String) (value : α)
    (h : key ≠ "__proto__" ∨ JsObject.get o key ≠ none) :
    JsObject.set o key value = JsObject.define o key value := by
  cases hget : JsObject.get o key with
  | some old => simp only [JsObject.set, JsObject.define, hget]
  | none =>
    rcases h with h | h
    · simp only [JsObject.set, hget, if_neg h]
    · exact absurd hget h

theorem JsObject.set_proto_absent {α : Type} (o : JsObject α) (value : α)
    (h : JsObject.get o "__proto__" = none) : JsObject.set o "__proto__" value = o := by
  simp only [JsObject.set, h, if_true]

theorem JsObject.get_set {α : Type} (o : JsObject α) (key : String) (value : α) (k : String)
    (h : key ≠ "__proto__" ∨ JsObject.get o key ≠ none) :
    JsObject.get (JsObject.set o key value) k
      = if k = key then some value else JsObject.get o k := by
  rw [JsObject.set_eq_define o key value h, JsObject.get_define]

theorem JsObject.get_set_other {α : Type} (o : JsObject α) (key : String) (value : α)
    (k : String) (hk : k ≠ key) :
    JsObject.get (JsObject.set o key value) k = JsObject.get o k := by
  by_cases h : key ≠ "__proto__" ∨ JsObject.get o key ≠ none
  · rw [JsObject.get_set o key value k h, if_neg hk]
  · rw [not_or, not_not, not_not] at h
    obtain ⟨h1, h2⟩ := h
    subst h1
    rw [JsObject.set_proto_absent o value h2]

/-- A key is listed by `Object.keys` exactly when reading it gives a value. -/
theorem JsObject.mem_keys_iff {α : Type} (o : JsObject α) (k : String) :
    k ∈ JsObject.keys o ↔ ∃ v, JsObject.get o k = some v := by
  induction o with
  | nil => simp [JsObject.keys, JsObject.get]
  | cons entry rest ih =>
    obtain ⟨k1, v1⟩ := entry
    by_cases h : k1 = k
    · subst h
      simp [JsObject.keys, JsObject.get]
    · have h2 : ¬ k = k1 := fun h3 => h h3.symm
      have ih2 : k ∈ List.map Prod.fst rest ↔ ∃ v, JsObject.get rest k = some v := ih
      simp [JsObject.keys, JsObject.get, h, h2, ih2]

/-! ## Properties of the `stashes` and `localUsers` reducers -/

theorem get_stashesInitStep (out : LoginStashMap) (stash : LoginStash) (u : String)
    (hu : u ≠ "__proto__") :
    JsObject.get (stashesInitStep out stash) u
      = if stash.username = some u then some stash else JsObject.get out u := by
  unfold stashesInitStep
  cases hname : stash.username with
  | none => simp
  | some username =>
    by_cases h : u = username
    · subst h
      simp [JsObject.get_set out u stash u (Or.inl hu)]
    · have h2 : ¬ username = u := fun h3 => h h3.symm
      simp [JsObject.get_set_other out username stash u h, h2]

theorem get_stashesInitStep_proto (out : LoginStashMap) (stash : LoginStash)
    (h : JsObject.get out "__proto__" = none) :
    JsObject.get (stashesInitStep out stash) "__proto__" = none := by
  unfold stashesInitStep
  cases hname : stash.username with
  | none => exact h
  | some username =>
    by_cases h1 : username = "__proto__"
    · subst h1
      simp only [JsObject.set_proto_absent out stash h]
      exact h
    · simp only [JsObject.get_set_other out username stash "__proto__" (fun h2 => h1 h2.symm)]
      exact h

theorem get_stashesInit_proto (payload : List LoginStash) (out : LoginStashMap)
    (h : JsObject.get out "__proto__" = none) :
    JsObject.get (payload.foldl stashesInitStep out) "__proto__" = none := by
  induction payload generalizing out with
  | nil => exact h
  | cons stash rest ih => exact ih _ (get_stashesInitStep_proto out stash h)

theorem get_stashesInit (payload : List LoginStash) (u : String) (hu : u ≠ "__proto__") :
    JsObject.get (payload.foldl stashesInitStep []) u
      = (payload.filter (fun stash => stash.username = some u)).getLast? := by
  induction payload using List.reverseRecOn with
  | nil => rfl
  | append_singleton rest stash ih =>
    rw [List.foldl_append, List.filter_append, List.getLast?_append]
    simp only [List.foldl_cons, List.foldl_nil, get_stashesInitStep _ _ u hu, ih]
    by_cases h : stash.username = some u
    · simp [List.filter, h]
    · simp [List.filter, h]

/-- C8, on the code: a root stash without a username makes the
`LOGIN_STASH_SAVED` case of `stashes` throw `Missing username`, is skipped by
the `INIT` case, and so has no entry in `localUsers`. -/
theorem usernameless_stash_is_not_cached :
    usernamelessStash.username = none ∧
    stashes [] (RootAction.LOGIN_STASH_SAVED usernamelessStash)
      = Except.error ⟨"Missing username"⟩ ∧
    stashes [] (RootAction.INIT ⟨"", "test", "", [usernamelessStash]⟩) = Except.ok [] ∧
    ∀ D : LoginDeps, localUsers D "test" [] = some [] :=
  ⟨rfl, rfl, rfl, fun _ => rfl⟩

/-- C9, counterexample: for a payload whose only stash has the username
`__proto__`, the assignment `out[username] = stash` makes no own property, so
the map after `INIT` has no key although a top-level stash has that username. -/
theorem stashes_init_skips_proto_username :
    protoStash.username = some "__proto__" ∧
    stashes [] (RootAction.INIT ⟨"", "", "", [protoStash]⟩) = Except.ok [] ∧
    ¬ ("__proto__" ∈ JsObject.keys ([] : LoginStashMap) ↔
      ∃ stash ∈ [protoStash], stash.username = some "__proto__") := by
  refine ⟨rfl, rfl, ?_⟩
  intro h
  have hmem : "__proto__" ∈ JsObject.keys ([] : LoginStashMap) :=
    h.mpr ⟨protoStash, by simp, rfl⟩
  simp [JsObject.keys] at hmem

/-- C9, amended: after `INIT`, for every `u` other than `__proto__`, the stash
map has the key `u` exactly when a top-level stash of the payload has
username `u`, and its value at `u` is the last such top-level stash in
payload order; and every value of the map is a top-level stash of the
payload, so a stash found only in a `children` list is never one. -/
theorem stashes_init_indexes_root_stashes (state : LoginStashMap) (payload : InitPayload) :
    ∃ out, stashes state (RootAction.INIT payload) = Except.ok out ∧
      (∀ u, u ≠ "__proto__" →
        (u ∈ JsObject.keys out ↔ ∃ stash ∈ payload.stashes, stash.username = some u)) ∧
      (∀ u, u ≠ "__proto__" → JsObject.get out u
        = (payload.stashes.filter (fun stash => stash.username = some u)).getLast?) ∧
      (∀ u stash, JsObject.get out u = some stash →
        stash ∈ payload.stashes ∧ stash.username = some u) ∧
      (∀ stash, stash ∉ payload.stashes → ∀ u, JsObject.get out u ≠ some stash) := by
  have hproto : ∀ u stash,
      JsObject.get (payload.stashes.foldl stashesInitStep []) u = some stash →
      u ≠ "__proto__" := by
    intro u stash hget hu
    subst hu
    rw [get_stashesInit_proto payload.stashes [] rfl] at hget
    cases hget
  have hvalue : ∀ u stash,
      JsObject.get (payload.stashes.foldl stashesInitStep []) u = some stash →
      stash ∈ payload.stashes ∧ stash.username = some u := by
    intro u stash hget
    rw [get_stashesInit payload.stashes u (hproto u stash hget)] at hget
    have hmem := List.mem_of_getLast?_eq_some hget
    simpa using hmem
  refine ⟨payload.stashes.foldl stashesInitStep [], rfl, ?_,
    fun u hu => get_stashesInit payload.stashes u hu, hvalue, ?_⟩
  · intro u hu
    rw [JsObject.mem_keys_iff]
    constructor
    · rintro ⟨stash, hget⟩
      exact ⟨stash, hvalue u stash hget⟩
    · rintro ⟨stash, hmem, hname⟩
      rw [get_stashesInit payload.stashes u hu]
      have hne : payload.stashes.filter (fun stash => stash.username = some u) ≠ [] := by
        intro hnil
        have : stash ∈ payload.stashes.filter (fun stash => stash.username = some u) := by
          simp [hmem, hname]
        rw [hnil] at this
        exact absurd this (List.not_mem_nil _)
      cases hlast : (payload.stashes.filter (fun stash => stash.username = some u)).getLast? with
      | none => exact absurd (List.getLast?_eq_none_iff.mp hlast) hne
      | some last => exact ⟨last, rfl⟩
  · intro stash hnot u hget
    exact hnot (hvalue u stash hget).1

/-- Instance of C9 (amended): two top-level stashes, `alice` and `__proto__`. -/
theorem stashes_init_indexes_root_stashes_witness :
    ∃ out, stashes [] (RootAction.INIT ⟨"", "", "", [aliceStash, protoStash]⟩) = Except.ok out ∧
      (∀ u, u ≠ "__proto__" →
        (u ∈ JsObject.keys out ↔ ∃ stash ∈ [aliceStash, protoStash], stash.username = some u)) ∧
      JsObject.keys out = ["alice"] := by
  obtain ⟨out, hrun, hkeys, -⟩ :=
    stashes_init_indexes_root_stashes [] ⟨"", "", "", [aliceStash, protoStash]⟩
  refine ⟨out, hrun, hkeys, ?_⟩
  have hvalue : stashes [] (RootAction.INIT ⟨"", "", "", [aliceStash, protoStash]⟩)
      = Except.ok [("alice", aliceStash)] := rfl
  rw [hvalue] at hrun
  cases hrun
  rfl

theorem localUsersLoop_spec (D : LoginDeps) (appId : String) (stashMap : LoginStashMap) :
    ∀ (ks : List String) (out : List EdgeUserInfo),
      (∀ k ∈ ks, k ∈ JsObject.keys stashMap) →
      ∃ res, localUsersLoop D appId stashMap ks out = some (out ++ res) ∧
        res.length = ks.length ∧
        ∀ (i : Nat) (h : i < ks.length), ∃ stashTree,
          JsObject.get stashMap (ks.get ⟨i, h⟩) = some stashTree ∧
          res[i]? = some (localUser D appId (ks.get ⟨i, h⟩) stashTree) := by
  intro ks
  induction ks with
  | nil =>
    intro out _
    exact ⟨[], by simp [localUsersLoop], rfl, fun i h => absurd h (Nat.not_lt_zero i)⟩
  | cons k rest ih =>
    intro out hkeys
    obtain ⟨stashTree, hget⟩ :=
      (JsObject.mem_keys_iff stashMap k).mp (hkeys k (List.mem_cons_self k rest))
    obtain ⟨res, hloop, hlen, hres⟩ :=
      ih (out ++ [localUser D appId k stashTree])
        (fun k2 hk2 => hkeys k2 (List.mem_cons_of_mem k hk2))
    refine ⟨localUser D appId k stashTree :: res, ?_, by simp [hlen], ?_⟩
    · simp only [localUsersLoop, hget, hloop, List.append_assoc, List.singleton_append]
    · intro i h
      cases i with
      | zero => exact ⟨stashTree, hget, by simp⟩
      | succ j =>
        have hj : j < rest.length := by simpa using h
        obtain ⟨tree, htree, hentry⟩ := hres j hj
        exact ⟨tree, htree, by simpa using hentry⟩

/-- C10: for every stash map and appId, `localUsers` returns one entry per
key of the map, in the order of `Object.keys`; the entry for the key `u` has
username `u`, loginId the base58 text of the loginId of the root stash stored
at `u`, and lastLogin that root stash's lastLogin. -/
theorem localUsers_lists_each_root_stash (D : LoginDeps) (appId : String)
    (stashMap : LoginStashMap) :
    ∃ out, localUsers D appId stashMap = some out ∧
      out.length = (JsObject.keys stashMap).length ∧
      ∀ (i : Nat) (h : i < (JsObject.keys stashMap).length), ∃ entry stashTree,
        out[i]? = some entry ∧
        JsObject.get stashMap ((JsObject.keys stashMap).get ⟨i, h⟩) = some stashTree ∧
        entry.username = (JsObject.keys stashMap).get ⟨i, h⟩ ∧
        entry.loginId = D.base58 stashTree.loginId ∧
        entry.lastLogin = stashTree.lastLogin := by
  obtain ⟨res, hloop, hlen, hres⟩ :=
    localUsersLoop_spec D appId stashMap (JsObject.keys stashMap) [] (fun _ hk => hk)
  refine ⟨res, by simpa [localUsers] using hloop, hlen, ?_⟩
  intro i h
  obtain ⟨stashTree, hget, hentry⟩ := hres i h
  exact ⟨_, stashTree, hentry, hget, rfl, rfl, rfl⟩

/-- C11: for every cached stash tree and appId, the entry of `localUsers` has
`keyLoginEnabled` true exactly when `searchTree`, asked for a node whose
appId is the context's appId, finds a node and that node has a
`passwordAuthBox` or a `loginAuthBox`; its `voucherId` is that node's
`voucherId`, and undefined when no node is found. -/
theorem localUsers_keyLoginEnabled_iff (D : LoginDeps) (appId : String)
    (stashMap : LoginStashMap) :
    ∃ out, localUsers D appId stashMap = some out ∧
      ∀ (i : Nat) (h : i < (JsObject.keys stashMap).length), ∃ entry stashTree,
        out[i]? = some entry ∧
        JsObject.get stashMap ((JsObject.keys stashMap).get ⟨i, h⟩) = some stashTree ∧
        (entry.keyLoginEnabled = true ↔
          ∃ node, D.searchTree stashTree (fun stash => stash.appId = appId) = some node ∧
            (node.passwordAuthBox ≠ none ∨ node.loginAuthBox ≠ none)) ∧
        (∀ node, D.searchTree stashTree (fun stash => stash.appId = appId) = some node →
          entry.voucherId = node.voucherId) ∧
        (D.searchTree stashTree (fun stash => stash.appId = appId) = none →
          entry.voucherId = none) := by
  obtain ⟨res, hloop, _, hres⟩ :=
    localUsersLoop_spec D appId stashMap (JsObject.keys stashMap) [] (fun _ hk => hk)
  refine ⟨res, by simpa [localUsers] using hloop, ?_⟩
  intro i h
  obtain ⟨stashTree, hget, hentry⟩ := hres i h
  refine ⟨_, stashTree, hentry, hget, ?_, ?_, ?_⟩
  · cases hsearch : D.searchTree stashTree (fun stash => stash.appId = appId) with
    | none => simp [localUser, hsearch]
    | some node =>
      cases hp : node.passwordAuthBox <;> cases hl : node.loginAuthBox <;>
        simp [localUser, hsearch, hp, hl]
  · intro node hsearch
    simp [localUser, hsearch]
  · intro hsearch
    simp [localUser, hsearch]

/-- C12: for every cached root stash, the `recovery2Key` of its `localUsers`
entry is the base58 text of the root stash's own `recovery2Key` when it has
one, and undefined when it has none. -/
theorem localUsers_recovery2Key_of_root (D : LoginDeps) (appId : String)
    (stashMap : LoginStashMap) :
    ∃ out, localUsers D appId stashMap = some out ∧
      ∀ (i : Nat) (h : i < (JsObject.keys stashMap).length), ∃ entry stashTree,
        out[i]? = some entry ∧
        JsObject.get stashMap ((JsObject.keys stashMap).get ⟨i, h⟩) = some stashTree ∧
        (∀ key, stashTree.recovery2Key = some key →
          entry.recovery2Key = some (D.base58 key)) ∧
        (stashTree.recovery2Key = none → entry.recovery2Key = none) := by
  obtain ⟨res, hloop, _, hres⟩ :=
    localUsersLoop_spec D appId stashMap (JsObject.keys stashMap) [] (fun _ hk => hk)
  refine ⟨res, by simpa [localUsers] using hloop, ?_⟩
  intro i h
  obtain ⟨stashTree, hget, hentry⟩ := hres i h
  refine ⟨_, stashTree, hentry, hget, ?_, ?_⟩
  · intro key hkey
    simp [localUser, hkey]
  · intro hkey
    simp [localUser, hkey]

/-! ## Properties of `makePendingVouchers` -/

/-- C13: the result of `makePendingVouchers` is made, in order, from exactly
the vouchers of the login whose status is `pending`: it is the image under
`pendingEntry` (same voucherId, activates, created, deviceDescription, ip,
ipDescription) of a sublist of the vouchers that contains every pending
voucher once and no approved or rejected voucher. -/
theorem makePendingVouchers_only_pending (login : DbLogin) :
    ∃ kept : List EdgeVoucherDump,
      makePendingVouchers login = kept.map pendingEntry ∧
      kept.Sublist login.vouchers ∧
      kept.length = login.vouchers.countP (fun voucher => voucher.status = VoucherStatus.pending) ∧
      (∀ voucher ∈ login.vouchers, voucher.status = VoucherStatus.pending → voucher ∈ kept) ∧
      (∀ voucher ∈ kept, voucher.status = VoucherStatus.pending ∧
        voucher.status ≠ VoucherStatus.approved ∧ voucher.status ≠ VoucherStatus.rejected) ∧
      (makePendingVouchers login).length
        = login.vouchers.countP (fun voucher => voucher.status = VoucherStatus.pending) := by
  refine ⟨login.vouchers.filter (fun voucher => voucher.status = VoucherStatus.pending),
    rfl, List.filter_sublist _, ?_, ?_, ?_, ?_⟩
  · rw [List.countP_eq_length_filter]
  · intro voucher hmem hstatus
    simp [List.mem_filter, hmem, hstatus]
  · intro voucher hmem
    have hstatus : voucher.status = VoucherStatus.pending := by
      simpa using (List.mem_filter.mp hmem).2
    simp [hstatus]
  · simp [makePendingVouchers, List.countP_eq_length_filter]

/-! ## Properties of `changeVoucherStatus` -/

/-- C14: `changeVoucherStatus` saves only after the server accepted the
decision. When the POST `/v2/login/vouchers` request fails, or its reply is
not a valid login payload, `saveStash` is not called and the cached stash
tree is as it was; when both succeed, the one stash saved is
`applyLoginPayload(stashTree, login.loginKey, asLoginPayload(reply))` for the
stash tree looked up by `login.loginId`. -/
theorem changeVoucherStatus_saves_after_accept {Payload : Type} (D : VoucherDeps Payload)
    (login : LoginTree) (vouchers : ChangeVouchersPayload) (stashTree : LoginStash)
    (auth : Json)
    (hstash : D.getStashById login.loginId = Except.ok stashTree)
    (hauth : D.makeAuthJson stashTree login = Except.ok auth) :
    (∀ e, D.loginFetch "POST" "/v2/login/vouchers"
        ⟨auth, D.wasChangeVouchersPayload vouchers⟩ = Except.error e →
      (changeVoucherStatus D login vouchers).result = Except.error e ∧
      (changeVoucherStatus D login vouchers).saved = [] ∧
      (changeVoucherStatus D login vouchers).stashTree = some stashTree) ∧
    (∀ reply e, D.loginFetch "POST" "/v2/login/vouchers"
        ⟨auth, D.wasChangeVouchersPayload vouchers⟩ = Except.ok reply →
      D.asLoginPayload reply = Except.error e →
      (changeVoucherStatus D login vouchers).result = Except.error e ∧
      (changeVoucherStatus D login vouchers).saved = [] ∧
      (changeVoucherStatus D login vouchers).stashTree = some stashTree) ∧
    (∀ reply payload newStashTree, D.loginFetch "POST" "/v2/login/vouchers"
        ⟨auth, D.wasChangeVouchersPayload vouchers⟩ = Except.ok reply →
      D.asLoginPayload reply = Except.ok payload →
      D.applyLoginPayload stashTree login.loginKey payload = Except.ok newStashTree →
      (changeVoucherStatus D login vouchers).saved = [newStashTree] ∧
      (changeVoucherStatus D login vouchers).result = D.saveStash newStashTree ∧
      (changeVoucherStatus D login vouchers).stashTree = some stashTree) := by
  refine ⟨?_, ?_, ?_⟩
  · intro e hfetch
    simp [changeVoucherStatus, hstash, hauth, hfetch]
  · intro reply e hfetch hclean
    simp [changeVoucherStatus, hstash, hauth, hfetch, hclean]
  · intro reply payload newStashTree hfetch hclean happly
    simp [changeVoucherStatus, hstash, hauth, hfetch, hclean, happly]

/-- Instance of C14: with a server whose reply is not a login payload,
nothing is saved. -/
theorem changeVoucherStatus_saves_after_accept_witness :
    (changeVoucherStatus (demoVoucherDeps (Except.ok Json.null)) aliceTree
      ⟨some ["v1"], none⟩).result = Except.error ⟨"Expected a login payload"⟩ ∧
    (changeVoucherStatus (demoVoucherDeps (Except.ok Json.null)) aliceTree
      ⟨some ["v1"], none⟩).saved = [] ∧
    (changeVoucherStatus (demoVoucherDeps (Except.ok Json.null)) aliceTree
      ⟨some ["v1"], none⟩).stashTree = some aliceStash :=
  (changeVoucherStatus_saves_after_accept (demoVoucherDeps (Except.ok Json.null)) aliceTree
    ⟨some ["v1"], none⟩ aliceStash Json.null rfl rfl).2.1 Json.null
    ⟨"Expected a login payload"⟩ rfl rfl

/-! ## Properties of `forgetAccount` and `loginWithKey` -/

theorem forgetAccountCheck_spec {A : Type} (D : ContextDeps A) (accounts : JsObject AccountState)
    (loginId : Bytes) (hverify : ∀ a b, D.verifyData a b = true ↔ a = b) :
    ∀ ids : List String, (∀ id ∈ ids, ∃ st, JsObject.get accounts id = some st) →
      (forgetAccountCheck D accounts loginId ids = Except.error ⟨"Cannot remove logged-in user"⟩ ∧
        ∃ id ∈ ids, ∃ st, JsObject.get accounts id = some st ∧ st.stashTree.loginId = loginId) ∨
      (forgetAccountCheck D accounts loginId ids = Except.ok () ∧
        ¬ ∃ id ∈ ids, ∃ st, JsObject.get accounts id = some st ∧ st.stashTree.loginId = loginId) := by
  intro ids
  induction ids with
  | nil =>
    intro _
    exact Or.inr ⟨rfl, by simp⟩
  | cons id rest ih =>
    intro hstate
    obtain ⟨st, hst⟩ := hstate id (List.mem_cons_self id rest)
    by_cases hv : D.verifyData st.stashTree.loginId loginId = true
    · left
      refine ⟨by simp only [forgetAccountCheck, hst, hv, if_true], id,
        List.mem_cons_self id rest, st, hst, (hverify _ _).mp hv⟩
    · have hne : st.stashTree.loginId ≠ loginId := fun h => hv ((hverify _ _).mpr h)
      have hstep : forgetAccountCheck D accounts loginId (id :: rest)
          = forgetAccountCheck D accounts loginId rest := by
        simp only [forgetAccountCheck, hst, hv]
        rfl
      rcases ih (fun id2 h2 => hstate id2 (List.mem_cons_of_mem id h2)) with
        ⟨herr, id2, hmem, st2, hst2, heq⟩ | ⟨hok, hnone⟩
      · exact Or.inl ⟨by rw [hstep, herr], id2, List.mem_cons_of_mem id hmem, st2, hst2, heq⟩
      · right
        refine ⟨by rw [hstep, hok], ?_⟩
        rintro ⟨id2, hmem, st2, hst2, heq⟩
        rcases List.mem_cons.mp hmem with h | h
        · subst h
          rw [hst] at hst2
          cases hst2
          exact hne heq
        · exact hnone ⟨id2, h, st2, hst2, heq⟩

/-- C15: for a root login id that decodes, with `verifyData` deciding byte
equality and every listed account id having a state, `forgetAccount` throws
`Cannot remove logged-in user` without calling `removeStash` exactly when
some logged-in account's root stash has that loginId; otherwise it calls
`removeStash` once, with the decoded id. -/
theorem forgetAccount_protects_logged_in {A : Type} (D : ContextDeps A) (state : RootState)
    (rootLoginId : String) (loginId : Bytes)
    (hparse : D.base58Parse rootLoginId = Except.ok loginId)
    (hverify : ∀ a b, D.verifyData a b = true ↔ a = b)
    (hstate : ∀ id ∈ state.accountIds, ∃ st, JsObject.get state.accounts id = some st) :
    (((forgetAccount D state rootLoginId).result
          = Except.error ⟨"Cannot remove logged-in user"⟩ ∧
        (forgetAccount D state rootLoginId).removed = []) ↔
      ∃ id ∈ state.accountIds, ∃ st,
        JsObject.get state.accounts id = some st ∧ st.stashTree.loginId = loginId) ∧
    ((¬ ∃ id ∈ state.accountIds, ∃ st,
        JsObject.get state.accounts id = some st ∧ st.stashTree.loginId = loginId) →
      (forgetAccount D state rootLoginId).removed = [loginId] ∧
      (forgetAccount D state rootLoginId).result = D.removeStash loginId) := by
  rcases forgetAccountCheck_spec D state.accounts loginId hverify state.accountIds hstate with
    ⟨herr, hex⟩ | ⟨hok, hnone⟩
  · have hrun : forgetAccount D state rootLoginId
        = ⟨Except.error ⟨"Cannot remove logged-in user"⟩, []⟩ := by
      simp only [forgetAccount, hparse, herr]
    rw [hrun]
    exact ⟨⟨fun _ => hex, fun _ => ⟨rfl, rfl⟩⟩, fun hnot => absurd hex hnot⟩
  · have hrun : forgetAccount D state rootLoginId = ⟨D.removeStash loginId, [loginId]⟩ := by
      simp only [forgetAccount, hparse, hok]
    rw [hrun]
    refine ⟨⟨fun h => ?_, fun h => absurd h hnone⟩, fun _ => ⟨rfl, rfl⟩⟩
    have hremoved : [loginId] = ([] : List Bytes) := h.2
    cases hremoved

/-- Instance of C15: `alice` is logged in, so forgetting her root login id
is refused. -/
theorem forgetAccount_protects_logged_in_witness :
    (forgetAccount demoContextDeps aliceLoggedIn "x.xx.xxx.").result
      = Except.error ⟨"Cannot remove logged-in user"⟩ ∧
    (forgetAccount demoContextDeps aliceLoggedIn "x.xx.xxx.").removed = [] :=
  (forgetAccount_protects_logged_in demoContextDeps aliceLoggedIn "x.xx.xxx." [1, 2, 3] rfl
    (fun a b => by simp [demoContextDeps])
    (fun id hid => by
      have h : id = "a1" := by simpa [aliceLoggedIn] using hid
      subst h
      exact ⟨⟨aliceStash⟩, rfl⟩)).1.mpr
    ⟨"a1", by simp [aliceLoggedIn], ⟨aliceStash⟩, rfl, rfl⟩

theorem loginWithKey_of_tree {A : Type} (D : ContextDeps A) (appId : String)
    (usernameOrLoginId loginKey : String) (opts : KeyLoginOpts) (stashTree : LoginStash)
    (key : Bytes) (loginTree : LoginTree)
    (hlookup : lookupStashTree D (opts.useLoginId.getD false) usernameOrLoginId
      = Except.ok (some stashTree))
    (hkey : D.base58Parse loginKey = Except.ok key)
    (htree : D.makeLoginTree stashTree key appId = Except.ok loginTree) :
    loginWithKey D appId usernameOrLoginId loginKey opts =
      match D.findAppLogin loginTree appId with
      | Except.error e =>
        ⟨Except.error e, some { stashTree with lastLogin := some (opts.now.getD D.currentTime) },
          some loginTree, [{ stashTree with lastLogin := some (opts.now.getD D.currentTime) }],
          [], [], []⟩
      | Except.ok login =>
        ⟨D.makeAccount appId loginTree "keyLogin" opts,
          some { stashTree with lastLogin := some (opts.now.getD D.currentTime) },
          some loginTree, [{ stashTree with lastLogin := some (opts.now.getD D.currentTime) }],
          [(loginTree, login)], reportedTo (D.syncLogin loginTree login), [loginTree]⟩ := by
  simp only [loginWithKey, hlookup, hkey, htree, swallowed, List.nil_append]

/-- C16: when the stash lookup of `loginWithKey` finds no cached stash, the
call fails with `User does not exist on this device` and nothing else has
happened: no login tree was built, no stash saved, no sync started and no
account made. -/
theorem loginWithKey_unknown_user {A : Type} (D : ContextDeps A) (appId : String)
    (usernameOrLoginId loginKey : String) (opts : KeyLoginOpts)
    (hlookup : lookupStashTree D (opts.useLoginId.getD false) usernameOrLoginId
      = Except.ok none) :
    (loginWithKey D appId usernameOrLoginId loginKey opts).result
      = Except.error ⟨"User does not exist on this device"⟩ ∧
    (loginWithKey D appId usernameOrLoginId loginKey opts).loginTree = none ∧
    (loginWithKey D appId usernameOrLoginId loginKey opts).saved = [] ∧
    (loginWithKey D appId usernameOrLoginId loginKey opts).synced = [] ∧
    (loginWithKey D appId usernameOrLoginId loginKey opts).reported = [] ∧
    (loginWithKey D appId usernameOrLoginId loginKey opts).accounts = [] ∧
    (loginWithKey D appId usernameOrLoginId loginKey opts).stashTree = none := by
  simp [loginWithKey, hlookup]

/-- Instance of C16: the device knows `alice` only, and `bob` logs in. -/
theorem loginWithKey_unknown_user_witness :
    (loginWithKey demoContextDeps "" "bob" "xxxxxxxxx." ⟨none, none⟩).result
      = Except.error ⟨"User does not exist on this device"⟩ ∧
    (loginWithKey demoContextDeps "" "bob" "xxxxxxxxx." ⟨none, none⟩).saved = [] ∧
    (loginWithKey demoContextDeps "" "bob" "xxxxxxxxx." ⟨none, none⟩).synced = [] ∧
    (loginWithKey demoContextDeps "" "bob" "xxxxxxxxx." ⟨none, none⟩).accounts = [] :=
  ⟨(loginWithKey_unknown_user demoContextDeps "" "bob" "xxxxxxxxx." ⟨none, none⟩ rfl).1,
    (loginWithKey_unknown_user demoContextDeps "" "bob" "xxxxxxxxx." ⟨none, none⟩ rfl).2.2.1,
    (loginWithKey_unknown_user demoContextDeps "" "bob" "xxxxxxxxx." ⟨none, none⟩ rfl).2.2.2.1,
    (loginWithKey_unknown_user demoContextDeps "" "bob" "xxxxxxxxx." ⟨none, none⟩
      rfl).2.2.2.2.2.1⟩

/-- C17: however the detached promises of `saveStash` and `syncLogin` settle,
`loginWithKey` settles the same way, with the same login tree, saved stash
and account; a failure of `syncLogin` is handed to `onError` exactly once,
and a failure of `saveStash` is reported nowhere. -/
theorem loginWithKey_ignores_background_failures {A : Type} (D : ContextDeps A)
    (appId : String) (usernameOrLoginId loginKey : String) (opts : KeyLoginOpts)
    (save : LoginStash → Except JsError Unit)
    (sync : LoginTree → LoginTree → Except JsError Unit) :
    (loginWithKey (withBackground D save sync) appId usernameOrLoginId loginKey opts).result
      = (loginWithKey D appId usernameOrLoginId loginKey opts).result ∧
    (loginWithKey (withBackground D save sync) appId usernameOrLoginId loginKey opts).stashTree
      = (loginWithKey D appId usernameOrLoginId loginKey opts).stashTree ∧
    (loginWithKey (withBackground D save sync) appId usernameOrLoginId loginKey opts).saved
      = (loginWithKey D appId usernameOrLoginId loginKey opts).saved ∧
    (loginWithKey (withBackground D save sync) appId usernameOrLoginId loginKey opts).accounts
      = (loginWithKey D appId usernameOrLoginId loginKey opts).accounts ∧
    (∀ loginTree login,
      (loginWithKey (withBackground D save sync) appId usernameOrLoginId loginKey
        opts).synced = [(loginTree, login)] →
      (∀ e, sync loginTree login = Except.error e →
        (loginWithKey (withBackground D save sync) appId usernameOrLoginId loginKey
          opts).reported = [e]) ∧
      (sync loginTree login = Except.ok () →
        (loginWithKey (withBackground D save sync) appId usernameOrLoginId loginKey
          opts).reported = [])) ∧
    ((loginWithKey (withBackground D save sync) appId usernameOrLoginId loginKey
        opts).synced = [] →
      (loginWithKey (withBackground D save sync) appId usernameOrLoginId loginKey
        opts).reported = []) := by
  have hl : lookupStashTree (withBackground D save sync) (opts.useLoginId.getD false)
      usernameOrLoginId = lookupStashTree D (opts.useLoginId.getD false) usernameOrLoginId := rfl
  cases h1 : lookupStashTree D (opts.useLoginId.getD false) usernameOrLoginId with
  | error e => simp [loginWithKey, hl, h1]
  | ok found =>
    cases found with
    | none => simp [loginWithKey, hl, h1]
    | some stashTree =>
      cases h2 : D.base58Parse loginKey with
      | error e =>
        have h2b : (withBackground D save sync).base58Parse loginKey = Except.error e := h2
        simp [loginWithKey, hl, h1, h2, h2b]
      | ok key =>
        have h2b : (withBackground D save sync).base58Parse loginKey = Except.ok key := h2
        cases h3 : D.makeLoginTree stashTree key appId with
        | error e =>
          have h3b : (withBackground D save sync).makeLoginTree stashTree key appId
              = Except.error e := h3
          simp [loginWithKey, hl, h1, h2, h2b, h3, h3b]
        | ok loginTree =>
          have h3b : (withBackground D save sync).makeLoginTree stashTree key appId
              = Except.ok loginTree := h3
          rw [loginWithKey_of_tree D appId usernameOrLoginId loginKey opts stashTree key
              loginTree h1 h2 h3,
            loginWithKey_of_tree (withBackground D save sync) appId usernameOrLoginId loginKey
              opts stashTree key loginTree (hl.trans h1) h2b h3b]
          have h4b : (withBackground D save sync).findAppLogin loginTree appId
              = D.findAppLogin loginTree appId := rfl
          rw [h4b]
          cases h4 : D.findAppLogin loginTree appId with
          | error e => simp [withBackground]
          | ok login =>
            refine ⟨rfl, rfl, rfl, rfl, ?_, ?_⟩
            · intro loginTree2 login2 hsynced
              simp only [List.cons.injEq, Prod.mk.injEq, and_true] at hsynced
              obtain ⟨ht, hlog⟩ := hsynced
              subst ht
              subst hlog
              constructor
              · intro e he
                simp [withBackground, reportedTo, he]
              · intro hok
                simp [withBackground, reportedTo, hok]
            · intro hsynced
              simp at hsynced

/-- Instance of C17: `alice` logs in with her key while both detached
promises reject; the login succeeds and the sync error is reported once. -/
theorem loginWithKey_ignores_background_failures_witness :
    (loginWithKey
      (withBackground demoContextDeps (fun _ => Except.error ⟨"Disk full"⟩)
        (fun _ _ => Except.error ⟨"Network error"⟩))
      "" "alice" "xxxxxxxxx." ⟨none, none⟩).result
      = (loginWithKey demoContextDeps "" "alice" "xxxxxxxxx." ⟨none, none⟩).result ∧
    (loginWithKey demoContextDeps "" "alice" "xxxxxxxxx." ⟨none, none⟩).result
      = Except.ok "keyLogin" ∧
    (loginWithKey
      (withBackground demoContextDeps (fun _ => Except.error ⟨"Disk full"⟩)
        (fun _ _ => Except.error ⟨"Network error"⟩))
      "" "alice" "xxxxxxxxx." ⟨none, none⟩).reported = [⟨"Network error"⟩] :=
  ⟨(loginWithKey_ignores_background_failures demoContextDeps "" "alice" "xxxxxxxxx."
      ⟨none, none⟩ (fun _ => Except.error ⟨"Disk full"⟩)
      (fun _ _ => Except.error ⟨"Network error"⟩)).1,
    rfl,
    ((loginWithKey_ignores_background_failures demoContextDeps "" "alice" "xxxxxxxxx."
      ⟨none, none⟩ (fun _ => Except.error ⟨"Disk full"⟩)
      (fun _ _ => Except.error ⟨"Network error"⟩)).2.2.2.2.1 aliceTree aliceTree rfl).1
      ⟨"Network error"⟩ rfl⟩

/-- C18: in `loginWithKey`, when `makeLoginTree` succeeds the cached stash
tree becomes the same stash with `lastLogin` set to `now` (`opts.now`, or the
current time when it is absent) and that stash is the one handed to
`saveStash`; when `makeLoginTree` fails the call fails with its error, the
cached stash is unchanged in every field and nothing is saved. -/
theorem loginWithKey_updates_lastLogin {A : Type} (D : ContextDeps A) (appId : String)
    (usernameOrLoginId loginKey : String) (opts : KeyLoginOpts) (stashTree : LoginStash)
    (key : Bytes)
    (hlookup : lookupStashTree D (opts.useLoginId.getD false) usernameOrLoginId
      = Except.ok (some stashTree))
    (hkey : D.base58Parse loginKey = Except.ok key) :
    (∀ loginTree, D.makeLoginTree stashTree key appId = Except.ok loginTree →
      (loginWithKey D appId usernameOrLoginId loginKey opts).stashTree
        = some { stashTree with lastLogin := some (opts.now.getD D.currentTime) } ∧
      (loginWithKey D appId usernameOrLoginId loginKey opts).saved
        = [{ stashTree with lastLogin := some (opts.now.getD D.currentTime) }]) ∧
    (∀ e, D.makeLoginTree stashTree key appId = Except.error e →
      (loginWithKey D appId usernameOrLoginId loginKey opts).result = Except.error e ∧
      (loginWithKey D appId usernameOrLoginId loginKey opts).stashTree = some stashTree ∧
      (loginWithKey D appId usernameOrLoginId loginKey opts).saved = []) := by
  constructor
  · intro loginTree htree
    rw [loginWithKey_of_tree D appId usernameOrLoginId loginKey opts stashTree key loginTree
      hlookup hkey htree]
    cases D.findAppLogin loginTree appId with
    | error e => exact ⟨rfl, rfl⟩
    | ok login => exact ⟨rfl, rfl⟩
  · intro e htree
    simp [loginWithKey, hlookup, hkey, htree]

/-- Instance of C18: `alice` logs in with her key at time 3000. -/
theorem loginWithKey_updates_lastLogin_witness :
    (loginWithKey demoContextDeps "" "alice" "xxxxxxxxx." ⟨some 3000, none⟩).stashTree
      = some { aliceStash with lastLogin := some 3000 } ∧
    (loginWithKey demoContextDeps "" "alice" "xxxxxxxxx." ⟨some 3000, none⟩).saved
      = [{ aliceStash with lastLogin := some 3000 }] :=
  (loginWithKey_updates_lastLogin demoContextDeps "" "alice" "xxxxxxxxx." ⟨some 3000, none⟩
    aliceStash [9] rfl rfl).1 aliceTree rfl

/-- C19, as stated, fails: `alice`, whose cached stash has `lastLogin` 1000,
logs in successfully with `opts.now` 500; the stash then cached and saved has
`lastLogin` 500, which is earlier than before and is not the maximum of both. -/
theorem loginWithKey_lastLogin_can_decrease :
    aliceStash.lastLogin = some 1000 ∧
    (loginWithKey demoContextDeps "" "alice" "xxxxxxxxx." ⟨some 500, none⟩).result
      = Except.ok "keyLogin" ∧
    ((loginWithKey demoContextDeps "" "alice" "xxxxxxxxx." ⟨some 500, none⟩).stashTree.bind
      (fun stash => stash.lastLogin)) = some 500 ∧
    ((loginWithKey demoContextDeps "" "alice" "xxxxxxxxx." ⟨some 500, none⟩).saved.map
      (fun stash => stash.lastLogin)) = [some 500] ∧
    ((loginWithKey demoContextDeps "" "alice" "xxxxxxxxx." ⟨some 500, none⟩).stashTree.bind
      (fun stash => stash.lastLogin)) ≠ some (max 1000 500) ∧
    500 < 1000 := by
  refine ⟨rfl, rfl, rfl, rfl, ?_, by decide⟩
  have h : ((loginWithKey demoContextDeps "" "alice" "xxxxxxxxx."
      ⟨some 500, none⟩).stashTree.bind (fun stash => stash.lastLogin)) = some 500 := rfl
  rw [h]
  decide

/-- C19, amended: after a successful `loginWithKey` the cached and saved
stash has `lastLogin` equal to the login time of that call (`opts.now`, or
the current time when it is absent), whatever the previous value; so it is
not earlier than the previous value, and is the maximum of both, whenever
the login time is not earlier than the previous `lastLogin`. -/
theorem loginWithKey_lastLogin_is_login_time {A : Type} (D : ContextDeps A) (appId : String)
    (usernameOrLoginId loginKey : String) (opts : KeyLoginOpts) (stashTree : LoginStash)
    (account : A)
    (hlookup : lookupStashTree D (opts.useLoginId.getD false) usernameOrLoginId
      = Except.ok (some stashTree))
    (hresult : (loginWithKey D appId usernameOrLoginId loginKey opts).result
      = Except.ok account) :
    (loginWithKey D appId usernameOrLoginId loginKey opts).stashTree
      = some { stashTree with lastLogin := some (opts.now.getD D.currentTime) } ∧
    (loginWithKey D appId usernameOrLoginId loginKey opts).saved
      = [{ stashTree with lastLogin := some (opts.now.getD D.currentTime) }] ∧
    (∀ previous, stashTree.lastLogin = some previous →
      previous ≤ opts.now.getD D.currentTime →
      ((loginWithKey D appId usernameOrLoginId loginKey opts).stashTree.bind
        (fun stash => stash.lastLogin))
        = some (max previous (opts.now.getD D.currentTime))) := by
  cases hkey : D.base58Parse loginKey with
  | error e =>
    simp [loginWithKey, hlookup, hkey] at hresult
  | ok key =>
    cases htree : D.makeLoginTree stashTree key appId with
    | error e =>
      simp [loginWithKey, hlookup, hkey, htree] at hresult
    | ok loginTree =>
      have hrun := loginWithKey_of_tree D appId usernameOrLoginId loginKey opts stashTree key
        loginTree hlookup hkey htree
      have hstash : (loginWithKey D appId usernameOrLoginId loginKey opts).stashTree
          = some { stashTree with lastLogin := some (opts.now.getD D.currentTime) } := by
        rw [hrun]
        cases D.findAppLogin loginTree appId <;> rfl
      have hsaved : (loginWithKey D appId usernameOrLoginId loginKey opts).saved
          = [{ stashTree with lastLogin := some (opts.now.getD D.currentTime) }] := by
        rw [hrun]
        cases D.findAppLogin loginTree appId <;> rfl
      refine ⟨hstash, hsaved, ?_⟩
      intro previous _ hle
      rw [hstash]
      simp [Nat.max_eq_right hle]

/-- Instance of amended C19: `alice`, last logged in at 1000, logs in at 3000. -/
theorem loginWithKey_lastLogin_is_login_time_witness :
    ((loginWithKey demoContextDeps "" "alice" "xxxxxxxxx." ⟨some 3000, none⟩).stashTree.bind
      (fun stash => stash.lastLogin)) = some (max 1000 3000) :=
  (loginWithKey_lastLogin_is_login_time demoContextDeps "" "alice" "xxxxxxxxx."
    ⟨some 3000, none⟩ aliceStash "keyLogin" rfl rfl).2.2 1000 rfl (by decide)

/-! ## Properties of the stash merge -/

theorem maxLastLogin_idem (a b : Option Nat) :
    maxLastLogin (maxLastLogin a b) b = maxLastLogin a b := by
  cases a <;> cases b <;> simp [maxLastLogin]

theorem mergePayload_loginId (existing : Option LoginStash) (payload : ServerPayload) :
    (mergePayload existing payload).loginId = payload.loginId := by
  cases payload
  simp [mergePayload]

theorem mergeChildren_loginIds (locals : List LoginStash) (children : List ServerPayload) :
    (mergeChildren locals children).map (fun stash => stash.loginId)
      = children.map ServerPayload.loginId := by
  induction children with
  | nil => simp [mergeChildren]
  | cons child rest ih => simp [mergeChildren, mergePayload_loginId, ih]

theorem findChildStash_merged (locals kept : List LoginStash) :
    ∀ children : List ServerPayload, (children.map ServerPayload.loginId).Nodup →
      ∀ child ∈ children,
        findChildStash (mergeChildren locals children ++ kept) child.loginId
          = some (mergePayload (findChildStash locals child.loginId) child) := by
  intro children
  induction children with
  | nil => intro _ child hmem; exact absurd hmem (List.not_mem_nil _)
  | cons first rest ih =>
    intro hnodup child hmem
    have hnodup2 : first.loginId ∉ rest.map ServerPayload.loginId ∧
        (rest.map ServerPayload.loginId).Nodup := by
      simpa using hnodup
    rcases List.mem_cons.mp hmem with h | h
    · subst h
      simp [findChildStash, mergeChildren, mergePayload_loginId]
    · have hne : first.loginId ≠ child.loginId := by
        intro heq
        exact hnodup2.1 (heq ▸ List.mem_map_of_mem ServerPayload.loginId h)
      have hrest := ih hnodup2.2 child h
      simp only [findChildStash] at hrest
      simp [findChildStash, mergeChildren, mergePayload_loginId, hne, hrest]

theorem filter_merged_nil (locals : List LoginStash) (children : List ServerPayload) :
    (mergeChildren locals children).filter
      (fun stash => stash.loginId ∉ children.map ServerPayload.loginId) = [] := by
  rw [List.filter_eq_nil_iff]
  intro stash hmem
  have hid : stash.loginId ∈ (mergeChildren locals children).map (fun stash => stash.loginId) :=
    List.mem_map_of_mem (fun stash => stash.loginId) hmem
  rw [mergeChildren_loginIds] at hid
  simp [hid]

theorem LoginStash.eq_of_fields (a b : LoginStash) (h1 : a.loginId = b.loginId)
    (h2 : a.username = b.username) (h3 : a.appId = b.appId) (h4 : a.lastLogin = b.lastLogin)
    (h5 : a.passwordAuthBox = b.passwordAuthBox) (h6 : a.loginAuthBox = b.loginAuthBox)
    (h7 : a.pin2Key = b.pin2Key) (h8 : a.recovery2Key = b.recovery2Key)
    (h9 : a.voucherId = b.voucherId) (h10 : a.children = b.children) : a = b := by
  cases a
  cases b
  simp_all

theorem mergePayload_fields (existing : Option LoginStash) (payload : ServerPayload) :
    (mergePayload existing payload).username = existing.bind (fun stash => stash.username) ∧
    (mergePayload existing payload).appId = payload.appId ∧
    (mergePayload existing payload).lastLogin
      = maxLastLogin (existing.bind (fun stash => stash.lastLogin)) payload.lastLogin ∧
    (mergePayload existing payload).passwordAuthBox = payload.passwordAuthBox ∧
    (mergePayload existing payload).loginAuthBox = payload.loginAuthBox ∧
    (mergePayload existing payload).pin2Key = payload.pin2Key ∧
    (mergePayload existing payload).recovery2Key = payload.recovery2Key ∧
    (mergePayload existing payload).voucherId = payload.voucherId := by
  cases payload
  simp [mergePayload]

theorem mergePayload_children (existing : Option LoginStash) (payload : ServerPayload) :
    (mergePayload existing payload).children
      = mergeChildren (localChildren existing) payload.children ++
        (if payload.complete then []
         else (localChildren existing).filter
           (fun child => child.loginId ∉ payload.children.map ServerPayload.loginId)) := by
  cases payload
  simp only [mergePayload]

theorem filter_filter_same {α : Type} (q : α → Bool) (l : List α) :
    (l.filter q).filter q = l.filter q := by
  rw [List.filter_filter]
  congr 1
  funext a
  cases q a <;> rfl

mutual
theorem mergePayload_idem : ∀ (payload : ServerPayload) (existing : Option LoginStash),
    distinctChildIds payload = true →
    mergePayload (some (mergePayload existing payload)) payload = mergePayload existing payload
  | ⟨loginId, appId, lastLogin, passwordAuthBox, loginAuthBox, pin2Key, recovery2Key,
      voucherId, complete, children⟩, existing, hdistinct => by
    have hd : (children.map ServerPayload.loginId).Nodup ∧ distinctChildIdsAll children = true := by
      simpa [distinctChildIds] using hdistinct
    have hchildren : ∀ kept : List LoginStash,
        mergeChildren (mergeChildren (localChildren existing) children ++ kept) children
          = mergeChildren (localChildren existing) children :=
      fun kept => mergeChildren_idem children (localChildren existing)
        (mergeChildren (localChildren existing) children ++ kept) hd.2
        (findChildStash_merged (localChildren existing) kept children hd.1)
    obtain ⟨f2, f3, f4, f5, f6, f7, f8, f9⟩ := mergePayload_fields existing
      ⟨loginId, appId, lastLogin, passwordAuthBox, loginAuthBox, pin2Key, recovery2Key,
        voucherId, complete, children⟩
    obtain ⟨g2, g3, g4, g5, g6, g7, g8, g9⟩ := mergePayload_fields
      (some (mergePayload existing ⟨loginId, appId, lastLogin, passwordAuthBox, loginAuthBox,
        pin2Key, recovery2Key, voucherId, complete, children⟩))
      ⟨loginId, appId, lastLogin, passwordAuthBox, loginAuthBox, pin2Key, recovery2Key,
        voucherId, complete, children⟩
    apply LoginStash.eq_of_fields
    · rw [mergePayload_loginId, mergePayload_loginId]
    · rw [g2, f2]; rfl
    · rw [g3, f3]
    · rw [g4, f4]
      exact maxLastLogin_idem _ _
    · rw [g5, f5]
    · rw [g6, f6]
    · rw [g7, f7]
    · rw [g8, f8]
    · rw [g9, f9]
    · rw [mergePayload_children (some _), mergePayload_children existing]
      simp only [localChildren]
      rw [mergePayload_children existing]
      cases complete with
      | true =>
        simp only [if_true, List.append_nil]
        simpa using hchildren []
      | false =>
        simp only [Bool.false_eq_true, if_false]
        rw [hchildren, List.filter_append, filter_merged_nil, List.nil_append,
          filter_filter_same]
        rfl
theorem mergeChildren_idem : ∀ (children : List ServerPayload) (locals merged : List LoginStash),
    distinctChildIdsAll children = true →
    (∀ child ∈ children, findChildStash merged child.loginId
      = some (mergePayload (findChildStash locals child.loginId) child)) →
    mergeChildren merged children = mergeChildren locals children
  | [], _, _, _, _ => by simp [mergeChildren]
  | child :: rest, locals, merged, hdistinct, hfind => by
    have hd : distinctChildIds child = true ∧ distinctChildIdsAll rest = true := by
      simpa [distinctChildIdsAll] using hdistinct
    have hhead := hfind child (List.mem_cons_self child rest)
    have htail := mergeChildren_idem rest locals merged hd.2
      (fun c hc => hfind c (List.mem_cons_of_mem child hc))
    simp only [mergeChildren, hhead, htail]
    rw [mergePayload_idem child (findChildStash locals child.loginId) hd.1]
end

/-- C20, counterexample: on the merge the specification describes, a payload
with two children of the same `loginId` changes the stash again when it is
merged a second time: the first merge inserts both children, the second
merges both into the first of them, so the `lastLogin` of the second child
goes from none to 5. -/
theorem applyLoginPayload_twins_not_idempotent :
    twinPayload.children.map ServerPayload.loginId = [[7], [7]] ∧
    (applyLoginPayload aliceStash [9] twinPayload).children.map LoginStash.lastLogin
      = [some 5, none] ∧
    (applyLoginPayload (applyLoginPayload aliceStash [9] twinPayload) [9]
        twinPayload).children.map LoginStash.lastLogin = [some 5, some 5] ∧
    applyLoginPayload (applyLoginPayload aliceStash [9] twinPayload) [9] twinPayload
      ≠ applyLoginPayload aliceStash [9] twinPayload := by
  have h1 : (applyLoginPayload aliceStash [9] twinPayload).children.map LoginStash.lastLogin
      = [some 5, none] := by decide
  have h2 : (applyLoginPayload (applyLoginPayload aliceStash [9] twinPayload) [9]
      twinPayload).children.map LoginStash.lastLogin = [some 5, some 5] := by decide
  refine ⟨by decide, h1, h2, ?_⟩
  intro h
  rw [h, h1] at h2
  exact absurd h2 (by decide)

/-- C20, amended: on the merge the specification describes, for a payload
whose sibling `loginId`s are distinct (the data-model invariant), merging the
same payload a second time into the result of the first merge gives the
result of the first merge, for `applyLoginPayload` and for `syncLogin`. -/
theorem applyLoginPayload_idempotent (stash : LoginStash) (loginKey : Bytes)
    (payload : ServerPayload) (hdistinct : distinctChildIds payload = true) :
    applyLoginPayload (applyLoginPayload stash loginKey payload) loginKey payload
      = applyLoginPayload stash loginKey payload ∧
    syncLogin (syncLogin stash loginKey payload) loginKey payload
      = syncLogin stash loginKey payload :=
  ⟨mergePayload_idem payload (some stash) hdistinct,
    mergePayload_idem payload (some stash) hdistinct⟩

/-- Instance of C20 (amended): `alicePayload` merged twice into `aliceStash`. -/
theorem applyLoginPayload_idempotent_witness :
    distinctChildIds alicePayload = true ∧
    applyLoginPayload (applyLoginPayload aliceStash [9] alicePayload) [9] alicePayload
      = applyLoginPayload aliceStash [9] alicePayload :=
  ⟨rfl, (applyLoginPayload_idempotent aliceStash [9] alicePayload rfl).1⟩

/-! ## Properties of the stash cache updates -/

theorem JsObject.delete_cons {α : Type} (k1 : String) (v1 : α) (rest : JsObject α)
    (key : String) :
    JsObject.delete ((k1, v1) :: rest) key
      = if k1 = key then JsObject.delete rest key else (k1, v1) :: JsObject.delete rest key := by
  by_cases h : k1 = key <;> simp [JsObject.delete, List.filter_cons, h]

theorem JsObject.get_delete {α : Type} (o : JsObject α) (key k : String) :
    JsObject.get (JsObject.delete o key) k = if k = key then none else JsObject.get o k := by
  induction o with
  | nil =>
    have hnil : JsObject.delete ([] : JsObject α) key = [] := rfl
    rw [hnil]
    simp [JsObject.get]
  | cons entry rest ih =>
    obtain ⟨k1, v1⟩ := entry
    rw [JsObject.delete_cons]
    by_cases h1 : k1 = key
    · subst h1
      by_cases h2 : k = k1
      · subst h2
        simp [ih]
      · have h3 : ¬ k1 = k := fun h => h2 h.symm
        simp [JsObject.get, ih, h2, h3]
    · by_cases h2 : k = key
      · subst h2
        simp [JsObject.get, ih, h1]
      · by_cases h3 : k1 = k
        · simp [JsObject.get, h1, h2, h3]
        · simp [JsObject.get, ih, h1, h2, h3]

theorem JsObject.delete_absent {α : Type} (o : JsObject α) (key : String)
    (habsent : JsObject.get o key = none) : JsObject.delete o key = o := by
  induction o with
  | nil => rfl
  | cons entry rest ih =>
    obtain ⟨k1, v1⟩ := entry
    have hk1 : ¬ k1 = key := by
      intro h
      simp [JsObject.get, h] at habsent
    have hrest : JsObject.get rest key = none := by
      simpa [JsObject.get, hk1] using habsent
    rw [JsObject.delete_cons, if_neg hk1, ih hrest]

theorem JsObject.replace_same {α : Type} (key : String) (value : α) (o : JsObject α)
    (hget : JsObject.get o key = some value) : JsObject.replace key value o = o := by
  induction o with
  | nil => rfl
  | cons entry rest ih =>
    obtain ⟨k1, v1⟩ := entry
    by_cases h1 : k1 = key
    · subst h1
      have hv : v1 = value := by simpa [JsObject.get] using hget
      simp [JsObject.replace, hv]
    · have hrest : JsObject.get rest key = some value := by
        simpa [JsObject.get, h1] using hget
      simp [JsObject.replace, h1, ih hrest]

theorem JsObject.set_of_present {α : Type} (o : JsObject α) (key : String) (old value : α)
    (hget : JsObject.get o key = some old) :
    JsObject.set o key value = JsObject.replace key value o := by
  simp only [JsObject.set, hget]

theorem JsObject.set_set_same {α : Type} (o : JsObject α) (key : String) (value : α) :
    JsObject.set (JsObject.set o key value) key value = JsObject.set o key value := by
  by_cases h : key ≠ "__proto__" ∨ JsObject.get o key ≠ none
  · have hget : JsObject.get (JsObject.set o key value) key = some value := by
      simp [JsObject.get_set o key value key h]
    rw [JsObject.set_of_present _ key value value hget]
    exact JsObject.replace_same key value _ hget
  · rw [not_or, not_not, not_not] at h
    obtain ⟨h1, h2⟩ := h
    subst h1
    rw [JsObject.set_proto_absent o value h2, JsObject.set_proto_absent o value h2]

/-- C30, counterexample: `LOGIN_STASH_SAVED` with a stash whose username is
`__proto__` returns a map without an entry for that username: the assignment
`out[username] = action.payload` changes the prototype of the copy and makes
no own property. -/
theorem stash_saved_skips_proto_username :
    protoStash.username = some "__proto__" ∧
    stashes [] (RootAction.LOGIN_STASH_SAVED protoStash) = Except.ok [] ∧
    JsObject.get ([] : LoginStashMap) "__proto__" ≠ some protoStash ∧
    ¬ ∃ out, stashes [] (RootAction.LOGIN_STASH_SAVED protoStash) = Except.ok out ∧
      JsObject.get out "__proto__" = some protoStash := by
  have hrun : stashes [] (RootAction.LOGIN_STASH_SAVED protoStash) = Except.ok [] := rfl
  refine ⟨rfl, hrun, by simp [JsObject.get], ?_⟩
  rintro ⟨out, hout, hget⟩
  rw [hrun] at hout
  cases hout
  simp [JsObject.get] at hget

/-- C30, amended: stash cache updates touch one entry. `LOGIN_STASH_SAVED`
with a stash of username `u` gives a map whose value at `u` is that stash when
`u` is not `__proto__`, and whose other entries are those of the previous map,
and saving the same stash again changes nothing; `LOGIN_STASH_DELETED` with
key `u` gives a map without `u` whose other entries are those of the previous
map, equal to the previous map when `u` was absent; every other action except
`INIT` returns the map as it is. -/
theorem stashes_update_touches_one_entry (state : LoginStashMap) :
    (∀ (stash : LoginStash) (u : String), stash.username = some u →
      ∃ out, stashes state (RootAction.LOGIN_STASH_SAVED stash) = Except.ok out ∧
        (u ≠ "__proto__" → JsObject.get out u = some stash) ∧
        (∀ k, k ≠ u → JsObject.get out k = JsObject.get state k) ∧
        stashes out (RootAction.LOGIN_STASH_SAVED stash) = Except.ok out) ∧
    (∀ u : String,
      ∃ out, stashes state (RootAction.LOGIN_STASH_DELETED u) = Except.ok out ∧
        JsObject.get out u = none ∧
        u ∉ JsObject.keys out ∧
        (∀ k, k ≠ u → JsObject.get out k = JsObject.get state k) ∧
        (JsObject.get state u = none → out = state)) ∧
    (∀ type : String, stashes state (RootAction.OTHER type) = Except.ok state) := by
  refine ⟨?_, ?_, fun _ => rfl⟩
  · intro stash u hname
    refine ⟨JsObject.set state u stash, by simp [stashes, hname], ?_, ?_, ?_⟩
    · intro hu
      simp [JsObject.get_set state u stash u (Or.inl hu)]
    · intro k hk
      exact JsObject.get_set_other state u stash k hk
    · simp [stashes, hname, JsObject.set_set_same]
  · intro u
    refine ⟨JsObject.delete state u, rfl, by simp [JsObject.get_delete], ?_, ?_,
      JsObject.delete_absent state u⟩
    · rw [JsObject.mem_keys_iff]
      simp [JsObject.get_delete]
    · intro k hk
      simp [JsObject.get_delete, hk]

/-- Instance of C30 (amended): saving the stash of `alice` in an empty map. -/
theorem stashes_update_touches_one_entry_witness :
    ∃ out, stashes [] (RootAction.LOGIN_STASH_SAVED aliceStash) = Except.ok out ∧
      JsObject.get out "alice" = some aliceStash ∧
      (∀ k, k ≠ "alice" → JsObject.get out k = JsObject.get ([] : LoginStashMap) k) := by
  obtain ⟨out, hrun, hvalue, hframe, -⟩ :=
    (stashes_update_touches_one_entry []).1 aliceStash "alice" rfl
  exact ⟨out, hrun, hvalue (by decide), hframe⟩

/-! ## Properties of the `customTokens`, `walletInfos` and `currencyWalletIds` reducers -/

theorem customTokens_added (state : List EdgeMetaToken) (payload : CustomTokenPayload) :
    customTokens state (CurrencyAction.ADDED_CUSTOM_TOKEN payload)
      = state.filter (fun info => info.currencyCode ≠ payload.currencyCode)
        ++ [customToken payload] := rfl

theorem filter_code_eq_of_ne (state : List EdgeMetaToken) (code : String) :
    (state.filter (fun info => info.currencyCode ≠ code)).filter
      (fun info => info.currencyCode = code) = [] := by
  rw [List.filter_eq_nil_iff]
  intro info hmem
  have hne := (List.mem_filter.mp hmem).2
  simpa using hne

/-- C28: after `ADDED_CUSTOM_TOKEN` with code `c` the token list has exactly
one token with code `c`, as its last element, with the single denomination
named `c` with the action's multiplier, and the tokens with other codes are
the previous ones in their order; so distinct codes stay distinct, applying
the same action again changes nothing, and any other action returns the list
as it is. -/
theorem customTokens_keeps_codes_unique (state : List EdgeMetaToken)
    (payload : CustomTokenPayload) :
    (customTokens state (CurrencyAction.ADDED_CUSTOM_TOKEN payload)).filter
        (fun info => info.currencyCode = payload.currencyCode) = [customToken payload] ∧
    (customTokens state (CurrencyAction.ADDED_CUSTOM_TOKEN payload)).getLast?
      = some (customToken payload) ∧
    (customToken payload).currencyCode = payload.currencyCode ∧
    (customToken payload).denominations
      = [{ name := payload.currencyCode, multiplier := payload.multiplier, symbol := none }] ∧
    (customTokens state (CurrencyAction.ADDED_CUSTOM_TOKEN payload)).filter
        (fun info => info.currencyCode ≠ payload.currencyCode)
      = state.filter (fun info => info.currencyCode ≠ payload.currencyCode) ∧
    ((state.map (fun info => info.currencyCode)).Nodup →
      ((customTokens state (CurrencyAction.ADDED_CUSTOM_TOKEN payload)).map
        (fun info => info.currencyCode)).Nodup) ∧
    customTokens (customTokens state (CurrencyAction.ADDED_CUSTOM_TOKEN payload))
        (CurrencyAction.ADDED_CUSTOM_TOKEN payload)
      = customTokens state (CurrencyAction.ADDED_CUSTOM_TOKEN payload) ∧
    (∀ type : String, customTokens state (CurrencyAction.OTHER type) = state) := by
  have hkeep : (customTokens state (CurrencyAction.ADDED_CUSTOM_TOKEN payload)).filter
      (fun info => info.currencyCode ≠ payload.currencyCode)
      = state.filter (fun info => info.currencyCode ≠ payload.currencyCode) := by
    rw [customTokens_added, List.filter_append, filter_filter_same]
    simp [customToken]
  refine ⟨?_, ?_, rfl, rfl, hkeep, ?_, ?_, fun _ => rfl⟩
  · rw [customTokens_added, List.filter_append, filter_code_eq_of_ne]
    simp [customToken]
  · rw [customTokens_added, List.getLast?_concat]
  · intro hnodup
    rw [customTokens_added, List.map_append, List.nodup_append]
    refine ⟨?_, by simp, ?_⟩
    · exact hnodup.sublist ((List.filter_sublist _).map _)
    · intro code hleft hright
      have hcode : code = payload.currencyCode := by simpa [customToken] using hright
      subst hcode
      obtain ⟨info, hmem, hinfo⟩ := List.mem_map.mp hleft
      have hne := (List.mem_filter.mp hmem).2
      simp [hinfo] at hne
  · rw [customTokens_added (customTokens state _), hkeep, ← customTokens_added]

theorem get_copyWalletInfos {Info : Type} (walletInfos : JsObject Info) (k : String)
    (hk : k ≠ "__proto__") :
    ∀ (ids : List String) (out : JsObject Info),
      (∀ id ∈ ids, id ∈ JsObject.keys walletInfos) →
      JsObject.get (copyWalletInfos walletInfos ids out) k
        = if k ∈ ids then JsObject.get walletInfos k else JsObject.get out k := by
  intro ids
  induction ids with
  | nil => intro out _; simp [copyWalletInfos]
  | cons id rest ih =>
    intro out hkeys
    obtain ⟨info, hinfo⟩ :=
      (JsObject.mem_keys_iff walletInfos id).mp (hkeys id (List.mem_cons_self id rest))
    have hrest : ∀ id2 ∈ rest, id2 ∈ JsObject.keys walletInfos :=
      fun id2 h2 => hkeys id2 (List.mem_cons_of_mem id h2)
    simp only [copyWalletInfos, hinfo]
    rw [ih _ hrest]
    by_cases h1 : k ∈ rest
    · simp [h1]
    · by_cases h2 : k = id
      · subst h2
        simp [h1, JsObject.get_set out k info k (Or.inl hk), hinfo]
      · simp [h1, h2, JsObject.get_set_other out id info k h2]

theorem get_copyWalletInfos_proto {Info : Type} (walletInfos : JsObject Info) :
    ∀ (ids : List String) (out : JsObject Info), JsObject.get out "__proto__" = none →
      JsObject.get (copyWalletInfos walletInfos ids out) "__proto__" = none := by
  intro ids
  induction ids with
  | nil => intro out h; exact h
  | cons id rest ih =>
    intro out h
    cases hinfo : JsObject.get walletInfos id with
    | none =>
      simp only [copyWalletInfos, hinfo]
      exact ih out h
    | some info =>
      simp only [copyWalletInfos, hinfo]
      apply ih
      by_cases h1 : id = "__proto__"
      · subst h1
        rw [JsObject.set_proto_absent out info h]
        exact h
      · rw [JsObject.get_set_other out id info "__proto__" (fun h2 => h1 h2.symm)]
        exact h

/-- C27, counterexample: for the single account whose wallet map has the own
key `__proto__`, the `walletInfos` reducer returns that map, while the general
merge loop, whose assignment `out[id] = info` makes no own property for that
name, builds the empty map: the keys differ. -/
theorem single_account_keeps_proto_wallet :
    protoWalletAccount.accountIds = ["a1"] ∧
    walletInfos protoWalletAccount = Except.ok [("__proto__", 10)] ∧
    walletInfosGeneral protoWalletAccount = Except.ok [] ∧
    JsObject.keys ([("__proto__", 10)] : JsObject Nat) ≠ JsObject.keys ([] : JsObject Nat) :=
  ⟨rfl, rfl, rfl, by decide⟩

/-- C27, amended: for a root state with exactly one account id, whose account
exists, the `walletInfos` reducer returns that account's map, and the general
merge loop builds a map with the same keys and the same values at every name
other than `__proto__`, hence at every name when the account's map has no key
`__proto__`; the `currencyWalletIds` reducer returns that account's
`activeWalletIds`, which is what the general computation, the concatenation
over all accounts, returns. -/
theorem single_account_fast_paths {Info : Type} (next : WalletRootState Info) (id : String)
    (account : WalletAccountState Info)
    (hone : next.accountIds = [id])
    (haccount : JsObject.get next.accounts id = some account) :
    (∃ general, walletInfosGeneral next = Except.ok general ∧
      walletInfos next = Except.ok account.walletInfos ∧
      (∀ k, k ≠ "__proto__" → JsObject.get general k = JsObject.get account.walletInfos k) ∧
      (∀ k, k ≠ "__proto__" →
        (k ∈ JsObject.keys general ↔ k ∈ JsObject.keys account.walletInfos)) ∧
      (JsObject.get account.walletInfos "__proto__" = none →
        ∀ k, JsObject.get general k = JsObject.get account.walletInfos k ∧
          (k ∈ JsObject.keys general ↔ k ∈ JsObject.keys account.walletInfos))) ∧
    currencyWalletIds next = Except.ok account.activeWalletIds ∧
    currencyWalletIdsGeneral next = currencyWalletIds next ∧
    currencyWalletIdsGeneral next = Except.ok ([account.activeWalletIds].flatten) := by
  have hget : ∀ k, k ≠ "__proto__" → JsObject.get
      (copyWalletInfos account.walletInfos (JsObject.keys account.walletInfos) []) k
      = JsObject.get account.walletInfos k := by
    intro k hk
    rw [get_copyWalletInfos account.walletInfos k hk _ [] (fun _ h => h)]
    by_cases hmem : k ∈ JsObject.keys account.walletInfos
    · simp [hmem]
    · have hnone : JsObject.get account.walletInfos k = none := by
        cases h : JsObject.get account.walletInfos k with
        | none => rfl
        | some v => exact absurd ((JsObject.mem_keys_iff _ k).mpr ⟨v, h⟩) hmem
      simp [hmem, hnone, JsObject.get]
  refine ⟨⟨copyWalletInfos account.walletInfos (JsObject.keys account.walletInfos) [],
    ?_, ?_, hget, ?_, ?_⟩, ?_, ?_, ?_⟩
  · simp [walletInfosGeneral, hone, mergeWalletInfos, haccount]
  · simp [walletInfos, hone, haccount]
  · intro k hk
    rw [JsObject.mem_keys_iff, JsObject.mem_keys_iff, hget k hk]
  · intro hproto k
    have hall : JsObject.get
        (copyWalletInfos account.walletInfos (JsObject.keys account.walletInfos) []) k
        = JsObject.get account.walletInfos k := by
      by_cases hk : k = "__proto__"
      · subst hk
        rw [get_copyWalletInfos_proto account.walletInfos _ [] rfl, hproto]
      · exact hget k hk
    exact ⟨hall, by rw [JsObject.mem_keys_iff, JsObject.mem_keys_iff, hall]⟩
  · simp [currencyWalletIds, hone, haccount]
  · simp [currencyWalletIds, currencyWalletIdsGeneral, hone, allActiveWalletIds, haccount]
  · simp [currencyWalletIdsGeneral, hone, allActiveWalletIds, haccount]

/-- Instance of C27 (amended): a state with one account holding two wallets. -/
theorem single_account_fast_paths_witness :
    walletInfos oneWalletAccount = Except.ok [("w1", 10), ("w2", 20)] ∧
    currencyWalletIds oneWalletAccount = Except.ok ["w2", "w1"] ∧
    currencyWalletIdsGeneral oneWalletAccount = currencyWalletIds oneWalletAccount :=
  ⟨(single_account_fast_paths oneWalletAccount "a1" ⟨["w2", "w1"], [("w1", 10), ("w2", 20)]⟩
      rfl rfl).1.choose_spec.2.1,
    (single_account_fast_paths oneWalletAccount "a1" ⟨["w2", "w1"], [("w1", 10), ("w2", 20)]⟩
      rfl rfl).2.1,
    (single_account_fast_paths oneWalletAccount "a1" ⟨["w2", "w1"], [("w1", 10), ("w2", 20)]⟩
      rfl rfl).2.2.1⟩

/-! ## Properties of the outer WebView bridge -/

theorem tryReleasingRoot_roots {Root View : Type} (s : BridgeState Root View) :
    (tryReleasingRoot s).released.map Prod.fst ++ (tryReleasingRoot s).gatedRoot.toList
      = s.released.map Prod.fst ++ s.gatedRoot.toList ∧
    (tryReleasingRoot s).webview = s.webview ∧
    (tryReleasingRoot s).bridgeOpen = s.bridgeOpen ∧
    ((∀ entry ∈ s.released, entry.2 ≠ none) →
      ∀ entry ∈ (tryReleasingRoot s).released, entry.2 ≠ none) := by
  cases hg : s.gatedRoot with
  | none => simp [tryReleasingRoot, hg]
  | some root =>
    cases hw : s.webview with
    | none => simp [tryReleasingRoot, hg, hw]
    | some view =>
      refine ⟨by simp [tryReleasingRoot, hg, hw], by simp [tryReleasingRoot, hg, hw],
        by simp [tryReleasingRoot, hg, hw], ?_⟩
      intro hall entry hmem
      simp only [tryReleasingRoot, hg, hw, List.mem_append, List.mem_singleton] at hmem
      rcases hmem with h | h
      · exact hall entry h
      · subst h
        simp

theorem onBridgeRoot_invariant {Root View : Type} (s : BridgeState Root View)
    (received : List Root) (root : Root) (hinv : BridgeInvariant s received) :
    BridgeInvariant (onBridgeRoot s root) (received ++ [root]) := by
  obtain ⟨h1, h2, _, h4⟩ := tryReleasingRoot_roots { s with gatedRoot := some root }
  refine ⟨h4 hinv.1, ?_⟩
  unfold onBridgeRoot
  rw [h1]
  have hreleased : (s.released.map Prod.fst).Sublist received :=
    (List.sublist_append_left _ _).trans hinv.2
  exact List.Sublist.append hreleased (List.Sublist.refl _)

theorem foldl_onBridgeRoot_invariant {Root View : Type} (roots : List Root) :
    ∀ (s : BridgeState Root View) (received : List Root), BridgeInvariant s received →
      BridgeInvariant (roots.foldl onBridgeRoot s) (received ++ roots) := by
  induction roots with
  | nil => intro s received hinv; simpa using hinv
  | cons root rest ih =>
    intro s received hinv
    have := ih (onBridgeRoot s root) (received ++ [root])
      (onBridgeRoot_invariant s received root hinv)
    simpa using this

theorem bridgeStep_invariant {Root View : Type} (s : BridgeState Root View)
    (received : List Root) (event : BridgeEvent Root View) (hinv : BridgeInvariant s received) :
    BridgeInvariant (bridgeStep s event) (received ++ receivedRoots [event]) := by
  cases event with
  | message restarted roots =>
    have hstart : ∀ t : BridgeState Root View, t.released = s.released →
        t.gatedRoot = s.gatedRoot → BridgeInvariant t received := by
      intro t hr hg
      unfold BridgeInvariant
      rw [hr, hg]
      exact hinv
    simp only [bridgeStep, handleMessage, receivedRoots, List.append_nil]
    apply foldl_onBridgeRoot_invariant
    apply hstart
    · split <;> split <;> rfl
    · split <;> split <;> rfl
  | ref element =>
    obtain ⟨h1, _, _, h4⟩ := tryReleasingRoot_roots { s with webview := element }
    simp only [bridgeStep, setRef, receivedRoots, List.append_nil]
    exact ⟨h4 hinv.1, by rw [h1]; exact hinv.2⟩

theorem bridgeRun_invariant {Root View : Type} (events : List (BridgeEvent Root View)) :
    ∀ (s : BridgeState Root View) (received : List Root), BridgeInvariant s received →
      BridgeInvariant (events.foldl bridgeStep s) (received ++ receivedRoots events) := by
  induction events with
  | nil => intro s received hinv; simpa [receivedRoots] using hinv
  | cons event rest ih =>
    intro s received hinv
    have hstep := bridgeStep_invariant s received event hinv
    have hrest := ih (bridgeStep s event) _ hstep
    have hroots : receivedRoots (event :: rest) = receivedRoots [event] ++ receivedRoots rest := by
      cases event <;> simp [receivedRoots]
    rw [hroots, ← List.append_assoc]
    exact hrest

theorem setRef_without_gatedRoot {Root View : Type} (later : List (Option View)) :
    ∀ s : BridgeState Root View, s.gatedRoot = none →
      ((later.map BridgeEvent.ref).foldl bridgeStep s).released = s.released := by
  induction later with
  | nil => intro s _; rfl
  | cons element rest ih =>
    intro s hgated
    have hstep : bridgeStep s (BridgeEvent.ref element) = { s with webview := element } := by
      simp [bridgeStep, setRef, tryReleasingRoot, hgated]
    simp only [List.map_cons, List.foldl_cons, hstep]
    exact ih { s with webview := element } hgated

theorem foldl_onBridgeRoot_unmounted {Root View : Type} (roots : List Root) :
    ∀ s : BridgeState Root View, s.webview = none →
      (roots.foldl onBridgeRoot s).webview = none ∧
      (roots.foldl onBridgeRoot s).released = s.released ∧
      (roots.foldl onBridgeRoot s).gatedRoot = (s.gatedRoot.toList ++ roots).getLast? := by
  induction roots with
  | nil =>
    intro s hw
    refine ⟨hw, rfl, ?_⟩
    rw [List.foldl_nil]
    cases s.gatedRoot <;> rfl
  | cons root rest ih =>
    intro s hw
    have hstep : onBridgeRoot s root = { s with gatedRoot := some root } := by
      simp [onBridgeRoot, tryReleasingRoot, hw]
    obtain ⟨h1, h2, h3⟩ := ih { s with gatedRoot := some root } hw
    simp only [List.foldl_cons, hstep]
    refine ⟨h1, h2, ?_⟩
    rw [h3]
    cases s.gatedRoot with
    | none => rfl
    | some old =>
      simp only [Option.toList, List.singleton_append]
      rw [List.getLast?_cons_cons]

theorem bridge_waiting {Root View : Type} (waiting : List (BridgeEvent Root View)) :
    ∀ s : BridgeState Root View, s.webview = none →
      (∀ event ∈ waiting, ∀ view, event ≠ BridgeEvent.ref (some view)) →
      (waiting.foldl bridgeStep s).webview = none ∧
      (waiting.foldl bridgeStep s).released = s.released ∧
      (waiting.foldl bridgeStep s).gatedRoot
        = (s.gatedRoot.toList ++ receivedRoots waiting).getLast? := by
  induction waiting with
  | nil =>
    intro s hw _
    refine ⟨hw, rfl, ?_⟩
    rw [List.foldl_nil]
    cases s.gatedRoot <;> rfl
  | cons event rest ih =>
    intro s hw hwait
    have hrest : ∀ e ∈ rest, ∀ view, e ≠ BridgeEvent.ref (some view) :=
      fun e he => hwait e (List.mem_cons_of_mem _ he)
    cases event with
    | message restarted roots =>
      have hstart : ∀ t : BridgeState Root View, t.webview = none → t.released = s.released →
          t.gatedRoot = s.gatedRoot →
          (roots.foldl onBridgeRoot t).webview = none ∧
          (roots.foldl onBridgeRoot t).released = s.released ∧
          (roots.foldl onBridgeRoot t).gatedRoot = (s.gatedRoot.toList ++ roots).getLast? := by
        intro t h1 h2 h3
        obtain ⟨h4, h5, h6⟩ := foldl_onBridgeRoot_unmounted roots t h1
        exact ⟨h4, h5.trans h2, by rw [h6, h3]⟩
      have hstep : (bridgeStep s (BridgeEvent.message restarted roots)).webview = none ∧
          (bridgeStep s (BridgeEvent.message restarted roots)).released = s.released ∧
          (bridgeStep s (BridgeEvent.message restarted roots)).gatedRoot
            = (s.gatedRoot.toList ++ roots).getLast? := by
        simp only [bridgeStep, handleMessage]
        apply hstart
        · split <;> split <;> exact hw
        · split <;> split <;> rfl
        · split <;> split <;> rfl
      obtain ⟨h1, h2, h3⟩ := hstep
      obtain ⟨h4, h5, h6⟩ := ih _ h1 hrest
      simp only [List.foldl_cons, receivedRoots]
      refine ⟨h4, h5.trans h2, ?_⟩
      rw [h6, h3, ← List.append_assoc]
      cases hlast : (s.gatedRoot.toList ++ roots).getLast? with
      | none =>
        have hnil : s.gatedRoot.toList ++ roots = [] := List.getLast?_eq_none_iff.mp hlast
        rw [hnil]
        rfl
      | some last =>
        rw [List.getLast?_append, List.getLast?_append, hlast]
        rfl
    | ref element =>
      cases element with
      | some view => exact absurd rfl (hwait _ (List.mem_cons_self _ _) view)
      | none =>
        have hstep : bridgeStep s (BridgeEvent.ref none) = { s with webview := none } := by
          simp [bridgeStep, setRef, tryReleasingRoot]
        obtain ⟨h4, h5, h6⟩ := ih { s with webview := none } rfl hrest
        simp only [List.foldl_cons, hstep, receivedRoots]
        exact ⟨h4, h5, h6⟩

theorem bridge_mount_releases_latest {Root View : Type}
    (waiting : List (BridgeEvent Root View)) (view : View) (later : List (Option View))
    (s : BridgeState Root View) (hw : s.webview = none)
    (hwait : ∀ event ∈ waiting, ∀ v, event ≠ BridgeEvent.ref (some v)) :
    ((waiting ++ [BridgeEvent.ref (some view)] ++ later.map BridgeEvent.ref).foldl
        bridgeStep s).released
      = s.released ++
        ((s.gatedRoot.toList ++ receivedRoots waiting).getLast?.toList.map
          (fun root => (root, some view))) := by
  obtain ⟨h1, h2, h3⟩ := bridge_waiting waiting s hw hwait
  rw [List.foldl_append, List.foldl_append, List.foldl_cons, List.foldl_nil]
  have hgated : (bridgeStep (waiting.foldl bridgeStep s) (BridgeEvent.ref (some view))).gatedRoot
      = none := by
    cases hg : (waiting.foldl bridgeStep s).gatedRoot <;>
      simp [bridgeStep, setRef, tryReleasingRoot, hg]
  rw [setRef_without_gatedRoot later _ hgated, ← h3, ← h2]
  cases hg : (waiting.foldl bridgeStep s).gatedRoot <;>
    simp [bridgeStep, setRef, tryReleasingRoot, hg]

/-- C26, counterexample: a bridge that receives the root 1, then the root 2
after a restart of the inner HTML, and only then a WebView passes the root 2
to `onRoot` and never the root 1, whatever calls of `setRef` follow: the
variable `gatedRoot` holds one root. -/
theorem webview_bridge_drops_superseded_root :
    receivedRoots twoRootsThenMount = [1, 2] ∧
    (twoRootsThenMount.foldl bridgeStep (BridgeState.initial Nat Nat)).released
      = [(2, some 7)] ∧
    ∀ later : List (Option Nat),
      ((twoRootsThenMount ++ later.map BridgeEvent.ref).foldl bridgeStep
        (BridgeState.initial Nat Nat)).released = [(2, some 7)] := by
  have hstate : twoRootsThenMount.foldl bridgeStep (BridgeState.initial Nat Nat)
      = ⟨true, none, some 7, [(2, some 7)]⟩ := rfl
  refine ⟨rfl, by rw [hstate], ?_⟩
  intro later
  rw [List.foldl_append, hstate, setRef_without_gatedRoot later _ rfl]

/-- C26, amended: in every run of the callbacks of `makeOuterWebViewBridge`,
`onRoot` is only called while a WebView is mounted, and the roots passed to
`onRoot` are, in order, among the roots received from the bridge, each
receipt being passed on at most once. A single root received by a fresh
bridge before the WebView mounts is passed to `onRoot` when `setRef` gets an
element, and no later call of `setRef` passes it again. In general, after any
run that leaves no WebView mounted and any further events without a mount,
the call of `setRef` with an element passes to `onRoot` the latest root
received and not yet passed on, if there is one, and nothing else, and no
later call of `setRef` passes anything. -/
theorem webview_bridge_gates_root {Root View : Type} (events : List (BridgeEvent Root View)) :
    (∀ entry ∈ (events.foldl bridgeStep (BridgeState.initial Root View)).released,
      entry.2 ≠ none) ∧
    ((events.foldl bridgeStep (BridgeState.initial Root View)).released.map Prod.fst).Sublist
      (receivedRoots events) ∧
    (∀ (restarted : Bool) (root : Root) (view : View) (later : List (Option View)),
      ((later.map BridgeEvent.ref).foldl bridgeStep
        (bridgeStep (bridgeStep (BridgeState.initial Root View)
          (BridgeEvent.message restarted [root])) (BridgeEvent.ref (some view)))).released
        = [(root, some view)]) ∧
    (∀ (waiting : List (BridgeEvent Root View)) (view : View) (later : List (Option View)),
      (events.foldl bridgeStep (BridgeState.initial Root View)).webview = none →
      (∀ event ∈ waiting, ∀ v, event ≠ BridgeEvent.ref (some v)) →
      ((events ++ waiting ++ [BridgeEvent.ref (some view)] ++ later.map BridgeEvent.ref).foldl
          bridgeStep (BridgeState.initial Root View)).released
        = (events.foldl bridgeStep (BridgeState.initial Root View)).released ++
          (((events.foldl bridgeStep (BridgeState.initial Root View)).gatedRoot.toList ++
            receivedRoots waiting).getLast?.toList.map (fun root => (root, some view)))) := by
  have hinit : BridgeInvariant (BridgeState.initial Root View) [] :=
    ⟨by simp [BridgeState.initial], by simp [BridgeState.initial]⟩
  have hrun := bridgeRun_invariant events (BridgeState.initial Root View) [] hinit
  refine ⟨hrun.1, ?_, ?_, ?_⟩
  · have hsub := hrun.2
    rw [List.nil_append] at hsub
    exact (List.sublist_append_left _ _).trans hsub
  · intro restarted root view later
    have hstate : bridgeStep (bridgeStep (BridgeState.initial Root View)
        (BridgeEvent.message restarted [root])) (BridgeEvent.ref (some view))
        = ⟨true, none, some view, [(root, some view)]⟩ := by
      cases restarted <;>
        simp [bridgeStep, handleMessage, setRef, onBridgeRoot, tryReleasingRoot,
          BridgeState.initial]
    rw [hstate, setRef_without_gatedRoot later _ rfl]
  · intro waiting view later hw hwait
    rw [List.append_assoc, List.append_assoc, List.foldl_append, ← List.append_assoc]
    exact bridge_mount_releases_latest waiting view later _ hw hwait

/-- Instance of C26 (amended): two roots and a restart before the mount. -/
theorem webview_bridge_gates_root_witness :
    (([] ++ [BridgeEvent.message false [1], BridgeEvent.message true [2]] ++
        [BridgeEvent.ref (some 7)] ++ [none, some 8].map BridgeEvent.ref).foldl
        bridgeStep (BridgeState.initial Nat Nat)).released = [(2, some 7)] :=
  (webview_bridge_gates_root ([] : List (BridgeEvent Nat Nat))).2.2.2
    [BridgeEvent.message false [1], BridgeEvent.message true [2]] 7 [none, some 8] rfl
    (by
      intro event hevent v
      simp only [List.mem_cons, List.mem_singleton, List.not_mem_nil, or_false] at hevent
      rcases hevent with h | h <;> subst h <;> exact fun h2 => by cases h2)

/-! ## Properties of `addStorageWallet` -/

theorem addStorageWallet_of_status {Paths : Type} (D : StorageDeps Paths)
    (walletInfo : StorageWalletInfo) (dataKey syncKey idBytes : Bytes) (paths : Paths)
    (status : StorageWalletStatus)
    (hdata : D.base64Parse walletInfo.dataKey = Except.ok dataKey)
    (hsync : D.base64Parse walletInfo.syncKey = Except.ok syncKey)
    (hpaths : D.makeRepoPaths syncKey dataKey = Except.ok paths)
    (hid : D.base64Parse walletInfo.id = Except.ok idBytes)
    (hstatus : D.loadRepoStatus paths = Except.ok status) :
    addStorageWallet D walletInfo =
      match syncStorageWallet D walletInfo.id with
      | SyncCall.threw e => ⟨Except.error e, [StorageEvent.walletAdded walletInfo.id status]⟩
      | SyncCall.promise settles syncEvents =>
        if status.lastSync ≠ 0 then
          match settles with
          | Except.error error =>
            ⟨Except.ok (), [StorageEvent.walletAdded walletInfo.id status] ++ syncEvents ++
              [StorageEvent.logged
                ("Could not sync " ++ walletInfo.syncKey ++ " with last hash " ++
                  status.lastHash.getD "undefined" ++ ": " ++ D.errorText error),
               StorageEvent.reported error]⟩
          | Except.ok _ =>
            ⟨Except.ok (), [StorageEvent.walletAdded walletInfo.id status] ++ syncEvents⟩
        else
          match settles with
          | Except.error error =>
            ⟨Except.error error, [StorageEvent.walletAdded walletInfo.id status] ++ syncEvents⟩
          | Except.ok _ =>
            ⟨Except.ok (), [StorageEvent.walletAdded walletInfo.id status] ++ syncEvents⟩ := by
  simp only [addStorageWallet, hdata, hsync, hpaths, hid, hstatus]

/-- C25: once the repo status is loaded and the wallet is in the state,
`addStorageWallet` dispatches `STORAGE_WALLET_ADDED` and then starts the
sync. When the status has no `lastSync` a failure of the sync rejects
`addStorageWallet` with that error and is reported nowhere; when `lastSync`
is set `addStorageWallet` resolves however the sync settles, and a failure of
the sync is logged once and passed to `onError` once. -/
theorem addStorageWallet_first_sync_awaited {Paths : Type} (D : StorageDeps Paths)
    (walletInfo : StorageWalletInfo) (dataKey syncKey idBytes : Bytes) (paths : Paths)
    (status : StorageWalletStatus) (walletPaths : Paths) (walletStatus : StorageWalletStatus)
    (hdata : D.base64Parse walletInfo.dataKey = Except.ok dataKey)
    (hsync : D.base64Parse walletInfo.syncKey = Except.ok syncKey)
    (hpaths : D.makeRepoPaths syncKey dataKey = Except.ok paths)
    (hid : D.base64Parse walletInfo.id = Except.ok idBytes)
    (hstatus : D.loadRepoStatus paths = Except.ok status)
    (hwallet : D.storageWallets walletInfo.id = some (walletPaths, walletStatus)) :
    (∃ later, (addStorageWallet D walletInfo).events
      = StorageEvent.walletAdded walletInfo.id status
        :: StorageEvent.syncStarted walletInfo.id :: later) ∧
    (status.lastSync = 0 →
      (∀ error, D.syncRepo walletPaths walletStatus = Except.error error →
        (addStorageWallet D walletInfo).result = Except.error error ∧
        (∀ e, StorageEvent.reported e ∉ (addStorageWallet D walletInfo).events) ∧
        (∀ m, StorageEvent.logged m ∉ (addStorageWallet D walletInfo).events)) ∧
      (∀ reply, D.syncRepo walletPaths walletStatus = Except.ok reply →
        (addStorageWallet D walletInfo).result = Except.ok ())) ∧
    (status.lastSync ≠ 0 →
      (addStorageWallet D walletInfo).result = Except.ok () ∧
      (∀ error, D.syncRepo walletPaths walletStatus = Except.error error →
        (addStorageWallet D walletInfo).events
          = [StorageEvent.walletAdded walletInfo.id status,
             StorageEvent.syncStarted walletInfo.id,
             StorageEvent.logged
               ("Could not sync " ++ walletInfo.syncKey ++ " with last hash " ++
                 status.lastHash.getD "undefined" ++ ": " ++ D.errorText error),
             StorageEvent.reported error]) ∧
      (∀ reply, D.syncRepo walletPaths walletStatus = Except.ok reply →
        (∀ e, StorageEvent.reported e ∉ (addStorageWallet D walletInfo).events))) := by
  have hrun := addStorageWallet_of_status D walletInfo dataKey syncKey idBytes paths status
    hdata hsync hpaths hid hstatus
  cases hrepo : D.syncRepo walletPaths walletStatus with
  | error error =>
    have hcall : syncStorageWallet D walletInfo.id
        = SyncCall.promise (Except.error error) [StorageEvent.syncStarted walletInfo.id] := by
      simp only [syncStorageWallet, hwallet, hrepo]
    rw [hcall] at hrun
    by_cases hlast : status.lastSync = 0
    · simp [hrun, hlast]
    · simp [hrun, hlast]
  | ok reply =>
    obtain ⟨changes, newStatus⟩ := reply
    have hcall : syncStorageWallet D walletInfo.id
        = SyncCall.promise (Except.ok changes)
          [StorageEvent.syncStarted walletInfo.id,
           StorageEvent.walletSynced walletInfo.id changes newStatus] := by
      simp only [syncStorageWallet, hwallet, hrepo]
    rw [hcall] at hrun
    by_cases hlast : status.lastSync = 0
    · simp [hrun, hlast]
    · simp [hrun, hlast]

/-- Instance of C25: a wallet synced before (`lastSync` 7) whose sync fails. -/
theorem addStorageWallet_first_sync_awaited_witness :
    (addStorageWallet (demoStorageDeps ⟨some "h", 7⟩ (Except.error ⟨"offline"⟩))
      ⟨"x.", "xx.", "xxx."⟩).result = Except.ok () ∧
    (addStorageWallet (demoStorageDeps ⟨some "h", 7⟩ (Except.error ⟨"offline"⟩))
      ⟨"x.", "xx.", "xxx."⟩).events
      = [StorageEvent.walletAdded "x." ⟨some "h", 7⟩, StorageEvent.syncStarted "x.",
         StorageEvent.logged "Could not sync xxx. with last hash h: Error: offline",
         StorageEvent.reported ⟨"offline"⟩] :=
  ⟨((addStorageWallet_first_sync_awaited (demoStorageDeps ⟨some "h", 7⟩
      (Except.error ⟨"offline"⟩)) ⟨"x.", "xx.", "xxx."⟩ [2] [3] [1] "repo" ⟨some "h", 7⟩
      "repo" ⟨some "h", 7⟩ rfl rfl rfl rfl rfl rfl).2.2 (by decide)).1,
    rfl⟩

/-! ## Properties of `changePaused` -/

theorem stopPauseTimer_spec (s : PauseState) (h : PauseInvariant s) :
    stopPauseTimer s = { s with timers := [], pauseTimer := none } := by
  obtain ⟨paused, pauseTimer, timers, nextHandle, dispatched⟩ := s
  obtain ⟨hmap, -⟩ := h
  cases pauseTimer with
  | none =>
    have : timers = [] := by simpa using hmap
    subst this
    rfl
  | some handle =>
    match timers, hmap with
    | [t], hmap =>
      have ht : t.handle = handle := by simpa using hmap
      simp [stopPauseTimer, clearTimeout, ht]

theorem changePaused_spec (reducer : Bool → Bool → Bool) (s : PauseState) (paused : Bool)
    (secondsDelay : Nat) (h : PauseInvariant s) :
    changePaused reducer s paused secondsDelay =
      if s.paused = paused then { s with timers := [], pauseTimer := none }
      else if secondsDelay = 0 then
        { s with
          timers := [], pauseTimer := none, paused := reducer s.paused paused
          dispatched := s.dispatched ++ [⟨paused, none⟩] }
      else
        { s with
          timers := [⟨s.nextHandle, paused, secondsDelay⟩], pauseTimer := some s.nextHandle
          nextHandle := s.nextHandle + 1 } := by
  simp only [changePaused, stopPauseTimer_spec s h, dispatchPause, List.nil_append]

theorem timerFires_spec (reducer : Bool → Bool → Bool) (s : PauseState) (handle : Nat)
    (h : PauseInvariant s) :
    timerFires reducer s handle = s ∨
    ∃ t, s.timers = [t] ∧ t.handle = handle ∧
      timerFires reducer s handle =
        { s with
          timers := [], pauseTimer := none, paused := reducer s.paused t.payload
          dispatched := s.dispatched ++ [⟨t.payload, some handle⟩] } := by
  obtain ⟨paused, pauseTimer, timers, nextHandle, dispatched⟩ := s
  obtain ⟨hmap, -⟩ := h
  match timers, pauseTimer, hmap with
  | [], _, _ => exact Or.inl rfl
  | [t], some h1, hmap =>
    by_cases ht : t.handle = handle
    · exact Or.inr ⟨t, rfl, ht, by simp [timerFires, clearTimeout, dispatchPause, ht]⟩
    · exact Or.inl (by simp [timerFires, ht])

theorem pauseStep_invariant (reducer : Bool → Bool → Bool) (s : PauseState) (e : PauseEvent)
    (h : PauseInvariant s) : PauseInvariant (pauseStep reducer s e) := by
  cases e with
  | call paused secondsDelay =>
    simp only [pauseStep, changePaused_spec reducer s paused secondsDelay h]
    split_ifs <;> simp [PauseInvariant]
  | fire handle =>
    rcases timerFires_spec reducer s handle h with h1 | ⟨t, -, -, h1⟩
    · simpa only [pauseStep, h1] using h
    · simp [pauseStep, h1, PauseInvariant]
  | stateChange paused => exact h

theorem pauseRun_invariant (reducer : Bool → Bool → Bool) (events : List PauseEvent)
    (s : PauseState) (h : PauseInvariant s) :
    PauseInvariant (events.foldl (pauseStep reducer) s) := by
  induction events generalizing s with
  | nil => exact h
  | cons e rest ih => exact ih _ (pauseStep_invariant reducer s e h)

theorem pauseRun_dispatched (reducer : Bool → Bool → Bool) (bound : Nat)
    (events : List PauseEvent) (s : PauseState) (h : PauseInvariant s)
    (hs : ∀ t ∈ s.timers, bound ≤ t.handle) (hn : bound ≤ s.nextHandle) :
    ∃ later, (events.foldl (pauseStep reducer) s).dispatched = s.dispatched ++ later ∧
      ∀ a ∈ later, ∀ handle, a.timer = some handle → bound ≤ handle := by
  induction events generalizing s with
  | nil => exact ⟨[], by simp, by simp⟩
  | cons e rest ih =>
    have hinv := pauseStep_invariant reducer s e h
    have key : (∀ t ∈ (pauseStep reducer s e).timers, bound ≤ t.handle) ∧
        bound ≤ (pauseStep reducer s e).nextHandle ∧
        ∃ now, (pauseStep reducer s e).dispatched = s.dispatched ++ now ∧
          ∀ a ∈ now, ∀ handle, a.timer = some handle → bound ≤ handle := by
      cases e with
      | call paused secondsDelay =>
        simp only [pauseStep, changePaused_spec reducer s paused secondsDelay h]
        split_ifs
        · exact ⟨by simp, hn, [], by simp, by simp⟩
        · exact ⟨by simp, hn, [⟨paused, none⟩], rfl, by simp⟩
        · exact ⟨by simpa using hn, by simp; omega, [], by simp, by simp⟩
      | fire handle =>
        rcases timerFires_spec reducer s handle h with h1 | ⟨t, ht, hh, h1⟩
        · simp only [pauseStep, h1]
          exact ⟨hs, hn, [], by simp, by simp⟩
        · simp only [pauseStep, h1]
          refine ⟨by simp, hn, [⟨t.payload, some handle⟩], rfl, ?_⟩
          intro a ha handle2 h2
          simp only [List.mem_singleton] at ha
          subst ha
          simp only [Option.some.injEq] at h2
          subst h2
          rw [← hh]
          exact hs t (by simp [ht])
      | stateChange paused => exact ⟨hs, hn, [], by simp [pauseStep], by simp⟩
    obtain ⟨h1, h2, now, h3, h4⟩ := key
    obtain ⟨later, h5, h6⟩ := ih _ hinv h1 h2
    refine ⟨now ++ later, by rw [List.foldl_cons, h5, h3, List.append_assoc], ?_⟩
    intro a ha
    rcases List.mem_append.mp ha with ha | ha
    · exact h4 a ha
    · exact h6 a ha

theorem PauseInvariant_initial (paused : Bool) : PauseInvariant (PauseState.initial paused) := by
  simp [PauseInvariant, PauseState.initial]

/-- C23: in every run of a context, whatever the reducer does with `PAUSE`,
at most one timer is pending; a call of `changePaused` leaves none of the
timers that were pending before it, also when the state already has the
requested value; no `PAUSE` action dispatched after the call comes from a
timer scheduled before it; and with `secondsDelay` 0 the call itself
dispatches one `PAUSE` action when the state differs from the requested
value and none when it equals it. -/
theorem changePaused_cancels_superseded_timer (reducer : Bool → Bool → Bool) (paused0 : Bool)
    (before : List PauseEvent) (paused : Bool) (secondsDelay : Nat) (after : List PauseEvent) :
    (before.foldl (pauseStep reducer) (PauseState.initial paused0)).timers.length ≤ 1 ∧
    (∀ t ∈ (before.foldl (pauseStep reducer) (PauseState.initial paused0)).timers,
      t.handle < (before.foldl (pauseStep reducer) (PauseState.initial paused0)).nextHandle) ∧
    (∀ t ∈ (changePaused reducer (before.foldl (pauseStep reducer) (PauseState.initial paused0))
        paused secondsDelay).timers,
      (before.foldl (pauseStep reducer) (PauseState.initial paused0)).nextHandle ≤ t.handle) ∧
    ((before.foldl (pauseStep reducer) (PauseState.initial paused0)).paused = paused →
      (changePaused reducer (before.foldl (pauseStep reducer) (PauseState.initial paused0))
        paused secondsDelay).timers = []) ∧
    (∀ a ∈ ((after.foldl (pauseStep reducer)
          (changePaused reducer (before.foldl (pauseStep reducer) (PauseState.initial paused0))
            paused secondsDelay)).dispatched.drop
          (changePaused reducer (before.foldl (pauseStep reducer) (PauseState.initial paused0))
            paused secondsDelay).dispatched.length),
      ∀ handle, a.timer = some handle →
        (before.foldl (pauseStep reducer) (PauseState.initial paused0)).nextHandle ≤ handle) ∧
    ((changePaused reducer (before.foldl (pauseStep reducer) (PauseState.initial paused0))
        paused 0).dispatched
      = (before.foldl (pauseStep reducer) (PauseState.initial paused0)).dispatched ++
        if (before.foldl (pauseStep reducer) (PauseState.initial paused0)).paused = paused
        then [] else [⟨paused, none⟩]) := by
  have hinv := pauseRun_invariant reducer before _ (PauseInvariant_initial paused0)
  generalize before.foldl (pauseStep reducer) (PauseState.initial paused0) = s at hinv ⊢
  have hspec := changePaused_spec reducer s paused secondsDelay hinv
  have hafter : ∀ t ∈ (changePaused reducer s paused secondsDelay).timers,
      s.nextHandle ≤ t.handle := by
    rw [hspec]
    split_ifs <;> simp
  have hnext : s.nextHandle ≤ (changePaused reducer s paused secondsDelay).nextHandle := by
    rw [hspec]
    split_ifs <;> simp
  refine ⟨?_, hinv.2, hafter, ?_, ?_, ?_⟩
  · have := congrArg List.length hinv.1
    rw [List.length_map] at this
    rw [this]
    cases s.pauseTimer <;> simp
  · intro heq
    rw [hspec, if_pos heq]
  · obtain ⟨later, h1, h2⟩ := pauseRun_dispatched reducer s.nextHandle after _
      (pauseStep_invariant reducer s (PauseEvent.call paused secondsDelay) hinv) hafter hnext
    have h3 : (after.foldl (pauseStep reducer) (changePaused reducer s paused secondsDelay)).dispatched
        = (changePaused reducer s paused secondsDelay).dispatched ++ later := h1
    rw [h3, List.drop_left]
    exact h2
  · rw [changePaused_spec reducer s paused 0 hinv]
    by_cases heq : s.paused = paused
    · simp [heq]
    · simp [heq]

/-! ## Properties of `wrapObject` -/

theorem wrapProperty_data (out : JsObject Property) (key className : String) (v : JsValue)
    (w e c : Bool) (opts : JsValue) (h : opts ≠ JsValue.null) :
    ∃ v2 w2,
      (match wrapProperty key ⟨some v, some w, none, none, some e, some c⟩ className opts with
        | Except.error err => Except.error err
        | Except.ok d => defineProperty out key d)
        = Except.ok (JsObject.define out key (Property.data v2 w2 e c)) ∧
      (w2 = true → readWritable opts = Except.ok true) := by
  cases v with
  | undefined =>
    rcases opts with _ | _ | t | g | ⟨id, sync, _ | _⟩ <;>
      first
      | exact absurd rfl h
      | (refine ⟨JsValue.undefined, false, ?_, ?_⟩
         · simp [wrapProperty, readSync, readWritable, JsValue.members, defineProperty, isNullish]
         · simp [readWritable, JsValue.members])
      | (refine ⟨JsValue.undefined, w, ?_, ?_⟩
         · simp [wrapProperty, readSync, readWritable, JsValue.members, defineProperty, isNullish]
         · simp [readWritable, JsValue.members])
  | null =>
    rcases opts with _ | _ | t | g | ⟨id, sync, _ | _⟩ <;>
      first
      | exact absurd rfl h
      | (refine ⟨JsValue.null, false, ?_, ?_⟩
         · simp [wrapProperty, readSync, readWritable, JsValue.members, defineProperty, isNullish]
         · simp [readWritable, JsValue.members])
      | (refine ⟨JsValue.null, w, ?_, ?_⟩
         · simp [wrapProperty, readSync, readWritable, JsValue.members, defineProperty, isNullish]
         · simp [readWritable, JsValue.members])
  | primitive text =>
    rcases opts with _ | _ | t | g | ⟨id, sync, _ | _⟩ <;>
      first
      | exact absurd rfl h
      | (refine ⟨JsValue.primitive text, false, ?_, ?_⟩
         · simp [wrapProperty, readSync, readWritable, JsValue.members, defineProperty, isNullish]
         · simp [readWritable, JsValue.members])
      | (refine ⟨JsValue.primitive text, w, ?_, ?_⟩
         · simp [wrapProperty, readSync, readWritable, JsValue.members, defineProperty, isNullish]
         · simp [readWritable, JsValue.members])
  | object id2 sync2 writable2 =>
    rcases opts with _ | _ | t | g | ⟨id, sync, _ | _⟩ <;>
      first
      | exact absurd rfl h
      | (refine ⟨JsValue.object id2 sync2 writable2, false, ?_, ?_⟩
         · simp [wrapProperty, readSync, readWritable, JsValue.members, defineProperty, isNullish]
         · simp [readWritable, JsValue.members])
      | (refine ⟨JsValue.object id2 sync2 writable2, w, ?_, ?_⟩
         · simp [wrapProperty, readSync, readWritable, JsValue.members, defineProperty, isNullish]
         · simp [readWritable, JsValue.members])
  | function f =>
    rcases opts with _ | _ | t | g | ⟨id, sync, _ | _⟩ <;>
      first
      | exact absurd rfl h
      | (refine ⟨JsValue.function (JsFunction.asyncApi f (className ++ "." ++ key)), false, ?_, ?_⟩
         · simp [wrapProperty, readSync, readWritable, JsValue.members, defineProperty, isNullish]
         · simp [readWritable, JsValue.members])
      | (refine ⟨JsValue.function
            (if sync then JsFunction.syncApi f (className ++ "." ++ key)
             else JsFunction.asyncApi f (className ++ "." ++ key)), false, ?_, ?_⟩
         · simp [wrapProperty, readSync, readWritable, JsValue.members, defineProperty, isNullish]
         · simp [readWritable, JsValue.members])
      | (refine ⟨JsValue.function
            (if sync then JsFunction.syncApi f (className ++ "." ++ key)
             else JsFunction.asyncApi f (className ++ "." ++ key)), w, ?_, ?_⟩
         · simp [wrapProperty, readSync, readWritable, JsValue.members, defineProperty, isNullish]
         · simp [readWritable, JsValue.members])

theorem wrapProperty_accessor (out : JsObject Property) (key className : String)
    (g s : Option JsFunction) (e c : Bool) (opts : JsValue) (h : opts ≠ JsValue.null)
    (hw : g = none → s = none → readWritable opts = Except.ok true) :
    (match wrapProperty key ⟨none, none, some g, some s, some e, some c⟩ className opts with
      | Except.error err => Except.error err
      | Except.ok d => defineProperty out key d)
      = Except.ok (JsObject.define out key (Property.accessor
          (g.map (fun f => JsFunction.syncApi f ("get " ++ className ++ "." ++ key)))
          (s.map (fun f => JsFunction.syncApi f ("set " ++ className ++ "." ++ key))) e c)) := by
  cases g with
  | some getter =>
    cases s <;> cases opts <;>
      first
      | exact absurd rfl h
      | simp [wrapProperty, readSync, readWritable, JsValue.members, defineProperty, isNullish]
  | none =>
    cases s with
    | some setter =>
      cases opts <;>
        first
        | exact absurd rfl h
        | simp [wrapProperty, readSync, readWritable, JsValue.members, defineProperty, isNullish]
    | none =>
      have hw2 := hw rfl rfl
      cases opts with
      | object id sync writable =>
        cases writable
        · simp [readWritable, JsValue.members] at hw2
        · simp [wrapProperty, readSync, readWritable, JsValue.members, defineProperty, isNullish]
      | null => exact absurd rfl h
      | undefined => simp [readWritable, JsValue.members] at hw2
      | primitive text => simp [readWritable, JsValue.members] at hw2
      | function f => simp [readWritable, JsValue.members] at hw2


theorem wrapObjectLoop_spec (getters : JsFunction → Except JsError JsValue) (className : String)
    (object : JsObject Property)
    (hopts : ∀ key prop, isOptionKey key = false → JsObject.get object key = some prop →
      ∃ opts, getMember getters object ("@" ++ key) = Except.ok opts ∧ opts ≠ JsValue.null ∧
        ∀ e c, prop = Property.accessor none none e c → readWritable opts = Except.ok true)
    (names : List String) (out : JsObject Property)
    (hnames : ∀ key ∈ names, key ∈ JsObject.keys object) :
    ∃ result, wrapObjectLoop getters className object names out = Except.ok result ∧
      (∀ name, ¬ (name ∈ names ∧ isOptionKey name = false) →
        JsObject.get result name = JsObject.get out name) ∧
      (∀ name, name ∈ names → isOptionKey name = false →
        ∃ prop opts, JsObject.get object name = some prop ∧
          getMember getters object ("@" ++ name) = Except.ok opts ∧
          WrappedAs className name opts prop (JsObject.get result name)) := by
  induction names generalizing out with
  | nil => exact ⟨out, rfl, fun _ _ => rfl, by simp⟩
  | cons key rest ih =>
    have hrest : ∀ k ∈ rest, k ∈ JsObject.keys object :=
      fun k hk => hnames k (List.mem_cons_of_mem _ hk)
    by_cases hkey : isOptionKey key = true
    · obtain ⟨result, hrun, hsame, hwrapped⟩ := ih out hrest
      refine ⟨result, by simp only [wrapObjectLoop, hkey, if_true, hrun], ?_, ?_⟩
      · intro name hname
        apply hsame
        intro h
        exact hname ⟨List.mem_cons_of_mem _ h.1, h.2⟩
      · intro name hname hopt
        rcases List.mem_cons.mp hname with h | h
        · subst h
          rw [hkey] at hopt
          exact absurd hopt (by simp)
        · exact hwrapped name h hopt
    · have hkey2 : isOptionKey key = false := by simpa using hkey
      obtain ⟨prop, hprop⟩ := (JsObject.mem_keys_iff object key).mp (hnames key (by simp))
      obtain ⟨opts, hget, hnull, hacc⟩ := hopts key prop hkey2 hprop
      have hstep : ∃ p, (match getOwnPropertyDescriptor object key with
          | none => (Except.error
              ⟨"TypeError: Cannot read properties of undefined (reading 'value')"⟩ :
              Except JsError (JsObject Property))
          | some d =>
            match getMember getters object ("@" ++ key) with
            | Except.error e => Except.error e
            | Except.ok opts =>
              match wrapProperty key d className opts with
              | Except.error e => Except.error e
              | Except.ok d =>
                match defineProperty out key d with
                | Except.error e => Except.error e
                | Except.ok out => wrapObjectLoop getters className object rest out)
          = wrapObjectLoop getters className object rest (JsObject.define out key p) ∧
          WrappedAs className key opts prop (some p) := by
        cases prop with
        | data v w e c =>
          obtain ⟨v2, w2, hrun, hw⟩ := wrapProperty_data out key className v w e c opts hnull
          refine ⟨Property.data v2 w2 e c, ?_, ?_⟩
          · simp only [getOwnPropertyDescriptor, hprop, hget]
            revert hrun
            cases wrapProperty key ⟨some v, some w, none, none, some e, some c⟩ className opts with
            | error err => intro hrun; cases hrun
            | ok d =>
              intro hrun
              simp only at hrun
              simp only [hrun]
          · refine ⟨?_, ?_⟩
            · intro v3 w3 e3 c3 h3
              cases h3
              exact ⟨v2, w2, rfl, hw⟩
            · intro g s e3 c3 h3
              cases h3
        | accessor g s e c =>
          have hw : g = none → s = none → readWritable opts = Except.ok true := by
            intro hg hs
            subst hg
            subst hs
            exact hacc e c rfl
          have hrun := wrapProperty_accessor out key className g s e c opts hnull hw
          refine ⟨Property.accessor
            (g.map (fun f => JsFunction.syncApi f ("get " ++ className ++ "." ++ key)))
            (s.map (fun f => JsFunction.syncApi f ("set " ++ className ++ "." ++ key))) e c,
            ?_, ?_⟩
          · simp only [getOwnPropertyDescriptor, hprop, hget]
            revert hrun
            cases wrapProperty key ⟨none, none, some g, some s, some e, some c⟩ className opts with
            | error err => intro hrun; cases hrun
            | ok d =>
              intro hrun
              simp only at hrun
              simp only [hrun]
          · refine ⟨?_, ?_⟩
            · intro v3 w3 e3 c3 h3
              cases h3
            · intro g3 s3 e3 c3 h3
              cases h3
              rfl
      obtain ⟨p, hrun1, hp⟩ := hstep
      obtain ⟨result, hrun, hsame, hwrapped⟩ := ih (JsObject.define out key p) hrest
      refine ⟨result, ?_, ?_, ?_⟩
      · simp only [wrapObjectLoop, hkey2]
        exact hrun1.trans hrun
      · intro name hname
        have hne : name ≠ key := by
          intro h
          subst h
          exact hname ⟨by simp, hkey2⟩
        rw [hsame name (fun h => hname ⟨List.mem_cons_of_mem _ h.1, h.2⟩),
          JsObject.get_define, if_neg hne]
      · intro name hname hopt
        by_cases hin : name ∈ rest
        · exact hwrapped name hin hopt
        · rcases List.mem_cons.mp hname with h | h
          · subst h
            refine ⟨prop, opts, hprop, hget, ?_⟩
            rw [hsame name (fun h => hin h.1), JsObject.get_define, if_pos rfl]
            exact hp
          · exact absurd h hin


/-- C24, counterexample: for the object `{ foo: 1, '@foo': null }` the call of
`wrapObject` throws a `TypeError`, because the default `{}` of `wrapProperty`
replaces only `undefined` options; there is no result whose names the claim
could describe. -/
theorem wrapObject_null_options_throw :
    wrapObject noGetters "Api" nullOptionsObject
      = Except.error ⟨"TypeError: Cannot read properties of null (reading 'writable')"⟩ ∧
    JsObject.keys nullOptionsObject = ["foo", "@foo"] ∧
    ∀ out, wrapObject noGetters "Api" nullOptionsObject ≠ Except.ok out := by
  have h : wrapObject noGetters "Api" nullOptionsObject
      = Except.error ⟨"TypeError: Cannot read properties of null (reading 'writable')"⟩ :=
    rfl
  refine ⟨h, rfl, ?_⟩
  intro out hout
  rw [h] at hout
  cases hout

/-- C24, amended: when reading the options of every non-option property gives
a value other than `null`, and every accessor property that has neither getter
nor setter has options with a truthy `writable`, `wrapObject` returns an
object whose own property names are exactly the own property names of the
input that do not start with `@`; each data property of the input is copied
as a data property that is writable only if its options have a truthy
`writable`, and each accessor property is copied as an accessor property with
its getter and setter wrapped. -/
theorem wrapObject_options_are_not_api (getters : JsFunction → Except JsError JsValue)
    (className : String) (object : JsObject Property)
    (hopts : ∀ key ∈ JsObject.keys object, isOptionKey key = false →
      ∃ opts, getMember getters object ("@" ++ key) = Except.ok opts ∧ opts ≠ JsValue.null)
    (hacc : ∀ key e c, isOptionKey key = false →
      JsObject.get object key = some (Property.accessor none none e c) →
      ∃ opts, getMember getters object ("@" ++ key) = Except.ok opts ∧
        readWritable opts = Except.ok true) :
    ∃ out, wrapObject getters className object = Except.ok out ∧
      (∀ name, name ∈ JsObject.keys out ↔
        name ∈ JsObject.keys object ∧ isOptionKey name = false) ∧
      (∀ name v w e c, isOptionKey name = false →
        JsObject.get object name = some (Property.data v w e c) →
        ∃ v2 w2, JsObject.get out name = some (Property.data v2 w2 e c) ∧
          (w2 = true → ∃ opts, getMember getters object ("@" ++ name) = Except.ok opts ∧
            readWritable opts = Except.ok true)) ∧
      (∀ name g s e c, isOptionKey name = false →
        JsObject.get object name = some (Property.accessor g s e c) →
        JsObject.get out name = some (Property.accessor
          (g.map (fun f => JsFunction.syncApi f ("get " ++ className ++ "." ++ name)))
          (s.map (fun f => JsFunction.syncApi f ("set " ++ className ++ "." ++ name))) e c)) := by
  have hboth : ∀ key prop, isOptionKey key = false → JsObject.get object key = some prop →
      ∃ opts, getMember getters object ("@" ++ key) = Except.ok opts ∧ opts ≠ JsValue.null ∧
        ∀ e c, prop = Property.accessor none none e c → readWritable opts = Except.ok true := by
    intro key prop hkey hprop
    obtain ⟨opts, hget, hnull⟩ :=
      hopts key ((JsObject.mem_keys_iff object key).mpr ⟨prop, hprop⟩) hkey
    refine ⟨opts, hget, hnull, ?_⟩
    intro e c hform
    subst hform
    obtain ⟨opts2, hget2, hw⟩ := hacc key e c hkey hprop
    rw [hget] at hget2
    cases hget2
    exact hw
  obtain ⟨out, hrun, hsame, hwrapped⟩ :=
    wrapObjectLoop_spec getters className object hboth (JsObject.keys object) []
      (fun _ h => h)
  refine ⟨out, hrun, ?_, ?_, ?_⟩
  · intro name
    constructor
    · intro hname
      by_contra hnot
      have hget := hsame name hnot
      obtain ⟨p, hp⟩ := (JsObject.mem_keys_iff out name).mp hname
      rw [hp] at hget
      cases hget
    · rintro ⟨hname, hopt⟩
      obtain ⟨prop, opts, hprop, -, hdata, haccessor⟩ := hwrapped name hname hopt
      apply (JsObject.mem_keys_iff out name).mpr
      cases prop with
      | data v w e c =>
        obtain ⟨v2, w2, h2, -⟩ := hdata v w e c rfl
        exact ⟨_, h2⟩
      | accessor g s e c => exact ⟨_, haccessor g s e c rfl⟩
  · intro name v w e c hopt hprop
    have hname := (JsObject.mem_keys_iff object name).mpr ⟨_, hprop⟩
    obtain ⟨prop, opts, hprop2, hget, hdata, -⟩ := hwrapped name hname hopt
    rw [hprop] at hprop2
    cases hprop2
    obtain ⟨v2, w2, h2, hw⟩ := hdata v w e c rfl
    exact ⟨v2, w2, h2, fun h => ⟨opts, hget, hw h⟩⟩
  · intro name g s e c hopt hprop
    have hname := (JsObject.mem_keys_iff object name).mpr ⟨_, hprop⟩
    obtain ⟨prop, opts, hprop2, -, -, haccessor⟩ := hwrapped name hname hopt
    rw [hprop] at hprop2
    cases hprop2
    exact haccessor g s e c rfl

/-- Instance of C24 (amended): an object with a sync method, a writable
member and a getter. -/
theorem wrapObject_options_are_not_api_witness :
    ∃ out, wrapObject noGetters "Api" demoApiObject = Except.ok out ∧
      (∀ name, name ∈ JsObject.keys out ↔
        name ∈ JsObject.keys demoApiObject ∧ isOptionKey name = false) ∧
      JsObject.keys out = ["ping", "count", "size"] := by
  obtain ⟨out, hrun, hnames, -, -⟩ :=
    wrapObject_options_are_not_api noGetters "Api" demoApiObject
      (by
        intro key hkey hopt
        simp only [demoApiObject, JsObject.keys, List.map_cons, List.map_nil, List.mem_cons,
          List.mem_singleton, List.not_mem_nil, or_false] at hkey
        rcases hkey with h | h | h | h | h <;> subst h
        · exact ⟨_, rfl, by decide⟩
        · exact absurd hopt (by decide)
        · exact ⟨_, rfl, by decide⟩
        · exact absurd hopt (by decide)
        · exact ⟨_, rfl, by decide⟩)
      (by
        intro key e c _ hget
        have hkey := (JsObject.mem_keys_iff demoApiObject key).mpr ⟨_, hget⟩
        simp only [demoApiObject, JsObject.keys, List.map_cons, List.map_nil, List.mem_cons,
          List.mem_singleton, List.not_mem_nil, or_false] at hkey
        rcases hkey with h | h | h | h | h <;> subst h <;>
          simp [demoApiObject, JsObject.get] at hget)
  refine ⟨out, hrun, hnames, ?_⟩
  have hvalue : wrapObject noGetters "Api" demoApiObject = Except.ok
      [("ping", Property.data (JsValue.function
          (JsFunction.syncApi (JsFunction.plain 1) "Api.ping")) false true true),
       ("count", Property.data (JsValue.primitive "1") true true true),
       ("size", Property.accessor
          (some (JsFunction.syncApi (JsFunction.plain 2) "get Api.size")) none true true)] :=
    rfl
  rw [hvalue] at hrun
  cases hrun
  rfl

/-! ## Properties of PIN login -/

mutual
theorem searchTree_none (predicate : LoginStash → Bool) :
    ∀ stashTree : LoginStash, (∀ node ∈ stashNodes stashTree, predicate node = false) →
      searchTree predicate stashTree = none
  | ⟨loginId, username, appId, lastLogin, passwordAuthBox, loginAuthBox, pin2Key,
      recovery2Key, voucherId, children⟩, h => by
    have hroot : predicate ⟨loginId, username, appId, lastLogin, passwordAuthBox, loginAuthBox,
        pin2Key, recovery2Key, voucherId, children⟩ = false :=
      h _ (by simp [stashNodes])
    have hrest := searchChildren_none predicate children
      (fun node hnode => h node (by simp [stashNodes, hnode]))
    simp [searchTree, hroot, hrest]
theorem searchChildren_none (predicate : LoginStash → Bool) :
    ∀ children : List LoginStash, (∀ node ∈ stashNodesAll children, predicate node = false) →
      searchChildren predicate children = none
  | [], _ => by simp [searchChildren]
  | child :: rest, h => by
    have h1 := searchTree_none predicate child
      (fun node hnode => h node (by simp [stashNodesAll, hnode]))
    have h2 := searchChildren_none predicate rest
      (fun node hnode => h node (by simp [stashNodesAll, hnode]))
    simp only [searchChildren, h1, h2]
end

/-- C21: when no node of the cached stash tree of a user has the appId of the
context, `loginWithPIN` fails with the error 'PIN login is not enabled for
this account on this device', whatever the PIN and whatever the remote
authority would answer, and makes no account; and `localUsers` reports
`pinLoginEnabled` false for that tree and appId. -/
theorem pin_login_needs_app_node {A : Type} (D : ContextDeps A)
    (remote : LoginStash → String → Except JsError LoginTree) (base58 : Bytes → String)
    (appId usernameOrLoginId pin : String) (opts : KeyLoginOpts) (stashTree : LoginStash)
    (hstash : lookupStashTree D (opts.useLoginId.getD false) usernameOrLoginId
      = Except.ok (some stashTree))
    (hnone : ∀ node ∈ stashNodes stashTree, node.appId ≠ appId) :
    (loginWithPIN D (fun appId stashTree pin _ => loginPin2 remote appId stashTree pin)
        appId usernameOrLoginId pin opts).result
      = Except.error ⟨"PIN login is not enabled for this account on this device"⟩ ∧
    (loginWithPIN D (fun appId stashTree pin _ => loginPin2 remote appId stashTree pin)
        appId usernameOrLoginId pin opts).accounts = [] ∧
    ∀ username,
      (localUser (specLoginDeps base58) appId username stashTree).pinLoginEnabled = false := by
  have hsearch : searchTree (fun stash => stash.appId = appId) stashTree = none :=
    searchTree_none _ stashTree (fun node hnode => by simpa using hnone node hnode)
  have hfind : findPin2Stash stashTree appId = none := by
    simp only [findPin2Stash, hsearch]
  refine ⟨?_, ?_, ?_⟩
  · simp only [loginWithPIN, hstash, loginPin2, hfind]
  · simp only [loginWithPIN, hstash, loginPin2, hfind]
  · intro username
    simp only [localUser, specLoginDeps, hfind, Option.isSome_none]

/-- Instance of C21: `bob` has PIN login on the app `test`, and the context
of the unknown app `fakeApp` gets the error even with the right PIN. -/
theorem pin_login_needs_app_node_witness :
    (loginWithPIN bobContextDeps
        (fun appId stashTree pin _ => loginPin2 demoPinServer appId stashTree pin)
        "fakeApp" "bob" "1234" ⟨none, none⟩).result
      = Except.error ⟨"PIN login is not enabled for this account on this device"⟩ ∧
    (loginWithPIN bobContextDeps
        (fun appId stashTree pin _ => loginPin2 demoPinServer appId stashTree pin)
        "test" "bob" "1234" ⟨none, none⟩).result = Except.ok "pinLogin" :=
  ⟨(pin_login_needs_app_node bobContextDeps demoPinServer (fun bytes => String.mk (unaryCode bytes))
      "fakeApp" "bob" "1234" ⟨none, none⟩ bobStash rfl (by decide)).1, rfl⟩

/-! ## Properties of the fake login database -/

theorem adopt_loginId (assigned : Option Uint8Array) (login : DbLogin) :
    (adopt assigned login).loginId = login.loginId := by
  cases assigned <;> rfl

theorem isChildOf_adopt_some (x parentId : Uint8Array) (login : DbLogin) :
    isChildOf x (adopt (some parentId) login) = decide (parentId = x) := by
  obtain ⟨p⟩ := parentId
  obtain ⟨q⟩ := x
  by_cases h : p = q
  · simp [isChildOf, adopt, h]
  · simp [isChildOf, adopt, h]

theorem isChildOf_eq_false_iff (x : Uint8Array) (login : DbLogin) :
    isChildOf x login = false ↔ login.parentId ≠ some x := by
  obtain ⟨q⟩ := x
  cases hp : login.parentId with
  | none => simp [isChildOf, hp]
  | some parentId =>
    obtain ⟨p⟩ := parentId
    simp [isChildOf, hp]

theorem setupLoginFrom_cons_eq (logins : List DbLogin) (assigned : Option Uint8Array)
    (login : DbLogin) (children : List EdgeLoginDump) :
    setupLoginFrom logins assigned ⟨login, children⟩
      = setupEach (logins ++ [adopt assigned login]) (some login.loginId) children := by
  simp only [setupLoginFrom]

theorem setupEach_cons_eq (logins : List DbLogin) (assigned : Option Uint8Array)
    (dump : EdgeLoginDump) (rest : List EdgeLoginDump) :
    setupEach logins assigned (dump :: rest)
      = setupEach (setupLoginFrom logins assigned dump) assigned rest := by
  simp only [setupEach]

mutual
theorem setupLoginFrom_append (logins : List DbLogin) (assigned : Option Uint8Array) :
    ∀ dump : EdgeLoginDump,
      setupLoginFrom logins assigned dump = logins ++ setupLoginFrom [] assigned dump
  | ⟨login, children⟩ => by
    rw [setupLoginFrom_cons_eq, setupLoginFrom_cons_eq,
      setupEach_append (logins ++ [adopt assigned login]) (some login.loginId) children,
      setupEach_append ([] ++ [adopt assigned login]) (some login.loginId) children]
    simp
theorem setupEach_append (logins : List DbLogin) (assigned : Option Uint8Array) :
    ∀ dumps : List EdgeLoginDump,
      setupEach logins assigned dumps = logins ++ setupEach [] assigned dumps
  | [] => by simp [setupEach]
  | dump :: rest => by
    rw [setupEach_cons_eq, setupEach_cons_eq,
      setupEach_append (setupLoginFrom logins assigned dump) assigned rest,
      setupEach_append (setupLoginFrom [] assigned dump) assigned rest,
      setupLoginFrom_append logins assigned dump]
    simp
end

theorem setupLoginFrom_nil (assigned : Option Uint8Array) (login : DbLogin)
    (children : List EdgeLoginDump) :
    setupLoginFrom [] assigned ⟨login, children⟩
      = adopt assigned login :: setupEach [] (some login.loginId) children := by
  rw [setupLoginFrom_cons_eq, setupEach_append]
  rfl

theorem setupEach_nil_cons (assigned : Option Uint8Array) (dump : EdgeLoginDump)
    (rest : List EdgeLoginDump) :
    setupEach [] assigned (dump :: rest)
      = setupLoginFrom [] assigned dump ++ setupEach [] assigned rest := by
  rw [setupEach_cons_eq, setupEach_append]

theorem dumpNodes_eq (login : DbLogin) (children : List EdgeLoginDump) :
    dumpNodes ⟨login, children⟩ = ⟨login, children⟩ :: forestNodes children := by
  simp only [dumpNodes]

theorem forestNodes_cons (dump : EdgeLoginDump) (rest : List EdgeLoginDump) :
    forestNodes (dump :: rest) = dumpNodes dump ++ forestNodes rest := by
  simp only [forestNodes]

theorem mem_dumpNodes_self (dump : EdgeLoginDump) : dump ∈ dumpNodes dump := by
  obtain ⟨login, children⟩ := dump
  simp [dumpNodes_eq]

theorem mem_forestNodes_of_mem (dumps : List EdgeLoginDump) (dump : EdgeLoginDump)
    (h : dump ∈ dumps) : dump ∈ forestNodes dumps := by
  induction dumps with
  | nil => cases h
  | cons first rest ih =>
    rw [forestNodes_cons]
    rcases List.mem_cons.mp h with h1 | h1
    · subst h1
      exact List.mem_append_left _ (mem_dumpNodes_self dump)
    · exact List.mem_append_right _ (ih h1)

mutual
theorem forestNodes_children_subset (member : EdgeLoginDump) :
    ∀ dump : EdgeLoginDump, ∀ node ∈ dumpNodes dump, member ∈ forestNodes node.children →
      member ∈ dumpNodes dump
  | ⟨login, children⟩, node, hnode, hmember => by
    rw [dumpNodes_eq] at hnode ⊢
    rcases List.mem_cons.mp hnode with h | h
    · subst h
      exact List.mem_cons_of_mem _ hmember
    · exact List.mem_cons_of_mem _
        (forestNodes_children_subset_each member children node h hmember)
theorem forestNodes_children_subset_each (member : EdgeLoginDump) :
    ∀ dumps : List EdgeLoginDump, ∀ node ∈ forestNodes dumps,
      member ∈ forestNodes node.children → member ∈ forestNodes dumps
  | [], node, hnode, _ => by simp [forestNodes] at hnode
  | dump :: rest, node, hnode, hmember => by
    rw [forestNodes_cons] at hnode ⊢
    rcases List.mem_append.mp hnode with h | h
    · exact List.mem_append_left _ (forestNodes_children_subset member dump node h hmember)
    · exact List.mem_append_right _
        (forestNodes_children_subset_each member rest node h hmember)
end

theorem dumpHeight_le_forestHeight (dumps : List EdgeLoginDump) (dump : EdgeLoginDump)
    (h : dump ∈ dumps) : dumpHeight dump ≤ forestHeight dumps := by
  induction dumps with
  | nil => cases h
  | cons first rest ih =>
    simp only [forestHeight]
    rcases List.mem_cons.mp h with h1 | h1
    · subst h1
      exact Nat.le_max_left _ _
    · exact Nat.le_trans (ih h1) (Nat.le_max_right _ _)

theorem dumpHeight_child_lt (node child : EdgeLoginDump) (h : child ∈ node.children) :
    dumpHeight child < dumpHeight node := by
  obtain ⟨login, children⟩ := node
  simp only [dumpHeight]
  exact Nat.lt_succ_of_le (dumpHeight_le_forestHeight children child h)

theorem assignEach_eq_map (assigned : Option Uint8Array) (dumps : List EdgeLoginDump) :
    assignEach assigned dumps = dumps.map (assignParents assigned) := by
  induction dumps with
  | nil => simp [assignEach]
  | cons dump rest ih => simp [assignEach, ih]

theorem payloadOfEach_eq_map (dumps : List EdgeLoginDump) :
    payloadOfEach dumps = dumps.map payloadOfDump := by
  induction dumps with
  | nil => simp [payloadOfEach]
  | cons dump rest ih => simp [payloadOfEach, ih]

theorem gather_map_some {α β : Type} (f : α → β) (xs : List α) :
    gather (xs.map (fun x => some (f x))) = some (xs.map f) := by
  induction xs with
  | nil => rfl
  | cons x rest ih => simp [gather, ih]

theorem gather_map_map {α β γ : Type} (f : α → Option β) (g : β → γ) (xs : List α) :
    gather (xs.map (fun x => (f x).map g)) = (gather (xs.map f)).map (List.map g) := by
  induction xs with
  | nil => rfl
  | cons x rest ih =>
    cases hx : f x with
    | none => simp [gather, hx]
    | some b =>
      simp only [List.map_cons, hx, Option.map_some', gather, ih]
      cases gather (rest.map f) <;> rfl


theorem filter_adopted_other (x parentId : Uint8Array) (h : parentId ≠ x)
    (dumps : List EdgeLoginDump) :
    (dumps.map (fun d => adopt (some parentId) d.login)).filter (isChildOf x) = [] := by
  rw [List.filter_eq_nil_iff]
  intro login hlogin
  obtain ⟨d, -, hd⟩ := List.mem_map.mp hlogin
  subst hd
  simp [isChildOf_adopt_some, h]

theorem filter_adopted_same (x : Uint8Array) (dumps : List EdgeLoginDump) :
    (dumps.map (fun d => adopt (some x) d.login)).filter (isChildOf x)
      = dumps.map (fun d => adopt (some x) d.login) := by
  rw [List.filter_eq_self]
  intro login hlogin
  obtain ⟨d, -, hd⟩ := List.mem_map.mp hlogin
  subst hd
  simp [isChildOf_adopt_some]

mutual
theorem filter_setupLoginFrom_absent (x : Uint8Array) (assigned : Option Uint8Array) :
    ∀ dump : EdgeLoginDump, x ∉ (dumpNodes dump).map (fun n => n.login.loginId) →
      (setupLoginFrom [] assigned dump).filter (isChildOf x)
        = [adopt assigned dump.login].filter (isChildOf x)
  | ⟨login, children⟩, h => by
    rw [dumpNodes_eq, List.map_cons, List.mem_cons, not_or] at h
    obtain ⟨hroot, hrest⟩ := h
    have hne : login.loginId ≠ x := fun heq => hroot heq.symm
    rw [setupLoginFrom_nil, List.filter_cons,
      filter_setupEach_absent x (some login.loginId) children hrest,
      filter_adopted_other x login.loginId hne children]
    simp [List.filter_cons]
theorem filter_setupEach_absent (x : Uint8Array) (assigned : Option Uint8Array) :
    ∀ dumps : List EdgeLoginDump, x ∉ (forestNodes dumps).map (fun n => n.login.loginId) →
      (setupEach [] assigned dumps).filter (isChildOf x)
        = (dumps.map (fun d => adopt assigned d.login)).filter (isChildOf x)
  | [], _ => by simp [setupEach]
  | dump :: rest, h => by
    rw [forestNodes_cons, List.map_append, List.mem_append, not_or] at h
    obtain ⟨hfirst, hrest⟩ := h
    rw [setupEach_nil_cons, List.filter_append,
      filter_setupLoginFrom_absent x assigned dump hfirst,
      filter_setupEach_absent x assigned rest hrest, List.map_cons, ← List.filter_append]
    rfl
end

mutual
theorem filter_setupLoginFrom_present (x : Uint8Array) (assigned : Option Uint8Array)
    (node : EdgeLoginDump) (hx : node.login.loginId = x) :
    ∀ dump : EdgeLoginDump, ((dumpNodes dump).map (fun n => n.login.loginId)).Nodup →
      node ∈ dumpNodes dump → isChildOf x (adopt assigned dump.login) = false →
      (setupLoginFrom [] assigned dump).filter (isChildOf x)
        = node.children.map (fun c => adopt (some x) c.login)
  | ⟨login, children⟩, hnodup, hnode, hroot => by
    rw [dumpNodes_eq, List.map_cons, List.nodup_cons] at hnodup
    obtain ⟨hfresh, hnodup2⟩ := hnodup
    rw [dumpNodes_eq] at hnode
    have hroot2 : isChildOf x (adopt assigned login) = false := hroot
    rw [setupLoginFrom_nil, List.filter_cons, hroot2]
    simp only [Bool.false_eq_true, if_false]
    rcases List.mem_cons.mp hnode with h | h
    · subst h
      have hx2 : login.loginId = x := hx
      have hfresh2 : login.loginId ∉ (forestNodes children).map (fun n => n.login.loginId) :=
        hfresh
      subst hx2
      rw [filter_setupEach_absent login.loginId (some login.loginId) children hfresh2,
        filter_adopted_same]
    · have hne : login.loginId ≠ x := by
        intro heq
        apply hfresh
        rw [heq, ← hx]
        exact List.mem_map.mpr ⟨node, h, rfl⟩
      apply filter_setupEach_present x (some login.loginId) node hx children hnodup2 h
      intro d _
      simp [isChildOf_adopt_some, hne]
theorem filter_setupEach_present (x : Uint8Array) (assigned : Option Uint8Array)
    (node : EdgeLoginDump) (hx : node.login.loginId = x) :
    ∀ dumps : List EdgeLoginDump, ((forestNodes dumps).map (fun n => n.login.loginId)).Nodup →
      node ∈ forestNodes dumps →
      (∀ d ∈ dumps, isChildOf x (adopt assigned d.login) = false) →
      (setupEach [] assigned dumps).filter (isChildOf x)
        = node.children.map (fun c => adopt (some x) c.login)
  | [], _, hnode, _ => by simp [forestNodes] at hnode
  | dump :: rest, hnodup, hnode, hroots => by
    rw [forestNodes_cons, List.map_append, List.nodup_append] at hnodup
    obtain ⟨hnodup1, hnodup2, hdisjoint⟩ := hnodup
    rw [forestNodes_cons] at hnode
    have hroot := hroots dump (by simp)
    have hrest : ∀ d ∈ rest, isChildOf x (adopt assigned d.login) = false :=
      fun d hd => hroots d (List.mem_cons_of_mem _ hd)
    have hnone : (rest.map (fun d => adopt assigned d.login)).filter (isChildOf x) = [] := by
      rw [List.filter_eq_nil_iff]
      intro login hlogin
      obtain ⟨d, hd, hd2⟩ := List.mem_map.mp hlogin
      subst hd2
      simp [hrest d hd]
    rw [setupEach_nil_cons, List.filter_append]
    rcases List.mem_append.mp hnode with h | h
    · have hin : x ∈ (dumpNodes dump).map (fun n => n.login.loginId) :=
        List.mem_map.mpr ⟨node, h, hx⟩
      have hout : x ∉ (forestNodes rest).map (fun n => n.login.loginId) :=
        fun h2 => hdisjoint hin h2
      rw [filter_setupLoginFrom_present x assigned node hx dump hnodup1 h hroot,
        filter_setupEach_absent x assigned rest hout, hnone, List.append_nil]
    · have hin : x ∈ (forestNodes rest).map (fun n => n.login.loginId) :=
        List.mem_map.mpr ⟨node, h, hx⟩
      have hout : x ∉ (dumpNodes dump).map (fun n => n.login.loginId) :=
        fun h2 => hdisjoint h2 hin
      rw [filter_setupLoginFrom_absent x assigned dump hout,
        filter_setupEach_present x assigned node hx rest hnodup2 h hrest]
      simp [List.filter_cons, hroot]
end


theorem getLoginsByParent_restored (dumps : List EdgeLoginDump)
    (hnodup : ((forestNodes dumps).map (fun n => n.login.loginId)).Nodup)
    (hroots : ∀ d ∈ dumps, ∀ node ∈ forestNodes dumps,
      d.login.parentId ≠ some node.login.loginId)
    (node : EdgeLoginDump) (hnode : node ∈ forestNodes dumps) (login : DbLogin)
    (hlogin : login.loginId = node.login.loginId) :
    FakeDb.getLoginsByParent ⟨setupEach [] none dumps⟩ login
      = node.children.map (fun c => adopt (some node.login.loginId) c.login) := by
  simp only [FakeDb.getLoginsByParent, hlogin]
  exact filter_setupEach_present node.login.loginId none node rfl dumps hnodup hnode
    (fun d hd => (isChildOf_eq_false_iff node.login.loginId d.login).mpr (hroots d hd node hnode))

theorem makeTree_restored (db : FakeDb) (dumps : List EdgeLoginDump)
    (hfaithful : ∀ node ∈ forestNodes dumps, ∀ login : DbLogin,
      login.loginId = node.login.loginId →
      db.getLoginsByParent login
        = node.children.map (fun c => adopt (some node.login.loginId) c.login)) :
    ∀ (fuel : Nat) (node : EdgeLoginDump), node ∈ forestNodes dumps →
      ∀ assigned : Option Uint8Array, dumpHeight node < fuel →
        makeTree db fuel (adopt assigned node.login) = some (assignParents assigned node) := by
  intro fuel
  induction fuel with
  | zero => intro node _ _ h; exact absurd h (Nat.not_lt_zero _)
  | succ fuel ih =>
    intro node hnode assigned hlt
    have hkids := hfaithful node hnode (adopt assigned node.login) (adopt_loginId _ _)
    have hall : (node.children.map (fun c => adopt (some node.login.loginId) c.login)).map
        (makeTree db fuel)
        = node.children.map (fun c => some (assignParents (some node.login.loginId) c)) := by
      rw [List.map_map]
      apply List.map_congr_left
      intro c hc
      have hmem : c ∈ forestNodes dumps :=
        forestNodes_children_subset_each c dumps node hnode
          (mem_forestNodes_of_mem node.children c hc)
      have hheight : dumpHeight c < fuel :=
        Nat.lt_of_lt_of_le (dumpHeight_child_lt node c hc) (Nat.le_of_lt_succ hlt)
      exact ih c hmem (some node.login.loginId) hheight
    obtain ⟨login, children⟩ := node
    simp only [makeTree, hkids, hall, gather_map_some, assignParents, assignEach_eq_map]

theorem assignParents_login (assigned : Option Uint8Array) (dump : EdgeLoginDump) :
    (assignParents assigned dump).login = adopt assigned dump.login := by
  obtain ⟨login, children⟩ := dump
  simp only [assignParents]

theorem assignParents_children (assigned : Option Uint8Array) (dump : EdgeLoginDump) :
    (assignParents assigned dump).children
      = dump.children.map (assignParents (some dump.login.loginId)) := by
  obtain ⟨login, children⟩ := dump
  simp only [assignParents, assignEach_eq_map]

mutual
theorem dumpHeight_assignParents (assigned : Option Uint8Array) :
    ∀ dump : EdgeLoginDump, dumpHeight (assignParents assigned dump) = dumpHeight dump
  | ⟨login, children⟩ => by
    simp only [assignParents, dumpHeight,
      forestHeight_assignEach (some login.loginId) children]
theorem forestHeight_assignEach (assigned : Option Uint8Array) :
    ∀ dumps : List EdgeLoginDump, forestHeight (assignEach assigned dumps) = forestHeight dumps
  | [] => by simp only [assignEach]
  | dump :: rest => by
    simp only [assignEach, forestHeight, dumpHeight_assignParents assigned dump,
      forestHeight_assignEach assigned rest]
end

mutual
theorem assignParents_linked (assigned : Option Uint8Array) :
    ∀ dump : EdgeLoginDump, ∀ node ∈ dumpNodes (assignParents assigned dump),
      ∀ child ∈ node.children, child.login.parentId = some node.login.loginId
  | ⟨login, children⟩, node, hnode, child, hchild => by
    simp only [assignParents] at hnode
    rw [dumpNodes_eq] at hnode
    rcases List.mem_cons.mp hnode with h | h
    · subst h
      simp only [assignEach_eq_map] at hchild
      obtain ⟨c, -, hc⟩ := List.mem_map.mp hchild
      subst hc
      rw [assignParents_login, adopt_loginId]
      rfl
    · exact assignEach_linked (some login.loginId) children node h child hchild
theorem assignEach_linked (assigned : Option Uint8Array) :
    ∀ dumps : List EdgeLoginDump, ∀ node ∈ forestNodes (assignEach assigned dumps),
      ∀ child ∈ node.children, child.login.parentId = some node.login.loginId
  | [], node, hnode, _, _ => by simp [assignEach, forestNodes] at hnode
  | dump :: rest, node, hnode, child, hchild => by
    simp only [assignEach] at hnode
    rw [forestNodes_cons] at hnode
    rcases List.mem_append.mp hnode with h | h
    · exact assignParents_linked assigned dump node h child hchild
    · exact assignEach_linked assigned rest node h child hchild
end

mutual
theorem mem_setupLoginFrom (assigned : Option Uint8Array) (login : DbLogin) :
    ∀ dump : EdgeLoginDump, login ∈ setupLoginFrom [] assigned dump →
      ∃ node ∈ dumpNodes dump, ∃ given : Option Uint8Array, login = adopt given node.login
  | ⟨rootLogin, children⟩, h => by
    rw [setupLoginFrom_nil] at h
    rcases List.mem_cons.mp h with h1 | h1
    · exact ⟨⟨rootLogin, children⟩, mem_dumpNodes_self _, assigned, h1⟩
    · obtain ⟨node, hnode, given, hgiven⟩ :=
        mem_setupEach (some rootLogin.loginId) login children h1
      exact ⟨node, by rw [dumpNodes_eq]; exact List.mem_cons_of_mem _ hnode, given, hgiven⟩
theorem mem_setupEach (assigned : Option Uint8Array) (login : DbLogin) :
    ∀ dumps : List EdgeLoginDump, login ∈ setupEach [] assigned dumps →
      ∃ node ∈ forestNodes dumps, ∃ given : Option Uint8Array, login = adopt given node.login
  | [], h => by simp [setupEach] at h
  | dump :: rest, h => by
    rw [setupEach_nil_cons] at h
    rw [forestNodes_cons]
    rcases List.mem_append.mp h with h1 | h1
    · obtain ⟨node, hnode, given, hgiven⟩ := mem_setupLoginFrom assigned login dump h1
      exact ⟨node, List.mem_append_left _ hnode, given, hgiven⟩
    · obtain ⟨node, hnode, given, hgiven⟩ := mem_setupEach assigned login rest h1
      exact ⟨node, List.mem_append_right _ hnode, given, hgiven⟩
end

theorem logins_foldl_setupLogin (dumps : List EdgeLoginDump) (db : FakeDb) :
    (dumps.foldl FakeDb.setupLogin db).logins = setupEach db.logins none dumps := by
  induction dumps generalizing db with
  | nil => simp [setupEach]
  | cons dump rest ih =>
    rw [List.foldl_cons, ih, setupEach_cons_eq]
    rfl

theorem makeLoginPayload_eq_map (db : FakeDb) (fuel : Nat) (login : DbLogin) :
    makeLoginPayload db fuel login = (makeTree db fuel login).map payloadOfDump := by
  induction fuel generalizing login with
  | zero => rfl
  | succ fuel ih =>
    have hall : (db.getLoginsByParent login).map (makeLoginPayload db fuel)
        = (db.getLoginsByParent login).map
          (fun child => (makeTree db fuel child).map payloadOfDump) :=
      List.map_congr_left (fun child _ => ih child)
    simp only [makeLoginPayload, makeTree, hall, gather_map_map]
    cases gather ((db.getLoginsByParent login).map (makeTree db fuel)) with
    | none => rfl
    | some children => simp [payloadOfDump, payloadOfEach_eq_map]

theorem makeTree_selfParent (fuel : Nat) :
    makeTree (FakeDb.empty.setupLogin selfParentDump) fuel selfParentDump.login = none := by
  induction fuel with
  | zero => rfl
  | succ fuel ih =>
    have hkids : (FakeDb.empty.setupLogin selfParentDump).getLoginsByParent selfParentDump.login
        = [selfParentDump.login] := by decide
    simp only [makeTree, hkids, List.map_cons, List.map_nil, ih, gather]


theorem nodup_loginIds_of_contents (contents : Uint8Array → Bytes) (nodes : List EdgeLoginDump)
    (h : (nodes.map (fun n => contents n.login.loginId)).Nodup) :
    (nodes.map (fun n => n.login.loginId)).Nodup := by
  have h2 : ((nodes.map (fun n => n.login.loginId)).map contents).Nodup := by
    rw [List.map_map]
    exact h
  exact List.Nodup.of_map contents h2

/-- C22, counterexample: the dump `{ loginId: id, parentId: id, children: [] }`
has one loginId, `getLoginById` finds its login after `setupLogin` on an empty
database, that login is its own child for `getLoginsByParent`, and `dumpLogin`
of it does not return, however deep the calls may nest. -/
theorem dumpLogin_self_parent_never_returns :
    ((dumpNodes selfParentDump).map (fun n => demoContents n.login.loginId)).Nodup ∧
    (FakeDb.empty.setupLogin selfParentDump).getLoginById (fun a b => decide (a = b))
        demoContents selfParentDump.login.loginId = some selfParentDump.login ∧
    (FakeDb.empty.setupLogin selfParentDump).getLoginsByParent selfParentDump.login
      = [selfParentDump.login] ∧
    ∀ fuel, (FakeDb.empty.setupLogin selfParentDump).dumpLogin fuel selfParentDump.login = none :=
  ⟨by decide, by decide, by decide, fun fuel => makeTree_selfParent fuel⟩

/-- C22, amended: for every dump tree whose loginIds are pairwise distinct and
whose root has no `parentId` that is the loginId of a node of the tree, after
`setupLogin(dump)` on an empty database `getLoginById(dump.loginId)` finds
the root login, and `dumpLogin` of it returns, once the calls may nest deeper
than the tree is high, the tree `setupLogin` left in place of its argument:
the original nodes in the original order, each node below the root with the
`parentId` that is its parent's loginId. -/
theorem dump_restore_roundtrip (verifyData : Bytes → Bytes → Bool)
    (contents : Uint8Array → Bytes) (dump : EdgeLoginDump)
    (hverify : ∀ bytes, verifyData bytes bytes = true)
    (hdistinct : ((dumpNodes dump).map (fun n => contents n.login.loginId)).Nodup)
    (hroot : ∀ node ∈ dumpNodes dump, dump.login.parentId ≠ some node.login.loginId) :
    (FakeDb.empty.setupLogin dump).getLoginById verifyData contents dump.login.loginId
      = some dump.login ∧
    (∀ fuel, dumpHeight dump < fuel →
      (FakeDb.empty.setupLogin dump).dumpLogin fuel dump.login
        = some (assignParents none dump)) ∧
    (assignParents none dump).login = dump.login ∧
    (∀ assigned login, { adopt assigned login with parentId := login.parentId } = login) ∧
    (∀ node ∈ dumpNodes (assignParents none dump), ∀ child ∈ node.children,
      child.login.parentId = some node.login.loginId) := by
  have hnodes : forestNodes [dump] = dumpNodes dump := by
    simp [forestNodes]
  have hlogins : (FakeDb.empty.setupLogin dump) = ⟨setupEach [] none [dump]⟩ := by
    simp only [FakeDb.setupLogin, FakeDb.empty, setupEach]
  have hnodup : ((forestNodes [dump]).map (fun n => n.login.loginId)).Nodup := by
    rw [hnodes]
    exact nodup_loginIds_of_contents contents _ hdistinct
  have hroots : ∀ d ∈ [dump], ∀ node ∈ forestNodes [dump],
      d.login.parentId ≠ some node.login.loginId := by
    intro d hd node hnode
    rw [List.mem_singleton] at hd
    subst hd
    rw [hnodes] at hnode
    exact hroot node hnode
  refine ⟨?_, ?_, ?_, ?_, ?_⟩
  · obtain ⟨login, children⟩ := dump
    simp only [FakeDb.getLoginById, FakeDb.setupLogin, FakeDb.empty, setupLoginFrom_nil]
    simp [List.find?_cons, adopt, hverify]
  · intro fuel hfuel
    rw [hlogins]
    exact makeTree_restored ⟨setupEach [] none [dump]⟩ [dump]
      (fun node hnode login hlogin =>
        getLoginsByParent_restored [dump] hnodup hroots node hnode login hlogin)
      fuel dump (by rw [hnodes]; exact mem_dumpNodes_self dump) none hfuel
  · exact assignParents_login none dump
  · intro assigned login
    cases assigned <;> rfl
  · exact assignParents_linked none dump

/-- Instance of C22 (amended): a root with two children and a grandchild. -/
theorem dump_restore_roundtrip_witness :
    (FakeDb.empty.setupLogin familyDump).getLoginById (fun a b => decide (a = b))
        demoContents familyDump.login.loginId = some familyDump.login ∧
    (FakeDb.empty.setupLogin familyDump).dumpLogin 4 familyDump.login
      = some ⟨bareLogin "" ⟨1⟩ none,
          [⟨bareLogin "app1" ⟨2⟩ (some ⟨1⟩), [⟨bareLogin "app1/sub" ⟨4⟩ (some ⟨2⟩), []⟩]⟩,
           ⟨bareLogin "app2" ⟨3⟩ (some ⟨1⟩), []⟩]⟩ :=
  ⟨(dump_restore_roundtrip (fun a b => decide (a = b)) demoContents familyDump
      (by simp) (by decide) (by decide)).1,
   (dump_restore_roundtrip (fun a b => decide (a = b)) demoContents familyDump
      (by simp) (by decide) (by decide)).2.1 4 (by decide)⟩

/-- C29, counterexample: in the database `setupLogin` fills from the dump
`{ loginId: id, parentId: id, children: [] }`, whose only loginId is distinct
from no other, the stored login is its own child, and `makeLoginPayload` of
it does not return, however deep the calls may nest. -/
theorem makeLoginPayload_self_parent_never_returns :
    selfParentDump.login ∈ (FakeDb.empty.setupLogin selfParentDump).logins ∧
    ((dumpNodes selfParentDump).map (fun n => demoContents n.login.loginId)).Nodup ∧
    ∀ fuel, makeLoginPayload (FakeDb.empty.setupLogin selfParentDump) fuel selfParentDump.login
      = none := by
  refine ⟨by decide, by decide, ?_⟩
  intro fuel
  rw [makeLoginPayload_eq_map, makeTree_selfParent]
  rfl

/-- C29, amended: in a database filled by `setupLogin` of dump trees whose
loginIds are pairwise distinct and whose roots have no `parentId` that is the
loginId of a node of these trees, for every stored login there is a dump tree
with that login at its root such that, once the calls may nest deeper than
the tree is high, `dumpLogin` returns the tree and `makeLoginPayload` returns
the payload with the same nodes, each with the loginId of its login and with
`makePendingVouchers` of its login as `pendingVouchers`. In any database,
whenever one of the two returns so does the other, with these results. -/
theorem makeLoginPayload_terminates (contents : Uint8Array → Bytes)
    (dumps : List EdgeLoginDump) (login : DbLogin)
    (hdistinct : ((forestNodes dumps).map (fun n => contents n.login.loginId)).Nodup)
    (hroots : ∀ d ∈ dumps, ∀ node ∈ forestNodes dumps,
      d.login.parentId ≠ some node.login.loginId)
    (hlogin : login ∈ (dumps.foldl FakeDb.setupLogin FakeDb.empty).logins) :
    (∃ tree : EdgeLoginDump, tree.login = login ∧
      ∀ fuel, dumpHeight tree < fuel →
        (dumps.foldl FakeDb.setupLogin FakeDb.empty).dumpLogin fuel login = some tree ∧
        makeLoginPayload (dumps.foldl FakeDb.setupLogin FakeDb.empty) fuel login
          = some (payloadOfDump tree)) ∧
    (∀ (db : FakeDb) (fuel : Nat) (stored : DbLogin),
      makeLoginPayload db fuel stored = (db.dumpLogin fuel stored).map payloadOfDump) ∧
    (∀ tree : EdgeLoginDump,
      (payloadOfDump tree).loginId = tree.login.loginId ∧
      (payloadOfDump tree).pendingVouchers = makePendingVouchers tree.login ∧
      (payloadOfDump tree).children = tree.children.map payloadOfDump) := by
  have hdb : dumps.foldl FakeDb.setupLogin FakeDb.empty = ⟨setupEach [] none dumps⟩ := by
    have h := logins_foldl_setupLogin dumps FakeDb.empty
    cases hfold : dumps.foldl FakeDb.setupLogin FakeDb.empty with
    | mk logins =>
      rw [hfold] at h
      simp only [FakeDb.empty] at h
      rw [← h]
  have hnodup := nodup_loginIds_of_contents contents _ hdistinct
  refine ⟨?_, fun db fuel stored => makeLoginPayload_eq_map db fuel stored, ?_⟩
  · rw [hdb] at hlogin ⊢
    obtain ⟨node, hnode, given, hgiven⟩ := mem_setupEach none login dumps hlogin
    refine ⟨assignParents given node, ?_, ?_⟩
    · rw [assignParents_login, hgiven]
    · intro fuel hfuel
      rw [dumpHeight_assignParents] at hfuel
      have htree : makeTree ⟨setupEach [] none dumps⟩ fuel login
          = some (assignParents given node) := by
        rw [hgiven]
        exact makeTree_restored ⟨setupEach [] none dumps⟩ dumps
          (fun n hn l hl => getLoginsByParent_restored dumps hnodup hroots n hn l hl)
          fuel node hnode given hfuel
      refine ⟨htree, ?_⟩
      rw [makeLoginPayload_eq_map, htree]
      rfl
  · intro tree
    obtain ⟨rootLogin, children⟩ := tree
    simp [payloadOfDump, payloadOfEach_eq_map, loginPayloadOf]

/-- Instance of C29 (amended): the login of the first child in the database
restored from the dump of a root with two children and a grandchild. -/
theorem makeLoginPayload_terminates_witness :
    ∃ tree : EdgeLoginDump, tree.login = bareLogin "app1" ⟨2⟩ (some ⟨1⟩) ∧
      ∀ fuel, dumpHeight tree < fuel →
        ([familyDump].foldl FakeDb.setupLogin FakeDb.empty).dumpLogin fuel
          (bareLogin "app1" ⟨2⟩ (some ⟨1⟩)) = some tree ∧
        makeLoginPayload ([familyDump].foldl FakeDb.setupLogin FakeDb.empty) fuel
          (bareLogin "app1" ⟨2⟩ (some ⟨1⟩)) = some (payloadOfDump tree) :=
  (makeLoginPayload_terminates demoContents [familyDump] (bareLogin "app1" ⟨2⟩ (some ⟨1⟩))
    (by decide) (by decide) (by decide)).1

end EdgeCore
